import Mathlib

/-! # Subchain stem commitments of go-seele-sub

A shallow embedding of the second-witness codec (`core/types/secondWitness.go`),
of the transaction selection and the stem computations of block assembly
(`miner/task.go`), of the proof service (`api/api_subchain.go`) and of the BFT
pre-prepare handler (`consensus/bft/core/preprepare.go`), with theorems about them.

Byte strings are lists of `Fin 256`; `uint64` values are natural numbers reduced
modulo `2 ^ 64` wherever the Go code performs arithmetic on them.
-/

namespace Seele

/-! ## Bytes and big-endian integers -/

abbrev Byte := Fin 256
abbrev Bytes := List Byte

/-- The byte holding the low eight bits of `n` (Go: `byte(n)`). -/
def byteOf (n : Nat) : Byte := ⟨n % 256, Nat.mod_lt _ (by decide)⟩

/-- Big-endian bytes of `n` without leading zeros, `fuel` bounding the number of bytes. -/
def toBEAux : Nat → Nat → Bytes
  | 0, _ => []
  | fuel + 1, n => if n = 0 then [] else toBEAux fuel (n / 256) ++ [byteOf (n % 256)]

/-- Minimal big-endian representation (rlp `putint`, `big.Int.Bytes`); zero is the empty string. -/
def toBE (n : Nat) : Bytes := toBEAux n n

/-- Value of a big-endian byte string (rlp `readUint`). -/
def fromBE (bs : Bytes) : Nat := bs.foldl (fun acc b => acc * 256 + b.val) 0

/-! ## RLP encoding (the rules of `github.com/ethereum/go-ethereum/rlp`) -/

/-- Header of a string (`offset = 0x80`) or list (`offset = 0xC0`) of `size` payload bytes. -/
def encodeHeader (offset size : Nat) : Bytes :=
  if size < 56 then [byteOf (offset + size)]
  else byteOf (offset + 55 + (toBE size).length) :: toBE size

/-- Encoding of a byte string: a single byte below `0x80` is its own encoding. -/
def encodeString (b : Bytes) : Bytes :=
  match b with
  | [x] => if x.val < 0x80 then [x] else encodeHeader 0x80 1 ++ [x]
  | _ => encodeHeader 0x80 b.length ++ b

/-- Encoding of an unsigned integer (`uint`, `uint64`, non-negative `*big.Int`). -/
def encodeUint (n : Nat) : Bytes := encodeString (toBE n)

/-- Encoding of a list whose elements are already encoded into `payload`. -/
def encodeList (payload : Bytes) : Bytes := encodeHeader 0xC0 payload.length ++ payload

/-! ## RLP decoding -/

/-- What the first byte of an item announces (rlp `Kind` with its size). -/
inductive Head where
  | byte (b : Byte)
  | string (size : Nat)
  | list (size : Nat)
deriving DecidableEq

/-- Size given by `lenlen` big-endian bytes; it must have no leading zero and be at least 56. -/
def readSize (input : Bytes) (lenlen : Nat) : Option (Nat × Bytes) :=
  if input.length < lenlen then none
  else
    match input.take lenlen with
    | [] => none
    | b :: bs =>
      if b.val = 0 then none
      else if fromBE (b :: bs) < 56 then none
      else some (fromBE (b :: bs), input.drop lenlen)

/-- Reads the header of the next item (rlp `Stream.readKind`). -/
def readKind (input : Bytes) : Option (Head × Bytes) :=
  match input with
  | [] => none
  | b :: rest =>
    if b.val < 0x80 then some (Head.byte b, rest)
    else if b.val < 0xB8 then some (Head.string (b.val - 0x80), rest)
    else if b.val < 0xC0 then
      match readSize rest (b.val - 0xB7) with
      | some (size, r) => some (Head.string size, r)
      | none => none
    else if b.val < 0xF8 then some (Head.list (b.val - 0xC0), rest)
    else
      match readSize rest (b.val - 0xF7) with
      | some (size, r) => some (Head.list size, r)
      | none => none

/-- Reads one byte string and returns it with the remaining input (rlp `Stream.Bytes`). -/
def decodeString (input : Bytes) : Option (Bytes × Bytes) :=
  match readKind input with
  | some (Head.byte b, rest) => some ([b], rest)
  | some (Head.string size, rest) =>
    if rest.length < size then none
    else
      match rest.take size with
      | [x] => if x.val < 0x80 then none else some ([x], rest.drop size)
      | s => some (s, rest.drop size)
  | _ => none

/-- Reads a list header and returns the list payload with the remaining input (rlp `Stream.List`). -/
def decodeList (input : Bytes) : Option (Bytes × Bytes) :=
  match readKind input with
  | some (Head.list size, rest) =>
    if rest.length < size then none else some (rest.take size, rest.drop size)
  | _ => none

/-- Reads an arbitrary-precision unsigned integer: no leading zero byte (rlp `decodeBigInt`). -/
def decodeBigInt (input : Bytes) : Option (Nat × Bytes) :=
  match decodeString input with
  | some (s, rest) => if s.head? = some 0 then none else some (fromBE s, rest)
  | none => none

/-- Reads a `uint64`: at most eight bytes, no leading zero (rlp `Stream.Uint`). -/
def decodeUint64 (input : Bytes) : Option (Nat × Bytes) :=
  match decodeString input with
  | some (s, rest) =>
    if 8 < s.length then none
    else if s.head? = some 0 then none
    else some (fromBE s, rest)
  | none => none

/-- Reads the elements of a list payload until it is exhausted. -/
def decodeElems {α : Type} (dec : Bytes → Option (α × Bytes)) : Nat → Bytes → Option (List α)
  | _, [] => some []
  | 0, _ :: _ => none
  | fuel + 1, b :: bs =>
    match dec (b :: bs) with
    | some (x, rest) =>
      match decodeElems dec fuel rest with
      | some xs => some (x :: xs)
      | none => none
    | none => none

/-! ## Data model -/

/-- Errors the modelled functions can return; `sliceBounds` stands for the Go run-time panic
of slicing past the end of a byte slice, `divideByZero` for the panic of a division by zero,
`dbFailure` for the error of a key-value store call that fails, `stacked` for an error wrapped
by `errors.NewStackedErrorf`. -/
inductive Error where
  | ErrInvalidBftHeaderExtra
  | rlpNegativeBigInt
  | rlpDecode
  | sliceBounds
  | dbNotFound
  | blockNotFound
  | payloadDecode
  | notFound
  | divideByZero
  | heightTooLow
  | mustBeRelayBlock
  | dbFailure
  | stacked (inner : Error)
deriving DecidableEq

/-- Account identifier, `common.Address`: an array of 20 bytes. -/
abbrev Address := { bs : Bytes // bs.length = 20 }

/-- Content digest, `common.Hash`: an array of 32 bytes. -/
abbrev Hash := { bs : Bytes // bs.length = 32 }

/-- The all-zero hash, `common.EmptyHash`. -/
def EmptyHash : Hash := ⟨List.replicate 32 0, rfl⟩

/-- Signature of the block creator, `crypto.Signature`. -/
structure Signature where
  Sig : Bytes
deriving DecidableEq

/-- Modelled from the spec: the payload of `types.Transaction`, declared outside the files under
study. The fields are those the spec lists for a transaction and the code reads through
`tx.Data`; `Amount` and `GasPrice` are `*big.Int`, the counters are `uint64`. -/
structure TransactionData where
  From : Address
  To : Address
  Amount : Int
  AccountNonce : Nat
  GasPrice : Int
  GasLimit : Nat
  Payload : Bytes
deriving DecidableEq

/-- Modelled from the spec: `types.Transaction`, a hash and the transaction data. -/
structure Transaction where
  Hash : Hash
  Data : TransactionData
deriving DecidableEq

/-- The second-witness payload, `types.SecondWitnessInfo`; `AccountCount` is a `uint64`. -/
structure SecondWitnessInfo where
  ChallengedTxs : List Transaction
  DepositVers : List Address
  ExitVers : List Address
  AccountCount : Nat
  TxHashStem : Hash
  StateHashStem : Hash
  RecentTxHashStem : Hash
  BlockSig : Signature
deriving DecidableEq

/-- The fields of `types.BlockHeader` that the code under study reads or writes; `Consensus`
is the `ConsensusType` tag, `StateHash` the root of the state after the block and
`CreateTimestamp` a `*big.Int`. -/
structure BlockHeader where
  Creator : Address
  Height : Nat
  ExtraData : Bytes
  SecondWitness : Bytes
  StateHash : Hash := EmptyHash
  Consensus : Nat := 0
  CreateTimestamp : Nat := 0
deriving DecidableEq

/-- Modelled from the spec: `types.Receipt`, the per-transaction execution result, declared
outside the files under study; the code only stores receipts. -/
structure Receipt where
  TxHash : Hash
  Result : Bytes
deriving DecidableEq

/-! ## Type-directed RLP of the data model -/

/-- A byte array is encoded as a string. -/
def encodeAddress (a : Address) : Bytes := encodeString a.val

def encodeHash (h : Hash) : Bytes := encodeString h.val

/-- A `*big.Int` is encoded as an unsigned integer; a negative one is an encoding error. -/
def encodeBigInt (i : Int) : Except Error Bytes :=
  if i < 0 then Except.error Error.rlpNegativeBigInt else Except.ok (encodeUint i.toNat)

/-- Encodings of the elements of a slice, in order; the first failing element fails the slice. -/
def encodeElemsE {α : Type} (enc : α → Except Error Bytes) : List α → Except Error Bytes
  | [] => Except.ok []
  | x :: xs =>
    match enc x with
    | Except.error e => Except.error e
    | Except.ok b =>
      match encodeElemsE enc xs with
      | Except.error e => Except.error e
      | Except.ok bs => Except.ok (b ++ bs)

/-- A slice is encoded as the list of its elements. -/
def encodeSlice {α : Type} (enc : α → Except Error Bytes) (xs : List α) : Except Error Bytes :=
  match encodeElemsE enc xs with
  | Except.error e => Except.error e
  | Except.ok payload => Except.ok (encodeList payload)

def encodeTransactionData (d : TransactionData) : Except Error Bytes :=
  match encodeBigInt d.Amount with
  | Except.error e => Except.error e
  | Except.ok amount =>
    match encodeBigInt d.GasPrice with
    | Except.error e => Except.error e
    | Except.ok gasPrice =>
      Except.ok (encodeList (encodeAddress d.From ++ encodeAddress d.To ++ amount ++
        encodeUint d.AccountNonce ++ gasPrice ++ encodeUint d.GasLimit ++
        encodeString d.Payload))

def encodeTransaction (t : Transaction) : Except Error Bytes :=
  match encodeTransactionData t.Data with
  | Except.error e => Except.error e
  | Except.ok d => Except.ok (encodeList (encodeHash t.Hash ++ d))

def encodeSignature (s : Signature) : Bytes := encodeList (encodeString s.Sig)

/-- Encoding of a `SecondWitnessInfo` struct: the list of its eight fields in declaration order. -/
def encodeSecondWitnessInfo (s : SecondWitnessInfo) : Except Error Bytes :=
  match encodeSlice encodeTransaction s.ChallengedTxs with
  | Except.error e => Except.error e
  | Except.ok chTxs =>
    match encodeSlice (fun a => Except.ok (encodeAddress a)) s.DepositVers with
    | Except.error e => Except.error e
    | Except.ok depositVers =>
      match encodeSlice (fun a => Except.ok (encodeAddress a)) s.ExitVers with
      | Except.error e => Except.error e
      | Except.ok exitVers =>
        Except.ok (encodeList (chTxs ++ depositVers ++ exitVers ++ encodeUint s.AccountCount ++
          encodeHash s.TxHashStem ++ encodeHash s.StateHashStem ++
          encodeHash s.RecentTxHashStem ++ encodeSignature s.BlockSig))

def decodeAddress (input : Bytes) : Option (Address × Bytes) :=
  match decodeString input with
  | some (s, rest) => if h : s.length = 20 then some (⟨s, h⟩, rest) else none
  | none => none

def decodeHash (input : Bytes) : Option (Hash × Bytes) :=
  match decodeString input with
  | some (s, rest) => if h : s.length = 32 then some (⟨s, h⟩, rest) else none
  | none => none

/-- Decodes a slice: a list whose payload holds the elements and nothing else. -/
def decodeSlice {α : Type} (dec : Bytes → Option (α × Bytes)) (input : Bytes) :
    Option (List α × Bytes) :=
  match decodeList input with
  | some (payload, rest) =>
    match decodeElems dec payload.length payload with
    | some xs => some (xs, rest)
    | none => none
  | none => none

def decodeTransactionData (input : Bytes) : Option (TransactionData × Bytes) := do
  let (p, rest) ← decodeList input
  let (from_, p) ← decodeAddress p
  let (to_, p) ← decodeAddress p
  let (amount, p) ← decodeBigInt p
  let (nonce, p) ← decodeUint64 p
  let (gasPrice, p) ← decodeBigInt p
  let (gasLimit, p) ← decodeUint64 p
  let (payload, p) ← decodeString p
  if p = [] then
    some ({ From := from_, To := to_, Amount := Int.ofNat amount, AccountNonce := nonce,
            GasPrice := Int.ofNat gasPrice, GasLimit := gasLimit, Payload := payload }, rest)
  else none

def decodeTransaction (input : Bytes) : Option (Transaction × Bytes) := do
  let (p, rest) ← decodeList input
  let (hash, p) ← decodeHash p
  let (data, p) ← decodeTransactionData p
  if p = [] then some ({ Hash := hash, Data := data }, rest) else none

def decodeSignature (input : Bytes) : Option (Signature × Bytes) := do
  let (p, rest) ← decodeList input
  let (sig, p) ← decodeString p
  if p = [] then some ({ Sig := sig }, rest) else none

def decodeSecondWitnessInfo (input : Bytes) : Option (SecondWitnessInfo × Bytes) := do
  let (p, rest) ← decodeList input
  let (chTxs, p) ← decodeSlice decodeTransaction p
  let (depositVers, p) ← decodeSlice decodeAddress p
  let (exitVers, p) ← decodeSlice decodeAddress p
  let (accountCount, p) ← decodeUint64 p
  let (txHashStem, p) ← decodeHash p
  let (stateHashStem, p) ← decodeHash p
  let (recentTxHashStem, p) ← decodeHash p
  let (blockSig, p) ← decodeSignature p
  if p = [] then
    some ({ ChallengedTxs := chTxs, DepositVers := depositVers, ExitVers := exitVers,
            AccountCount := accountCount, TxHashStem := txHashStem,
            StateHashStem := stateHashStem, RecentTxHashStem := recentTxHashStem,
            BlockSig := blockSig }, rest)
  else none

/-! ## The second-witness codec (`core/types/secondWitness.go`)

`BftExtraVanity` is a constant of the `types` package; it is a parameter here. -/

/-- Embeds `ExtractSecondWitnessInfo`: the length test is on `ExtraData`, the slice is taken
from `SecondWitness`, and `rlp.DecodeBytes` accepts exactly one value with no trailing bytes. -/
def ExtractSecondWitnessInfo (BftExtraVanity : Nat) (h : BlockHeader) :
    Except Error SecondWitnessInfo :=
  if h.ExtraData.length < BftExtraVanity then Except.error Error.ErrInvalidBftHeaderExtra
  else if h.SecondWitness.length < BftExtraVanity then Except.error Error.sliceBounds
  else
    match decodeSecondWitnessInfo (h.SecondWitness.drop BftExtraVanity) with
    | some (swInfo, []) => Except.ok swInfo
    | _ => Except.error Error.rlpDecode

/-- Embeds `PrepareSecondWitness`: `BftExtraVanity` zero bytes followed by the RLP of the struct. -/
def PrepareSecondWitness (BftExtraVanity : Nat) (chTxs : List Transaction)
    (depositVers exitVers : List Address) (accountCount : Nat)
    (txHashStem stateHashStem recentTxHashStem : Hash) (blockSig : Signature) :
    Except Error Bytes :=
  let temp : Bytes := [] ++ List.replicate BftExtraVanity (0 : Byte)
  let buf : Bytes := temp.take BftExtraVanity
  let swInfo : SecondWitnessInfo :=
    { ChallengedTxs := chTxs, DepositVers := depositVers, ExitVers := exitVers,
      AccountCount := accountCount, TxHashStem := txHashStem, StateHashStem := stateHashStem,
      RecentTxHashStem := recentTxHashStem, BlockSig := blockSig }
  match encodeSecondWitnessInfo swInfo with
  | Except.error e => Except.error e
  | Except.ok payload => Except.ok (buf ++ payload)

/-! ## Sample values used to exercise the theorems -/

/-- The address whose twenty bytes all equal `b`. -/
def sampleAddress (b : Byte) : Address := ⟨List.replicate 20 b, List.length_replicate 20 b⟩

/-- The hash whose thirty-two bytes all equal `b`. -/
def sampleHash (b : Byte) : Hash := ⟨List.replicate 32 b, List.length_replicate 32 b⟩

/-- A transfer of `amount` from `sampleAddress a` to `sampleAddress b` with the given payload. -/
def sampleTx (a b : Byte) (amount : Int) (payload : Bytes) : Transaction :=
  { Hash := sampleHash a,
    Data := { From := sampleAddress a, To := sampleAddress b, Amount := amount,
              AccountNonce := 1, GasPrice := 10, GasLimit := 21000, Payload := payload } }

/-- A second-witness value with one challenged transaction and one deposit verifier. -/
def sampleWitnessInfo : SecondWitnessInfo :=
  { ChallengedTxs := [sampleTx 1 2 5 [0xAA]], DepositVers := [sampleAddress 3], ExitVers := [],
    AccountCount := 300, TxHashStem := sampleHash 4, StateHashStem := sampleHash 5,
    RecentTxHashStem := EmptyHash, BlockSig := { Sig := [1, 2, 3] } }

/-- The bytes `PrepareSecondWitness` produces for `sampleWitnessInfo` with a vanity of 32. -/
def sampleWitnessBytes : Bytes :=
  match PrepareSecondWitness 32 sampleWitnessInfo.ChallengedTxs sampleWitnessInfo.DepositVers
      sampleWitnessInfo.ExitVers sampleWitnessInfo.AccountCount sampleWitnessInfo.TxHashStem
      sampleWitnessInfo.StateHashStem sampleWitnessInfo.RecentTxHashStem
      sampleWitnessInfo.BlockSig with
  | Except.ok b => b
  | Except.error _ => []

/-- A header carrying `sampleWitnessBytes` and 32 bytes of extra data. -/
def sampleHeader : BlockHeader :=
  { Creator := sampleAddress 9, Height := 7, ExtraData := List.replicate 32 0,
    SecondWitness := sampleWitnessBytes }

/-! ## Collaborators of the stem computations

The hash function, the Merkle engine, the stem-payload decoder, the signer, the state database
and the key-value stores live in packages outside the files under study. The first four are
parameters; the stores are finite maps from byte strings to byte strings. -/

/-- The stem payload embedded in a transaction's payload, `types.PayloadExtra`. -/
structure PayloadExtra where
  HashForStem : Hash
  SignStringForStem : Bytes
  LargestPackHeight : Nat
deriving DecidableEq

/-- The functions of the `crypto`, `merkle` and `types` packages that the code calls. -/
structure Collaborators where
  MustHash : Bytes → Hash
  GetBinaryMerkleRoot : List Hash → Hash
  GetMerkleProof : List Hash → Int → List Hash
  ExtractTxPayload : Bytes → Except Error PayloadExtra
  MustSign : Bytes → Signature

/-- The working state database, `state.Statedb`, as far as the stem computations read it. -/
structure Statedb where
  GetBalance : Address → Int
  GetNonce : Address → Nat

/-- A key-value byte store, `database.Database`. -/
abbrev Database := AList (fun _ : Bytes => Bytes)

/-- Whether the store holds `key`. -/
def Database.Has (db : Database) (key : Bytes) : Bool := (db.lookup key).isSome

/-- The value stored under `key`; a missing key is an error. -/
def Database.Get (db : Database) (key : Bytes) : Except Error Bytes :=
  match db.lookup key with
  | some value => Except.ok value
  | none => Except.error Error.dbNotFound

/-- Stores `value` under `key`, replacing any previous value. -/
def Database.Put (db : Database) (key value : Bytes) : Database := db.insert key value

/-- Number of entries of the store. -/
def Database.size (db : Database) : Nat := db.keys.length

/-- The Account Index Store: `GetAccountIndexDB()` maps address bytes to index bytes and
`GetIndexAccountDB()` maps index bytes to address bytes. -/
structure IndexStore where
  accountIndexDB : Database
  indexAccountDB : Database
deriving DecidableEq

/-- Embeds `common.BytesToAddress`: the last twenty bytes, left-padded with zeros. -/
def BytesToAddress (bs : Bytes) : Address :=
  ⟨List.replicate (20 - bs.length) 0 ++ bs.drop (bs.length - 20), by
    simp only [List.length_append, List.length_replicate, List.length_drop]; omega⟩

/-- The fields of `miner.Task` that the code under study reads or writes. -/
structure Task where
  header : BlockHeader
  txs : List Transaction
  accountCount : Nat
  challengedTxs : List Transaction
  depositVers : List Address
  exitVers : List Address
  receipts : List Receipt := []
  coinbase : Address := ⟨List.replicate 20 0, rfl⟩
deriving DecidableEq

/-! ## Stem hashes of block assembly (`miner/task.go`, `getStemHashes`) -/

/-- The body of the `for i := 0; i < 2; i++` loop for one account when `Has` and the two `Put`
calls return no error: an address missing from the address-to-index store gets index
`accountCount - 1` after `accountCount++` (both on `uint64`) and is written to both stores.
`indexAccount.withFaults` is the body with the three error returns. -/
def indexAccount (account : Address) (accountCount : Nat) (store : IndexStore) :
    Nat × IndexStore :=
  if store.accountIndexDB.Has account.val then (accountCount, store)
  else
    let accountCount := (accountCount + 1) % 2 ^ 64
    let index := (accountCount + 2 ^ 64 - 1) % 2 ^ 64
    let indexBytes := encodeUint index
    (accountCount,
      { accountIndexDB := store.accountIndexDB.Put account.val indexBytes,
        indexAccountDB := store.indexAccountDB.Put indexBytes account.val })

/-- The first loop of `getStemHashes`, from transaction index `txIndex` on, when no store call
fails: it skips index 0, appends each `HashForStem` to `level` and indexes `From` then `To`.
The count and the store are returned as they stand when the loop ends, also when it ends with
an error. `stemTxLoop.withFaults` is the loop over stores whose calls can fail. -/
def stemTxLoop (c : Collaborators) :
    Nat → List Transaction → List Hash → Nat → IndexStore →
      Except Error (List Hash) × Nat × IndexStore
  | _, [], level, accountCount, store => (Except.ok level, accountCount, store)
  | txIndex, tx :: txs, level, accountCount, store =>
    if txIndex = 0 then stemTxLoop c (txIndex + 1) txs level accountCount store
    else
      match c.ExtractTxPayload tx.Data.Payload with
      | Except.error e => (Except.error e, accountCount, store)
      | Except.ok txPayload =>
        let level := level ++ [txPayload.HashForStem]
        let (accountCount, store) := indexAccount tx.Data.From accountCount store
        let (accountCount, store) := indexAccount tx.Data.To accountCount store
        stemTxLoop c (txIndex + 1) txs level accountCount store

/-- The RLP of `[]interface{}{account.Bytes(), balance, nonce}`; the code drops the encoding
error, which leaves `nil` bytes. -/
def encodeState (account : Address) (balance : Int) (nonce : Nat) : Bytes :=
  match encodeBigInt balance with
  | Except.ok b => encodeList (encodeString account.val ++ b ++ encodeUint nonce)
  | Except.error _ => []

/-- The second loop of `getStemHashes`, `for i := uint64(0); i < task.accountCount; i++`, with
`n` iterations left: the leaf of index `i` is the hash of the encoded state of the address
stored under `i`. -/
def stemStateLoop (c : Collaborators) (statedb : Statedb) (indexAccountDB : Database) :
    Nat → Nat → List Hash → Except Error (List Hash)
  | 0, _, level => Except.ok level
  | n + 1, i, level =>
    match indexAccountDB.Get (encodeUint i) with
    | Except.error e => Except.error e
    | Except.ok accountBytes =>
      let account := BytesToAddress accountBytes
      let nonce := statedb.GetNonce account
      let balance := statedb.GetBalance account
      let stateBytes := encodeState account balance nonce
      stemStateLoop c statedb indexAccountDB n (i + 1) (level ++ [c.MustHash stateBytes])

/-- Embeds `Task.getStemHashes` for index stores whose `Has` and `Put` return no error and
whose `Get` fails on a missing key only. The result is the pair `(txHashStem, stateHashStem)`
or the error, together with the task and the index store as the call leaves them.
`getStemHashes.withFaults` is the function over stores whose calls can fail. -/
def getStemHashes (c : Collaborators) (statedb : Statedb) (task : Task) (store : IndexStore) :
    Except Error (Hash × Hash) × Task × IndexStore :=
  match stemTxLoop c 0 task.txs [] task.accountCount store with
  | (Except.error e, accountCount, store) =>
    (Except.error e, { task with accountCount := accountCount }, store)
  | (Except.ok level, accountCount, store) =>
    let task := { task with accountCount := accountCount }
    let txHashStem := c.GetBinaryMerkleRoot level
    match stemStateLoop c statedb store.indexAccountDB task.accountCount 0 [] with
    | Except.error e => (Except.error e, task, store)
    | Except.ok level => (Except.ok (txHashStem, c.GetBinaryMerkleRoot level), task, store)

/-! ## Recent-transaction stem (`miner/task.go`, `getRecentTxHashStem`) and its read mirror
(`api/api_subchain.go`, `GetRecentTxMerkleInfo`) -/

/-- A block as the chain store returns it. -/
structure Block where
  Header : BlockHeader
  Transactions : List Transaction
deriving DecidableEq

/-- Modelled from the spec: `types.AccountTxs`, the encoded transaction summaries grouped under
one account (a struct with the single field `Txs [][]byte`). -/
structure AccountTxs where
  Txs : List Bytes
deriving DecidableEq

/-- The RLP of an `AccountTxs` struct: a list holding the list of its byte strings. -/
def encodeAccountTxs (a : AccountTxs) : Bytes :=
  encodeList (encodeList (a.Txs.foldr (fun tx acc => encodeString tx ++ acc) []))

/-- The RLP of `[]interface{}{From, To, Amount, AccountNonce, GasPrice, GasLimit}`. -/
def encodeDataForStem (tx : Transaction) : Except Error Bytes :=
  match encodeBigInt tx.Data.Amount with
  | Except.error e => Except.error e
  | Except.ok amount =>
    match encodeBigInt tx.Data.GasPrice with
    | Except.error e => Except.error e
    | Except.ok gasPrice =>
      Except.ok (encodeList (encodeAddress tx.Data.From ++ encodeAddress tx.Data.To ++ amount ++
        encodeUint tx.Data.AccountNonce ++ gasPrice ++ encodeUint tx.Data.GasLimit))

/-- The two variables of the aggregation: `accountToIndexMap` and `accTxs`. -/
structure RecentTxs where
  accountToIndexMap : AList (fun _ : Address => Nat)
  accTxs : List AccountTxs
deriving DecidableEq

/-- The aggregation before the first block. -/
def RecentTxs.init : RecentTxs := { accountToIndexMap := ∅, accTxs := [] }

/-- The body of the inner `for` loop for one account: a known account gets `dataForStem` appended
to its entry `accTxs[index]` (indexing past the end is a run-time panic), a new account gets
index `len(accountToIndexMap)` and a fresh entry at the end of `accTxs`. -/
def addAccountTx (account : Address) (dataForStem : Bytes) (s : RecentTxs) :
    Except Error RecentTxs :=
  match s.accountToIndexMap.lookup account with
  | some index =>
    match s.accTxs[index]? with
    | none => Except.error Error.sliceBounds
    | some entry =>
      Except.ok { s with accTxs := s.accTxs.set index { Txs := entry.Txs ++ [dataForStem] } }
  | none =>
    let curlen := s.accountToIndexMap.keys.length
    Except.ok { accountToIndexMap := s.accountToIndexMap.insert account curlen,
                accTxs := s.accTxs ++ [{ Txs := [dataForStem] }] }

/-- One transaction of the aggregation: `From`, then `To` unless it equals `From`. -/
def addTx (tx : Transaction) (s : RecentTxs) : Except Error RecentTxs :=
  match encodeDataForStem tx with
  | Except.error e => Except.error e
  | Except.ok dataForStem =>
    match addAccountTx tx.Data.From dataForStem s with
    | Except.error e => Except.error e
    | Except.ok s =>
      if tx.Data.From ≠ tx.Data.To then addAccountTx tx.Data.To dataForStem s
      else Except.ok s

/-- The loop over the transactions of one block, from index `txIndex` on; index 0 is skipped.
The loop is the same, statement for statement, in `getRecentTxHashStem` (lines 234-274) and in
`GetRecentTxMerkleInfo` (lines 271-312). -/
def addBlockTxs : Nat → List Transaction → RecentTxs → Except Error RecentTxs
  | _, [], s => Except.ok s
  | txIndex, tx :: txs, s =>
    if txIndex = 0 then addBlockTxs (txIndex + 1) txs s
    else
      match addTx tx s with
      | Except.error e => Except.error e
      | Except.ok s => addBlockTxs (txIndex + 1) txs s

/-- The Go loop `for i := start; i <= end; i++` over `uint64`, with `fuel` bounding the number
of iterations: `none` means that the fuel ran out. The counter wraps at `2 ^ 64`, so the loop
cannot end normally when `end = 2 ^ 64 - 1`. -/
def forUint64 {σ : Type} (body : Nat → σ → Except Error σ) :
    Nat → Nat → Nat → σ → Option (Except Error σ)
  | 0, _, _, _ => none
  | fuel + 1, i, stop, s =>
    if i ≤ stop then
      match body i s with
      | Except.error e => some (Except.error e)
      | Except.ok s => forUint64 body fuel ((i + 1) % 2 ^ 64) stop s
    else some (Except.ok s)

/-- Go's conversion `int(x)` of a `uint64` on a 64-bit platform. -/
def toInt64 (x : Nat) : Int := if x % 2 ^ 64 < 2 ^ 63 then (x % 2 ^ 64 : Nat) else (x % 2 ^ 64 : Nat) - 2 ^ 64

/-- The `uint64` value `height - RelayInterval + 1`. -/
def windowStart (height RelayInterval : Nat) : Nat :=
  ((height + 2 ^ 64 - RelayInterval % 2 ^ 64) % 2 ^ 64 + 1) % 2 ^ 64

/-- The leaves the producer builds by ranging over the map in the order `order` gives:
`accTxs[value]` is hashed for every entry of the map. -/
def producerLevel (c : Collaborators) (accTxs : List AccountTxs) :
    List (Address × Nat) → List Hash → Except Error (List Hash)
  | [], level => Except.ok level
  | (_, value) :: rest, level =>
    match accTxs[value]? with
    | none => Except.error Error.sliceBounds
    | some entry => producerLevel c accTxs rest (level ++ [c.MustHash (encodeAccountTxs entry)])

/-- The entries of the map as key-value pairs, most recent insertion first. -/
def mapEntries (m : AList (fun _ : Address => Nat)) : List (Address × Nat) :=
  m.entries.map (fun e => (e.1, e.2))

/-- The window aggregation of `getRecentTxHashStem` (lines 218-275): blocks below `end` are read
from the chain store, the block at `end` is the task's own transaction list. -/
def getRecentTxHashStem.aggregate (RelayInterval : Nat)
    (GetBlockByHeight : Nat → Except Error Block) (fuel : Nat) (task : Task) :
    Option (Except Error RecentTxs) :=
  let start := windowStart task.header.Height RelayInterval
  let stop := task.header.Height
  forUint64 (fun i s =>
      if i ≠ stop then
        match GetBlockByHeight i with
        | Except.error e => Except.error e
        | Except.ok prevBlock => addBlockTxs 0 prevBlock.Transactions s
      else addBlockTxs 0 task.txs s)
    fuel start stop RecentTxs.init

/-- Embeds `Task.getRecentTxHashStem`. `RelayInterval` is the process-wide constant of package
`common`; `rangeOrder` is the order in which the Go run time visits the entries of
`accountToIndexMap`, which the language leaves unspecified; a zero interval is a run-time panic
(integer division by zero). -/
def getRecentTxHashStem (c : Collaborators) (RelayInterval : Nat)
    (GetBlockByHeight : Nat → Except Error Block)
    (rangeOrder : List (Address × Nat) → List (Address × Nat)) (fuel : Nat) (task : Task) :
    Option (Except Error Hash) :=
  if toInt64 RelayInterval = 0 then some (Except.error Error.divideByZero)
  else if Int.tmod (toInt64 task.header.Height) (toInt64 RelayInterval) > 0 then
    some (Except.ok EmptyHash)
  else
    match getRecentTxHashStem.aggregate RelayInterval GetBlockByHeight fuel task with
    | none => none
    | some (Except.error e) => some (Except.error e)
    | some (Except.ok s) =>
      match producerLevel c s.accTxs (rangeOrder (mapEntries s.accountToIndexMap)) [] with
      | Except.error e => some (Except.error e)
      | Except.ok level => some (Except.ok (c.GetBinaryMerkleRoot level))

/-- The result map of the Merkle queries: index and encoded proof. -/
structure MerkleInfo where
  index : Nat
  proof : Bytes
deriving DecidableEq

/-- The RLP of a `[]common.Hash`. -/
def encodeHashes (hs : List Hash) : Bytes :=
  encodeList (hs.foldr (fun h acc => encodeHash h ++ acc) [])

/-- The window aggregation of `GetRecentTxMerkleInfo` (lines 261-313): every block of the
window is read from the chain store. -/
def GetRecentTxMerkleInfo.aggregate (RelayInterval : Nat)
    (GetBlockByHeight : Nat → Except Error Block) (fuel : Nat) (height : Nat) :
    Option (Except Error RecentTxs) :=
  let start := windowStart height RelayInterval
  let stop := height
  forUint64 (fun i s =>
      match GetBlockByHeight i with
      | Except.error e => Except.error e
      | Except.ok prevBlock => addBlockTxs 0 prevBlock.Transactions s)
    fuel start stop RecentTxs.init

/-- The leaves the read side builds: `accTxs` hashed in slice order (lines 315-322). -/
def consumerLevel (c : Collaborators) (accTxs : List AccountTxs) : List Hash :=
  accTxs.foldl (fun level value => level ++ [c.MustHash (encodeAccountTxs value)]) []

/-- Embeds `PublicSubchainAPI.GetRecentTxMerkleInfo`. -/
def GetRecentTxMerkleInfo (c : Collaborators) (RelayInterval : Nat)
    (GetBlockByHeight : Nat → Except Error Block) (fuel : Nat) (account : Address)
    (height : Nat) : Option (Except Error MerkleInfo) :=
  match GetRecentTxMerkleInfo.aggregate RelayInterval GetBlockByHeight fuel height with
  | none => none
  | some (Except.error e) => some (Except.error e)
  | some (Except.ok s) =>
    let level := consumerLevel c s.accTxs
    match s.accountToIndexMap.lookup account with
    | none => some (Except.error Error.notFound)
    | some index =>
      let proofs := c.GetMerkleProof level (toInt64 index)
      some (Except.ok { index := index, proof := encodeHashes proofs })

/-! ## Transaction proofs (`api/api_subchain.go`, `GetTxMerkleInfo`) -/

/-- Where a transaction sits: `types.TxIndex`, the block hash and the position in the block. -/
structure TxIndex where
  BlockHash : Hash
  Index : Nat
deriving DecidableEq

/-- The leaf loop of `GetTxMerkleInfo` (lines 137-147), from index `i` on. -/
def txLevelLoop (c : Collaborators) : Nat → List Transaction → List Hash →
    Except Error (List Hash)
  | _, [], level => Except.ok level
  | i, tx :: txs, level =>
    if i = 0 then txLevelLoop c (i + 1) txs level
    else
      match c.ExtractTxPayload tx.Data.Payload with
      | Except.error e => Except.error e
      | Except.ok txPayload => txLevelLoop c (i + 1) txs (level ++ [txPayload.HashForStem])

/-- Embeds `PublicSubchainAPI.GetTxMerkleInfo`, from the transaction hash on (the hexadecimal
argument is parsed by `hexutil`). `GetTxIndex` and `GetBlock` are the chain store; the result
is `none` when the store knows no index for the hash (`return nil, nil`). The reported index is
the `uint` value `txIdx.Index - 1`. -/
def GetTxMerkleInfo (c : Collaborators) (GetTxIndex : Hash → Except Error (Option TxIndex))
    (GetBlock : Hash → Except Error Block) (txHash : Hash) :
    Except Error (Option MerkleInfo) :=
  match GetTxIndex txHash with
  | Except.error e => Except.error e
  | Except.ok none => Except.ok none
  | Except.ok (some txIdx) =>
    match GetBlock txIdx.BlockHash with
    | Except.error e => Except.error e
    | Except.ok block =>
      match txLevelLoop c 0 block.Transactions [] with
      | Except.error e => Except.error e
      | Except.ok level =>
        let proofs := c.GetMerkleProof level (toInt64 txIdx.Index)
        let proofData := encodeHashes proofs
        Except.ok (some { index := (txIdx.Index + 2 ^ 64 - 1) % 2 ^ 64, proof := proofData })

/-! ## The BFT tail of block assembly (`miner/task.go`, `applyTransactionsAndDebts`) -/

/-- The RLP of `[]interface{}{Creator, Height, txHashStem, stateHashStem}`. -/
def encodeBlockInfo (creator : Address) (height : Nat) (txHashStem stateHashStem : Hash) :
    Bytes :=
  encodeList (encodeAddress creator ++ encodeUint height ++ encodeHash txHashStem ++
    encodeHash stateHashStem)

/-- Embeds the BFT branch of `Task.applyTransactionsAndDebts` (lines 86-132), which runs after
the transactions were selected and the state committed: it inherits the account count of the
parent, computes the stems, signs the block info and writes the second witness. A failure of
`PrepareSecondWitness` is logged and the `nil` bytes are written all the same. The task and
the index store are returned as the call leaves them, also on error. -/
def applyTransactionsAndDebts.bft (c : Collaborators) (BftExtraVanity RelayInterval : Nat)
    (GetBlockByHeight : Nat → Except Error Block)
    (rangeOrder : List (Address × Nat) → List (Address × Nat)) (fuel : Nat)
    (statedb : Statedb) (parent : Block) (task : Task) (store : IndexStore) :
    Option (Except Error Unit × Task × IndexStore) :=
  match ExtractSecondWitnessInfo BftExtraVanity parent.Header with
  | Except.error e => some (Except.error e, task, store)
  | Except.ok swExtra =>
    let task := { task with accountCount := swExtra.AccountCount }
    match getStemHashes c statedb task store with
    | (Except.error e, task, store) => some (Except.error e, task, store)
    | (Except.ok (txHashStem, stateHashStem), task, store) =>
      match getRecentTxHashStem c RelayInterval GetBlockByHeight rangeOrder fuel task with
      | none => none
      | some (Except.error e) => some (Except.error e, task, store)
      | some (Except.ok recentTxHashStem) =>
        let blockInfoBytes :=
          encodeBlockInfo task.header.Creator task.header.Height txHashStem stateHashStem
        let blockInfoHash := c.MustHash blockInfoBytes
        let blockSig := c.MustSign blockInfoHash.val
        let extraSecondWitnessInfo :=
          match PrepareSecondWitness BftExtraVanity task.challengedTxs task.depositVers
              task.exitVers task.accountCount txHashStem stateHashStem recentTxHashStem
              blockSig with
          | Except.error _ => []
          | Except.ok b => b
        some (Except.ok (),
          { task with header := { task.header with SecondWitness := extraSecondWitnessInfo } },
          store)

/-! ## A sample instance of the collaborators

A toy hash and a small binary Merkle engine (pairs hashed left to right, an odd last node paired
with itself), used only to evaluate the embedded code on concrete inputs. -/

/-- Toy hash: the length of the input followed by its first 31 bytes, zero padded. -/
def sampleMustHash (bs : Bytes) : Hash :=
  ⟨byteOf bs.length :: (bs ++ List.replicate 31 0).take 31, by
    simp only [List.length_cons, List.length_take, List.length_append, List.length_replicate]
    omega⟩

/-- One level up in the sample Merkle tree. -/
def sampleMerkleUp : List Hash → List Hash
  | a :: b :: rest => sampleMustHash (a.val ++ b.val) :: sampleMerkleUp rest
  | [a] => [sampleMustHash (a.val ++ a.val)]
  | [] => []

/-- Root of the sample Merkle tree; the empty leaf vector has root `EmptyHash`. -/
def sampleMerkleRootAux : Nat → List Hash → Hash
  | _, [] => EmptyHash
  | _, [a] => a
  | 0, a :: _ => a
  | fuel + 1, level => sampleMerkleRootAux fuel (sampleMerkleUp level)

def sampleMerkleRoot (level : List Hash) : Hash := sampleMerkleRootAux level.length level

/-- Sibling path of leaf `i` in the sample Merkle tree. -/
def sampleMerkleProofAux : Nat → List Hash → Nat → List Hash
  | 0, _, _ => []
  | fuel + 1, level, i =>
    if level.length ≤ 1 then []
    else
      let sibling := if i % 2 = 0 then (level.getD (i + 1) (level.getD i EmptyHash))
                     else level.getD (i - 1) EmptyHash
      sibling :: sampleMerkleProofAux fuel (sampleMerkleUp level) (i / 2)

def sampleMerkleProof (level : List Hash) (i : Int) : List Hash :=
  if i < 0 ∨ (level.length : Int) ≤ i then [] else sampleMerkleProofAux level.length level i.toNat

/-- Sample payload decoder: a payload of exactly 32 bytes is its own `HashForStem`. -/
def sampleExtractTxPayload (payload : Bytes) : Except Error PayloadExtra :=
  if h : payload.length = 32 then
    Except.ok { HashForStem := ⟨payload, h⟩, SignStringForStem := [], LargestPackHeight := 0 }
  else Except.error Error.payloadDecode

def sampleCollaborators : Collaborators :=
  { MustHash := sampleMustHash,
    GetBinaryMerkleRoot := sampleMerkleRoot,
    GetMerkleProof := sampleMerkleProof,
    ExtractTxPayload := sampleExtractTxPayload,
    MustSign := fun bs => { Sig := bs } }

/-- Sample state: every account has balance 100 and nonce 1. -/
def sampleStatedb : Statedb := { GetBalance := fun _ => 100, GetNonce := fun _ => 1 }

/-- The empty Account Index Store. -/
def emptyStore : IndexStore := { accountIndexDB := ∅, indexAccountDB := ∅ }

/-- The reward transaction of the samples. -/
def rewardTx : Transaction := sampleTx 0 0 0 []

/-- A task over `sampleHeader` with the given transactions and inherited account count. -/
def sampleTask (txs : List Transaction) (accountCount : Nat) : Task :=
  { header := sampleHeader, txs := txs, accountCount := accountCount,
    challengedTxs := [], depositVers := [], exitVers := [] }

/-! ## Specification-side definitions for the stem hashes -/

/-- The `hash_for_stem` of a transaction, when its payload decodes. -/
def hashForStem (c : Collaborators) (tx : Transaction) : Option Hash :=
  match c.ExtractTxPayload tx.Data.Payload with
  | Except.ok p => some p.HashForStem
  | Except.error _ => none

/-- The transaction leaves of the spec: `hash_for_stem` of every transaction but the first. -/
def specTxLeaves (c : Collaborators) (txs : List Transaction) : List Hash :=
  (txs.drop 1).filterMap (hashForStem c)

/-- The state leaf of the spec: `H(encode(addr, balance, nonce))` read from `statedb`. -/
def specStateLeaf (c : Collaborators) (statedb : Statedb) (a : Address) : Hash :=
  c.MustHash (encodeState a (statedb.GetBalance a) (statedb.GetNonce a))

deriving instance DecidableEq for Except

/-! ## Specification-side definitions for the index allocations -/

/-- The accounts the first loop of `getStemHashes` visits for a list of transactions: `From`
then `To` of each, in transaction order. -/
def accountsOf : List Transaction → List Address
  | [] => []
  | tx :: txs => tx.Data.From :: tx.Data.To :: accountsOf txs

/-- The accounts of the non-reward transactions of a block, in order of appearance. -/
def txAccounts (txs : List Transaction) : List Address := accountsOf (txs.drop 1)

/-- The index allocations of the first loop alone: `indexAccount` on each account in turn. -/
def indexAccounts : List Address → Nat → IndexStore → Nat × IndexStore
  | [], accountCount, store => (accountCount, store)
  | a :: as, accountCount, store =>
    indexAccounts as (indexAccount a accountCount store).1 (indexAccount a accountCount store).2

/-- The elements of a list that are not in `seen`, each kept at its first appearance. -/
def firstAppearances : List Address → List Address → List Address
  | _, [] => []
  | seen, a :: as =>
    if a ∈ seen then firstAppearances seen as else a :: firstAppearances (a :: seen) as

/-- The distinct addresses of the non-reward transactions that the address-to-index store does
not hold yet, in order of first appearance. -/
def specNewAddresses (accountIndexDB : Database) (txs : List Transaction) : List Address :=
  firstAppearances [] ((txAccounts txs).filter (fun a => !accountIndexDB.Has a.val))

/-- The store after the addresses of `news` got the consecutive indices `i, i + 1, ...`. -/
def allocAll : List Address → Nat → IndexStore → IndexStore
  | [], _, store => store
  | a :: as, i, store =>
    allocAll as (i + 1)
      { accountIndexDB := store.accountIndexDB.Put a.val (encodeUint i),
        indexAccountDB := store.indexAccountDB.Put (encodeUint i) a.val }

/-! ## Sample runs -/

/-- A payload that the sample decoder accepts: 32 bytes equal to `b`. -/
def stemPayload (b : Byte) : Bytes := List.replicate 32 b

/-- A block body: the reward transaction and one transfer from address 1 to address 2. -/
def txsAB : List Transaction := [rewardTx, sampleTx 1 2 5 (stemPayload 7)]

/-- A block body: the reward transaction and one self-transfer of address 1. -/
def txsAA : List Transaction := [rewardTx, sampleTx 1 1 5 (stemPayload 7)]

/-- The run of `getStemHashes` on `txsAB` over the empty store with inherited count 0. -/
def sampleStemRun : Except Error (Hash × Hash) × Task × IndexStore :=
  getStemHashes sampleCollaborators sampleStatedb (sampleTask txsAB 0) emptyStore

/-- The two stems of `sampleStemRun`. -/
def sampleStems : Hash × Hash :=
  match sampleStemRun.1 with
  | Except.ok hs => hs
  | Except.error _ => (EmptyHash, EmptyHash)

/-- The largest `uint64`. -/
def maxUint64 : Nat := 2 ^ 64 - 1

/-- The run of `getStemHashes` on `txsAA` over the empty store with inherited count
`2 ^ 64 - 1`. -/
def wrapRunAA : Except Error (Hash × Hash) × Task × IndexStore :=
  getStemHashes sampleCollaborators sampleStatedb (sampleTask txsAA maxUint64) emptyStore

/-- The run of `getStemHashes` on `txsAB` over the empty store with inherited count
`2 ^ 64 - 1`. -/
def wrapRunAB : Except Error (Hash × Hash) × Task × IndexStore :=
  getStemHashes sampleCollaborators sampleStatedb (sampleTask txsAB maxUint64) emptyStore

/-! ## Sample assemblies -/

/-- A chain store without blocks. -/
def noBlocks : Nat → Except Error Block := fun _ => Except.error Error.blockNotFound

/-- The second witness of a parent block that records `accountCount` accounts. -/
def parentWitnessInfo (accountCount : Nat) : SecondWitnessInfo :=
  { ChallengedTxs := [], DepositVers := [], ExitVers := [], AccountCount := accountCount,
    TxHashStem := EmptyHash, StateHashStem := EmptyHash, RecentTxHashStem := EmptyHash,
    BlockSig := { Sig := [] } }

/-- A parent block at height 6 whose second witness records `accountCount` accounts. -/
def parentBlock (accountCount : Nat) : Block :=
  { Header :=
      { Creator := sampleAddress 9, Height := 6, ExtraData := List.replicate 32 0,
        SecondWitness :=
          match PrepareSecondWitness 32 [] [] [] accountCount EmptyHash EmptyHash EmptyHash
              { Sig := [] } with
          | Except.ok b => b
          | Except.error _ => [] },
    Transactions := [rewardTx] }

/-- The assembly of `txs` at height 7 on top of `parentBlock accountCount`, with a vanity of 32
and a relay interval of 100. -/
def sampleAssembly (txs : List Transaction) (accountCount : Nat) (store : IndexStore) :
    Option (Except Error Unit × Task × IndexStore) :=
  applyTransactionsAndDebts.bft sampleCollaborators 32 100 noBlocks id 0 sampleStatedb
    (parentBlock accountCount) (sampleTask txs 0) store

/-- The task after `sampleAssembly txsAB 0 emptyStore`. -/
def sampleAssemblyTask : Task :=
  match sampleAssembly txsAB 0 emptyStore with
  | some (_, task, _) => task
  | none => sampleTask txsAB 0

/-- The store after `sampleAssembly txsAB 0 emptyStore`. -/
def sampleAssemblyStore : IndexStore :=
  match sampleAssembly txsAB 0 emptyStore with
  | some (_, _, store) => store
  | none => emptyStore

/-- The address whose bytes are the big-endian digits of `n`, left-padded with zeros. -/
def addressOfNat (n : Nat) : Address := BytesToAddress (toBE n)

/-- The store in which the addresses `addressOfNat 0 .. addressOfNat (n - 1)` hold the indices
`0 .. n - 1`. -/
def fullStore (n : Nat) : IndexStore :=
  allocAll ((List.range n).map addressOfNat) 0 emptyStore

/-- The store as the self-transfer of address 1 leaves it when the inherited count is
`2 ^ 64 - 1`: address 1 holds index `2 ^ 64 - 1`. -/
def wrapStoreAfter (store : IndexStore) : IndexStore :=
  { accountIndexDB := store.accountIndexDB.Put (sampleAddress 1).val (encodeUint maxUint64),
    indexAccountDB := store.indexAccountDB.Put (encodeUint maxUint64) (sampleAddress 1).val }

/-- The task as that assembly leaves it: the count has wrapped to 0 and the second witness
carries the count 0. -/
def wrapTaskAfter : Task :=
  { sampleTask txsAA 0 with
    accountCount := 0
    header :=
      { sampleHeader with
        SecondWitness :=
          match PrepareSecondWitness 32 [] [] [] 0
              (sampleCollaborators.GetBinaryMerkleRoot [sampleHash 7])
              (sampleCollaborators.GetBinaryMerkleRoot []) EmptyHash
              (sampleCollaborators.MustSign (sampleCollaborators.MustHash
                (encodeBlockInfo sampleHeader.Creator sampleHeader.Height
                  (sampleCollaborators.GetBinaryMerkleRoot [sampleHash 7])
                  (sampleCollaborators.GetBinaryMerkleRoot []))).val) with
          | Except.ok b => b
          | Except.error _ => [] } }

/-! ## Sample chains -/

/-- A task at height `h` with the given transactions. -/
def taskAtHeight (h : Nat) (txs : List Transaction) : Task :=
  { sampleTask txs 0 with header := { sampleHeader with Height := h } }

/-- A chain store in which every height holds a block with the transactions `txs`. -/
def uniformChain (txs : List Transaction) : Nat → Except Error Block :=
  fun h => Except.ok { Header := { sampleHeader with Height := h }, Transactions := txs }

/-- A block body in which address 1 appears in two transfers and address 2 in one. -/
def txsABA : List Transaction :=
  [rewardTx, sampleTx 1 2 5 (stemPayload 7), sampleTx 1 1 6 (stemPayload 8)]

/-- A block with the reward transaction and three transfers with distinct stem hashes. -/
def threeTxBlock : Block :=
  { Header := sampleHeader,
    Transactions := [rewardTx, sampleTx 1 2 5 (stemPayload 11), sampleTx 2 3 5 (stemPayload 12),
      sampleTx 3 1 5 (stemPayload 13)] }

/-- A transaction index that knows the three transfers of `threeTxBlock` by their hashes. -/
def threeTxIndex (txHash : Hash) : Except Error (Option TxIndex) :=
  if txHash = sampleHash 1 then Except.ok (some { BlockHash := sampleHash 9, Index := 1 })
  else if txHash = sampleHash 2 then Except.ok (some { BlockHash := sampleHash 9, Index := 2 })
  else if txHash = sampleHash 3 then Except.ok (some { BlockHash := sampleHash 9, Index := 3 })
  else Except.ok none

/-- The leaves of `threeTxBlock`: the stem hashes of its three transfers. -/
def threeTxLeaves : List Hash := [sampleHash 11, sampleHash 12, sampleHash 13]

/-! ## Specification-side definitions for the recent-transaction aggregation -/

/-- Whether a transaction has `a` as its `From` or as its `To`. -/
def touches (a : Address) (tx : Transaction) : Bool :=
  decide (tx.Data.From = a) || decide (tx.Data.To = a)

/-- The bytes of `encode(from, to, amount, nonce, gas_price, gas_limit)`; empty when the
encoding fails. -/
def dataForStemBytes (tx : Transaction) : Bytes :=
  match encodeDataForStem tx with
  | Except.ok b => b
  | Except.error _ => []

/-- The non-reward transactions of a window of blocks, in block order then transaction order;
a block is given by its transaction list. -/
def windowTxs : List (List Transaction) → List Transaction
  | [] => []
  | txs :: rest => txs.drop 1 ++ windowTxs rest

/-- The list the spec assigns to an account: the encodings of the non-reward transactions of
the window that have the account as `From` or as `To`, each once, in order. -/
def specAccountTxs (a : Address) (window : List (List Transaction)) : List Bytes :=
  ((windowTxs window).filter (touches a)).map dataForStemBytes

/-- The aggregation of both functions over a window of blocks given by their transaction
lists: the block loop applied to each block in turn. -/
def aggregateWindow : List (List Transaction) → RecentTxs → Except Error RecentTxs
  | [], s => Except.ok s
  | txs :: rest, s =>
    match addBlockTxs 0 txs s with
    | Except.error e => Except.error e
    | Except.ok s => aggregateWindow rest s

/-- The aggregation state `s` holds the lists `L`: the map has as many entries as `accTxs`,
every account of the map points to the entry that holds its list, two accounts never share an
index, and an account outside the map has the empty list. -/
def Represents (s : RecentTxs) (L : Address → List Bytes) : Prop :=
  s.accountToIndexMap.keys.length = s.accTxs.length ∧
  (∀ a i, s.accountToIndexMap.lookup a = some i → s.accTxs[i]? = some { Txs := L a }) ∧
  (∀ a b i, s.accountToIndexMap.lookup a = some i → s.accountToIndexMap.lookup b = some i →
    a = b) ∧
  (∀ a, s.accountToIndexMap.lookup a = none → L a = [])

/-- What the spec says of the aggregation of a window: every index of the map is a valid
position of `accTxs`, the entry of an account is its list `specAccountTxs`, an account outside
the map touches no transaction of the window, and every transaction of the window encodes. -/
def AggregationSpec (s : RecentTxs) (window : List (List Transaction)) : Prop :=
  (∀ a i, s.accountToIndexMap.lookup a = some i →
    i < s.accTxs.length ∧ s.accTxs[i]? = some { Txs := specAccountTxs a window }) ∧
  (∀ a, s.accountToIndexMap.lookup a = none →
    (windowTxs window).filter (touches a) = []) ∧
  (∀ tx ∈ windowTxs window, encodeDataForStem tx = Except.ok (dataForStemBytes tx))

/-- The body of a counted loop applied to each height of a list in turn. -/
def runHeights {σ : Type} (body : Nat → σ → Except Error σ) : List Nat → σ → Except Error σ
  | [], s => Except.ok s
  | h :: hs, s =>
    match body h s with
    | Except.error e => Except.error e
    | Except.ok s => runHeights body hs s

/-- The heights of the window that ends at `height`: `height - RelayInterval + 1 .. height`
in `uint64` arithmetic, empty when the start lies above the end. -/
def windowHeights (height RelayInterval : Nat) : List Nat :=
  List.range' (windowStart height RelayInterval)
    (height + 1 - windowStart height RelayInterval)

/-- The transaction list `getRecentTxHashStem` aggregates for height `h`: the task's own list at
the task's height, the stored block's list below it. -/
def producerFetch (GetBlockByHeight : Nat → Except Error Block) (task : Task) (h : Nat) :
    Except Error (List Transaction) :=
  if h ≠ task.header.Height then
    match GetBlockByHeight h with
    | Except.error e => Except.error e
    | Except.ok prevBlock => Except.ok prevBlock.Transactions
  else Except.ok task.txs

/-- The transaction list `GetRecentTxMerkleInfo` aggregates for height `h`: the stored
block's list. -/
def consumerFetch (GetBlockByHeight : Nat → Except Error Block) (h : Nat) :
    Except Error (List Transaction) :=
  match GetBlockByHeight h with
  | Except.error e => Except.error e
  | Except.ok prevBlock => Except.ok prevBlock.Transactions

/-- The aggregation of the window of `txsABA` at height 7 with a relay interval of 1. -/
def sampleRecent : RecentTxs :=
  match getRecentTxHashStem.aggregate 1 noBlocks 2 (taskAtHeight 7 txsABA) with
  | some (Except.ok s) => s
  | _ => RecentTxs.init

/-! ## The proof service (`api/api_subchain.go`)

The backend `api.s` (chain store, state database, index stores) lives outside the files under
study and is a parameter. -/

/-- A `*big.Int` as the proof service handles it: the identity of the object pointed to and
the number it holds. Go compares two `*big.Int` with `!=` by identity. -/
structure BigIntRef where
  ptr : Nat
  value : Int
deriving DecidableEq

/-- A state snapshot, `*state.Statedb`, as the proof service reads it: `GetBalance` returns a
`*big.Int`. -/
structure StateSnapshot where
  GetBalance : Address → BigIntRef
  GetNonce : Address → Nat

/-- The snapshot as the stem computations read it: balances as numbers. -/
def StateSnapshot.toStatedb (s : StateSnapshot) : Statedb :=
  { GetBalance := fun a => (s.GetBalance a).value, GetNonce := s.GetNonce }

/-- The backend of the proof service: `GetBlock` is `api.s.GetBlock(common.EmptyHash, height)`
with an `int64` height, the other fields are the chain store, the state database and the two
index stores. -/
structure Backend where
  GetCurrentState : Except Error StateSnapshot
  GetBlockHash : Nat → Except Error Hash
  GetBlockHeader : Hash → Except Error BlockHeader
  GetState : Hash → Except Error StateSnapshot
  GetBlock : Int → Except Error Block
  GetBlockByHeight : Nat → Except Error Block
  GetAccountIndexDB : Database
  GetIndexAccountDB : Database

/-- Go's conversion `uint64(x)` of an `int64`. -/
def toUint64 (x : Int) : Nat := (x % 2 ^ 64).toNat

/-- Embeds `PublicSubchainAPI.GetStatedbByHeight` (lines 494-509). -/
def GetStatedbByHeight (b : Backend) (height : Nat) : Except Error StateSnapshot :=
  match b.GetBlockHash height with
  | Except.error e => Except.error (Error.stacked e)
  | Except.ok blockHash =>
    match b.GetBlockHeader blockHash with
    | Except.error e => Except.error (Error.stacked e)
    | Except.ok header => b.GetState header.StateHash

/-- The call `rlp.DecodeBytes(indexBytes, &index)` for a `uint64`: one value, no trailing bytes. -/
def decodeBytesUint64 (input : Bytes) : Except Error Nat :=
  match decodeUint64 input with
  | some (index, []) => Except.ok index
  | _ => Except.error Error.rlpDecode

/-- The result map of `GetBalanceMerkleInfo`. -/
structure BalanceMerkleInfo where
  account : Address
  nonce : Nat
  balance : BigIntRef
  index : Nat
  proof : Bytes
deriving DecidableEq

/-- The leaf loop of `GetBalanceMerkleInfo` (lines 206-224),
`for i := uint64(0); i < swExtra.AccountCount; i++`, with `n` iterations left. -/
def GetBalanceMerkleInfo.level (c : Collaborators) (statedb : StateSnapshot)
    (indexAccountDB : Database) : Nat → Nat → List Hash → Except Error (List Hash)
  | 0, _, level => Except.ok level
  | n + 1, i, level =>
    let indexBytes := encodeUint i
    match indexAccountDB.Get indexBytes with
    | Except.error e => Except.error e
    | Except.ok accountBytes =>
      let tempAccount := BytesToAddress accountBytes
      let tempNonce := statedb.GetNonce tempAccount
      let tempBalance := statedb.GetBalance tempAccount
      let stateBytes :=
        match encodeBigInt tempBalance.value with
        | Except.ok b => encodeList (encodeString tempAccount.val ++ b ++ encodeUint tempNonce)
        | Except.error _ => []
      GetBalanceMerkleInfo.level c statedb indexAccountDB n (i + 1)
        (level ++ [c.MustHash stateBytes])

/-- Embeds `PublicSubchainAPI.GetBalanceMerkleInfo`; `height` is an `int64`, a negative one
asks for the current state. The result `none` is the `nil` map returned together with a `nil`
error by `return nil, err` at line 203, where `err` holds the `nil` of the last call. -/
def GetBalanceMerkleInfo (c : Collaborators) (BftExtraVanity : Nat) (b : Backend)
    (account : Address) (height : Int) : Except Error (Option BalanceMerkleInfo) :=
  match (if height < 0 then b.GetCurrentState else GetStatedbByHeight b (toUint64 height)) with
  | Except.error e => Except.error e
  | Except.ok statedb =>
    let nonce := statedb.GetNonce account
    let balance := statedb.GetBalance account
    match b.GetAccountIndexDB.Get account.val with
    | Except.error e => Except.error e
    | Except.ok indexBytes =>
      match decodeBytesUint64 indexBytes with
      | Except.error e => Except.error e
      | Except.ok index =>
        match b.GetBlock height with
        | Except.error e => Except.error e
        | Except.ok block =>
          match ExtractSecondWitnessInfo BftExtraVanity block.Header with
          | Except.error e => Except.error e
          | Except.ok swExtra =>
            if index ≥ swExtra.AccountCount then Except.ok none
            else
              match GetBalanceMerkleInfo.level c statedb b.GetIndexAccountDB
                  swExtra.AccountCount 0 [] with
              | Except.error e => Except.error e
              | Except.ok level =>
                let proofs := c.GetMerkleProof level (toInt64 index)
                let proofData := encodeHashes proofs
                Except.ok (some { account := account, nonce := nonce, balance := balance,
                                  index := index, proof := proofData })

/-- Embeds `PublicSubchainAPI.GetBlockInfoForStem`; `height` is an `int64` and the encoded
height is `uint64(height)`, the argument. -/
def GetBlockInfoForStem (BftExtraVanity : Nat) (b : Backend) (height : Int) :
    Except Error Bytes :=
  match b.GetBlock height with
  | Except.error e => Except.error e
  | Except.ok block =>
    match ExtractSecondWitnessInfo BftExtraVanity block.Header with
    | Except.error e => Except.error e
    | Except.ok swExtra =>
      Except.ok (encodeList (encodeAddress block.Header.Creator ++ encodeUint (toUint64 height) ++
        encodeHash swExtra.TxHashStem ++ encodeHash swExtra.StateHashStem))

/-- The result map of `GetUpdatedAccountInfo`: the two encoded slices. -/
structure UpdatedAccountInfo where
  updatedAccounts : Bytes
  balances : Bytes
deriving DecidableEq

/-- The loop of `GetUpdatedAccountInfo` (lines 428-441) with `n` iterations left; the test
`curBalance != prevBalance` compares two `*big.Int`. -/
def GetUpdatedAccountInfo.collect (curStatedb prevStatedb : StateSnapshot)
    (indexAccountDB : Database) :
    Nat → Nat → List Address → List BigIntRef → Except Error (List Address × List BigIntRef)
  | 0, _, updatedAccounts, balances => Except.ok (updatedAccounts, balances)
  | n + 1, i, updatedAccounts, balances =>
    let indexBytes := encodeUint i
    match indexAccountDB.Get indexBytes with
    | Except.error e => Except.error e
    | Except.ok accountBytes =>
      let account := BytesToAddress accountBytes
      let curBalance := curStatedb.GetBalance account
      let prevBalance := prevStatedb.GetBalance account
      if curBalance.ptr ≠ prevBalance.ptr then
        GetUpdatedAccountInfo.collect curStatedb prevStatedb indexAccountDB n (i + 1)
          (updatedAccounts ++ [account]) (balances ++ [curBalance])
      else
        GetUpdatedAccountInfo.collect curStatedb prevStatedb indexAccountDB n (i + 1)
          updatedAccounts balances

/-- The RLP of a `[]common.Address`. -/
def encodeAddresses (as : List Address) : Bytes :=
  encodeList (as.foldr (fun a acc => encodeAddress a ++ acc) [])

/-- The RLP of a `[]*big.Int`; the code drops the encoding error, which leaves `nil` bytes. -/
def encodeBalances (bs : List BigIntRef) : Bytes :=
  match encodeSlice (fun b : BigIntRef => encodeBigInt b.value) bs with
  | Except.ok bytes => bytes
  | Except.error _ => []

/-- Embeds `PublicSubchainAPI.GetUpdatedAccountInfo`; `height` is a `uint64`. -/
def GetUpdatedAccountInfo (BftExtraVanity RelayInterval : Nat) (b : Backend) (height : Nat) :
    Except Error UpdatedAccountInfo :=
  if height < RelayInterval then Except.error Error.heightTooLow
  else
    let prevHeight := height - RelayInterval
    match GetStatedbByHeight b height with
    | Except.error e => Except.error e
    | Except.ok curStatedb =>
      match GetStatedbByHeight b prevHeight with
      | Except.error e => Except.error e
      | Except.ok prevStatedb =>
        match b.GetBlock (toInt64 height) with
        | Except.error e => Except.error e
        | Except.ok block =>
          match ExtractSecondWitnessInfo BftExtraVanity block.Header with
          | Except.error e => Except.error e
          | Except.ok swExtra =>
            match GetUpdatedAccountInfo.collect curStatedb prevStatedb b.GetIndexAccountDB
                swExtra.AccountCount 0 [] [] with
            | Except.error e => Except.error e
            | Except.ok (updatedAccounts, balances) =>
              Except.ok { updatedAccounts := encodeAddresses updatedAccounts,
                          balances := encodeBalances balances }

/-- The result map of `GetFee`: two `*big.Int` values. -/
structure FeeInfo where
  fee : Int
  verNum : Int
deriving DecidableEq

/-- Embeds `PublicSubchainAPI.GetFee`; `height` is a `uint64`. `ExtractBftExtra` of package
`types` is a parameter that yields the verifier list of the BFT extra data, and
`SubchainFeeAccount` the constant of package `common`. `big.Int.Div` is Euclidean division and
panics on a zero divisor, as `height % RelayInterval` does on a zero interval. -/
def GetFee (RelayInterval : Nat) (SubchainFeeAccount : Address)
    (ExtractBftExtra : BlockHeader → Except Error (List Address)) (b : Backend) (height : Nat) :
    Except Error FeeInfo :=
  if height < RelayInterval then Except.error Error.mustBeRelayBlock
  else if RelayInterval = 0 then Except.error Error.divideByZero
  else if height % RelayInterval ≠ 0 then Except.error Error.mustBeRelayBlock
  else
    let prevHeight := height - RelayInterval
    match GetStatedbByHeight b height with
    | Except.error e => Except.error e
    | Except.ok curStatedb =>
      match GetStatedbByHeight b prevHeight with
      | Except.error e => Except.error e
      | Except.ok prevStatedb =>
        let account := SubchainFeeAccount
        let curBalance := curStatedb.GetBalance account
        let prevBalance := prevStatedb.GetBalance account
        let fee := curBalance.value - prevBalance.value
        match b.GetBlock (toInt64 height) with
        | Except.error e => Except.error e
        | Except.ok block =>
          match ExtractBftExtra block.Header with
          | Except.error e => Except.error e
          | Except.ok verifiers =>
            let verNum : Int := (verifiers.length : Int)
            if verNum = 0 then Except.error Error.divideByZero
            else Except.ok { fee := Int.ediv fee verNum, verNum := verNum }

/-! ## A sample backend of the proof service -/

/-- The balance of the sample fee account at height `h`. -/
def sampleFeeBalance (h : Nat) : Int :=
  if h = 0 then 107 else if h = 2 then 100 else 120

/-- The snapshot of the samples at height `h`: address 1 holds `100 + 25 * h`, address 15 (the
fee account) holds `sampleFeeBalance h`, every other address holds 100; each snapshot hands out
its own `big.Int` objects. -/
def sampleSnapshot (h : Nat) : StateSnapshot :=
  { GetBalance := fun a =>
      { ptr := 2 ^ 160 * (h + 1) + fromBE a.val,
        value := if a = sampleAddress 1 then 100 + 25 * (h : Int)
                 else if a = sampleAddress 15 then sampleFeeBalance h else 100 },
    GetNonce := fun _ => 1 }

/-- The block that `sampleAssembly txsAB 0 emptyStore` assembles at height 7. -/
def assembledBlock : Block :=
  { Header := sampleAssemblyTask.header, Transactions := sampleAssemblyTask.txs }

/-- The block of the sample chain at height `h`: the genesis block records no account, the
later ones carry the second witness of `assembledBlock`. -/
def sampleChainBlock (h : Nat) : Block :=
  if h = 0 then { parentBlock 0 with Header := { (parentBlock 0).Header with Height := 0 } }
  else { assembledBlock with Header := { assembledBlock.Header with Height := h } }

/-- A backend over a chain of heights 0 to 7 whose current block is `assembledBlock`; a
negative height asks for the current block, and the index stores are those the assembly
left. -/
def sampleBackend : Backend :=
  { GetCurrentState := Except.ok (sampleSnapshot 7),
    GetBlockHash := fun h =>
      if h ≤ 7 then Except.ok (sampleHash (byteOf h)) else Except.error Error.blockNotFound,
    GetBlockHeader := fun hash => Except.ok { sampleHeader with StateHash := hash },
    GetState := fun root => Except.ok (sampleSnapshot (root.val.headD 0).val),
    GetBlock := fun height =>
      if height < 0 then Except.ok assembledBlock
      else if height ≤ 7 then Except.ok (sampleChainBlock height.toNat)
      else Except.error Error.blockNotFound,
    GetBlockByHeight := fun h =>
      if h ≤ 7 then Except.ok (sampleChainBlock h) else Except.error Error.blockNotFound,
    GetAccountIndexDB := sampleAssemblyStore.accountIndexDB,
    GetIndexAccountDB := sampleAssemblyStore.indexAccountDB }

/-- The verifier list of the samples: two verifiers in every header. -/
def sampleExtractBftExtra (_ : BlockHeader) : Except Error (List Address) :=
  Except.ok [sampleAddress 3, sampleAddress 4]

/-- The second witness of `assembledBlock`. -/
def assembledWitness : SecondWitnessInfo :=
  match ExtractSecondWitnessInfo 32 assembledBlock.Header with
  | Except.ok swExtra => swExtra
  | Except.error _ => parentWitnessInfo 0

/-! ## Specification-side definitions for the rank of an account in a window -/

/-- The list `order` extended by `a` at the end unless it holds `a` already. -/
def appendNew (order : List Address) (a : Address) : List Address :=
  if a ∈ order then order else order ++ [a]

/-- The accounts of a window of blocks in order of first appearance: the non-reward
transactions in block order then transaction order, `From` before `To`, each account once. -/
def windowOrder (window : List (List Transaction)) : List Address :=
  firstAppearances [] (accountsOf (windowTxs window))

/-- The rank, counted from 0, of an account in the first-appearance order of a window; `none`
for an account that does not appear. -/
def specRank (a : Address) (window : List (List Transaction)) : Option Nat :=
  if a ∈ windowOrder window then some ((windowOrder window).indexOf a) else none

/-- The account-to-index map of the aggregation state `s` ranks the accounts of `order`: it
has one entry per element of `order` and sends each account to its position in `order`. -/
def Ranked (s : RecentTxs) (order : List Address) : Prop :=
  s.accountToIndexMap.keys.length = order.length ∧
  ∀ a, s.accountToIndexMap.lookup a = if a ∈ order then some (order.indexOf a) else none

/-- A chain store whose blocks hold one transfer of a negative amount. -/
def negativeChain : Nat → Except Error Block :=
  uniformChain [rewardTx, sampleTx 1 2 (-5) (stemPayload 7)]

/-! ## The BFT pre-prepare handler (`consensus/bft/core/preprepare.go`)

The handler is a method of `core`. The fields of `core` it reads or writes are modelled, the
calls it makes to methods that live outside the file are recorded in `calls` in call order,
and the backend `c.server`, the decoder and `checkMessage` are parameters. -/

/-- The states of the round state machine, `core.State`. -/
inductive State where
  | StateAcceptRequest
  | StatePreprepared
  | StatePrepared
  | StateCommitted
deriving DecidableEq

/-- A view, `bft.View`: sequence and round, both `*big.Int`. -/
structure View where
  Sequence : Nat
  Round : Nat
deriving DecidableEq

/-- Modelled from the spec: a `bft.Proposal` as the handler reads it, through `Hash()` and
`Height()`. -/
structure Proposal where
  Hash : Hash
  Height : Nat
deriving DecidableEq

/-- The decoded message body, `bft.Preprepare`. -/
structure Preprepare where
  View : View
  Proposal : Proposal
deriving DecidableEq

/-- The wire message handed to the handler, `core.message`. -/
structure message where
  Code : Nat
  Msg : Bytes
deriving DecidableEq

/-- The sender, a `bft.Verifier`, as the handler reads it through `Address()`. -/
structure Verifier where
  Address : Address
deriving DecidableEq

/-- The errors the handler returns: its own, those of `checkMessage`, and those of
`c.server.Verify`, of which `ErrBlockCreateTimeOld` is told apart. -/
inductive BftError where
  | errDecodePreprepare
  | errOldMsg
  | errFutureMsg
  | errInvalidMsg
  | errNotProposer
  | ErrBlockCreateTimeOld
  | errVerify (code : Nat)
deriving DecidableEq

/-- The event a fired future-preprepare timer posts, `core.backlogEvent`. -/
structure backlogEvent where
  src : Verifier
  msg : message
deriving DecidableEq

/-- The one-shot timer `time.AfterFunc(duration, f)` whose `f` posts `event` with
`c.sendEvent`. -/
structure Timer where
  duration : Nat
  event : backlogEvent
deriving DecidableEq

/-- The calls the handler makes to methods outside the file, as recorded in `core.calls`;
`stopFuturePreprepareTimer` is recorded with the timer it cancels, if any. -/
inductive Call where
  | Verify (proposal : Proposal)
  | sendOldCommit (view : View) (hash : Hash)
  | stopFuturePreprepareTimer (timer : Option Timer)
  | AfterFunc (duration : Nat) (event : backlogEvent)
  | sendNextRoundChange
  | sendCommit
  | sendPrepare
deriving DecidableEq

/-- Modelled from the spec: the round state `c.current` as the handler reads it through
`IsHashLocked()` and `GetLockedHash()` and writes it through `SetPreprepare`. -/
structure roundState where
  Preprepare : Option Preprepare
  IsHashLocked : Bool
  GetLockedHash : Hash
deriving DecidableEq

/-- The fields of `core` that the handler reads or writes, and the record of its calls. -/
structure core (VerSet : Type) where
  state : State
  current : roundState
  verSet : VerSet
  consensusTimestamp : Nat
  futurePreprepareTimer : Option Timer
  calls : List Call
deriving DecidableEq

/-- The backend `c.server` and the verifier-set methods the handler calls; `Verify` returns
the duration and the error, `none` for `nil`. -/
structure Server (VerSet : Type) where
  ParentVerifiers : Proposal → VerSet
  GetProposer : Nat → Address
  CalcProposer : VerSet → Address → Nat → VerSet
  IsProposer : VerSet → Address → Bool
  HasPropsal : Hash → Bool
  Verify : Proposal → Nat × Option BftError

/-- Appends a call to the record. -/
def core.record {VerSet : Type} (c : core VerSet) (call : Call) : core VerSet :=
  { c with calls := c.calls ++ [call] }

/-- Modelled from the spec: `core.setState` moves the round state machine to `state`. -/
def core.setState {VerSet : Type} (c : core VerSet) (state : State) : core VerSet :=
  { c with state := state }

/-- Modelled from the spec: `roundState.SetPreprepare` stores the preprepare in the slot of the
current round. -/
def roundState.SetPreprepare (r : roundState) (preprepare : Seele.Preprepare) : roundState :=
  { r with Preprepare := some preprepare }

/-- Embeds `core.acceptPreprepare` (lines 120-123); `now` is the value of `time.Now()`. -/
def core.acceptPreprepare {VerSet : Type} (now : Nat) (c : core VerSet)
    (preprepare : Preprepare) : core VerSet :=
  { c with consensusTimestamp := now, current := c.current.SetPreprepare preprepare }

/-- Modelled from the spec: `core.stopFuturePreprepareTimer` cancels the outstanding
future-preprepare timer, if any; the call is recorded with that timer. -/
def core.stopFuturePreprepareTimer {VerSet : Type} (c : core VerSet) : core VerSet :=
  c.record (Call.stopFuturePreprepareTimer c.futurePreprepareTimer)

/-- Embeds `core.handlePreprepare` (lines 43-118). `Decode` is `msg.Decode`, `checkMessage`
is `c.checkMessage(msgPreprepare, view)` with `none` for `nil`; the result is the returned
error, `none` for `nil`, and `core` as the call leaves it. -/
def handlePreprepare {VerSet : Type} (server : Server VerSet)
    (Decode : message → Option Preprepare)
    (checkMessage : core VerSet → View → Option BftError) (now : Nat)
    (c : core VerSet) (msg : message) (src : Verifier) : Option BftError × core VerSet :=
  match Decode msg with
  | none => (some BftError.errDecodePreprepare, c)
  | some preprepare =>
    match checkMessage c preprepare.View with
    | some err =>
      if err = BftError.errOldMsg then
        let verSet := server.ParentVerifiers preprepare.Proposal
        let previousProposer :=
          server.GetProposer ((preprepare.Proposal.Height + 2 ^ 64 - 1) % 2 ^ 64)
        let verSet := server.CalcProposer verSet previousProposer
          (preprepare.View.Round % 2 ^ 64)
        if server.IsProposer verSet src.Address && server.HasPropsal preprepare.Proposal.Hash
        then (none, c.record (Call.sendOldCommit preprepare.View preprepare.Proposal.Hash))
        else (some err, c)
      else (some err, c)
    | none =>
      if !server.IsProposer c.verSet src.Address then (some BftError.errNotProposer, c)
      else
        let c := c.record (Call.Verify preprepare.Proposal)
        match server.Verify preprepare.Proposal with
        | (duration, some err) =>
          if err = BftError.ErrBlockCreateTimeOld then
            let c := c.stopFuturePreprepareTimer
            let timer : Timer := { duration := duration, event := { src := src, msg := msg } }
            let c := c.record (Call.AfterFunc duration { src := src, msg := msg })
            (some err, { c with futurePreprepareTimer := some timer })
          else (some err, c.record Call.sendNextRoundChange)
        | (_, none) =>
          if c.state = State.StateAcceptRequest then
            if c.current.IsHashLocked then
              if preprepare.Proposal.Hash = c.current.GetLockedHash then
                let c := c.acceptPreprepare now preprepare
                let c := c.setState State.StatePrepared
                (none, c.record Call.sendCommit)
              else (none, c.record Call.sendNextRoundChange)
            else
              let c := c.acceptPreprepare now preprepare
              let c := c.setState State.StatePreprepared
              (none, c.record Call.sendPrepare)
          else (none, c)

/-! ## A sample handler -/

/-- A backend whose verifier set is the address of its proposer: address 1 proposes the even
rounds and address 2 the odd ones, only the proposal hash 5 is known, a proposal of height 9
is dated 300 time units ahead and one of height 10 fails verification. -/
def sampleServer : Server Address :=
  { ParentVerifiers := fun _ => sampleAddress 1,
    GetProposer := fun _ => sampleAddress 1,
    CalcProposer := fun _ _ round => if round % 2 = 0 then sampleAddress 1 else sampleAddress 2,
    IsProposer := fun verSet a => decide (verSet = a),
    HasPropsal := fun h => decide (h = sampleHash 5),
    Verify := fun p =>
      if p.Height = 9 then (300, some BftError.ErrBlockCreateTimeOld)
      else if p.Height = 10 then (0, some (BftError.errVerify 1))
      else (0, none) }

/-- A decoder that reads the sequence, the round, the height and the first byte of the proposal
hash from the four bytes of the payload. -/
def sampleDecode (msg : message) : Option Preprepare :=
  match msg.Msg with
  | [s, r, h, x] =>
    some { View := { Sequence := s.val, Round := r.val },
           Proposal := { Hash := sampleHash x, Height := h.val } }
  | _ => none

/-- The classification of a view against the current view `(8, 1)`. -/
def sampleCheckMessage (_ : core Address) (view : View) : Option BftError :=
  if view.Sequence < 8 ∨ (view.Sequence = 8 ∧ view.Round < 1) then some BftError.errOldMsg
  else if view.Sequence > 8 ∨ (view.Sequence = 8 ∧ view.Round > 1) then
    some BftError.errFutureMsg
  else none

/-- A handler at view `(8, 1)` in the given state, with address 2 as proposer, an older timer
outstanding and the given lock. -/
def sampleCore (state : State) (locked : Bool) (lockedHash : Hash) : core Address :=
  { state := state,
    current := { Preprepare := none, IsHashLocked := locked, GetLockedHash := lockedHash },
    verSet := sampleAddress 2, consensusTimestamp := 0,
    futurePreprepareTimer :=
      some { duration := 50, event := { src := { Address := sampleAddress 2 },
                                        msg := { Code := 0, Msg := [8, 1, 9, 4] } } },
    calls := [] }

/-- A preprepare message for view `(sequence, round)` with a proposal of the given height and
hash byte. -/
def sampleMessage (sequence round height hash : Byte) : message :=
  { Code := 0, Msg := [sequence, round, height, hash] }

/-! ## Transaction selection of block assembly (`miner/task.go`, `chooseTransactions`)

The transaction pool, the working state and the chain's `ApplyTransaction` live outside the
files under study: the pool state `P` and the working state `S` are type parameters and the
operations on them are parameters. The calls to them are recorded in call order. -/

/-- The operations `chooseTransactions` calls: `Validate` is `tx.Validate(statedb, height)`
with `none` for `nil`, `ApplyTransaction` returns the receipt or the error together with the
working state as the call leaves it, `Size` is `tx.Size()`, `Rootaccounts` is
`seele.GenesisInfo().Rootaccounts` and the three classifiers are methods of the transaction. -/
structure TxBackend (P S : Type) where
  GetProcessableTransactions : P → Int → (List Transaction × Int) × P
  RemoveTransaction : P → Hash → P
  Validate : Transaction → S → Nat → Option Error
  ApplyTransaction : Transaction → Nat → Address → S → BlockHeader → Except Error Receipt × S
  Size : Transaction → Int
  Rootaccounts : List Address
  IsChallengedTx : Transaction → List Address → Bool
  IsVerifierTx : Transaction → List Address → Bool
  IsExitTx : Transaction → List Address → Bool

/-- The calls of `chooseTransactions` to the pool, to the transaction and to the chain. -/
inductive PoolCall where
  | GetProcessableTransactions (size : Int)
  | Validate (tx : Transaction)
  | RemoveTransaction (hash : Hash)
  | ApplyTransaction (tx : Transaction) (txIndex : Nat)
deriving DecidableEq

/-- Everything `chooseTransactions` reads and writes: the task, the working state, the pool,
the local `txIndex` and the record of the calls. -/
structure Selection (P S : Type) where
  task : Task
  statedb : S
  pool : P
  txIndex : Nat
  calls : List PoolCall

/-- The rejection path of the inner loop (lines 387-390 and 395-398): the transaction is
removed from the pool and its size is deducted from `txsSize`. -/
def chooseTransactions.reject {P S : Type} (b : TxBackend P S) (tx : Transaction)
    (txsSize : Int) (s : Selection P S) : Selection P S × Int × Bool :=
  ({ s with pool := b.RemoveTransaction s.pool tx.Hash,
            calls := s.calls ++ [PoolCall.RemoveTransaction tx.Hash] },
    txsSize - b.Size tx, false)

/-- The end of the body of the inner loop (lines 421-423): the transaction and its receipt are
appended to the task and `txIndex` is incremented. -/
def chooseTransactions.keep {P S : Type} (tx : Transaction) (receipt : Receipt)
    (txsSize : Int) (s : Selection P S) : Selection P S × Int × Bool :=
  ({ s with task := { s.task with txs := s.task.txs ++ [tx],
                                  receipts := s.task.receipts ++ [receipt] },
            txIndex := s.txIndex + 1 },
    txsSize, false)

/-- The body of the inner loop for one transaction (lines 385-424). The flag of the result
says whether the body executed `return`; `tx.ToAccount()` is the `To` of the transaction. -/
def chooseTransactions.step {P S : Type} (b : TxBackend P S) (BftConsensus : Nat)
    (tx : Transaction) (txsSize : Int) (s : Selection P S) : Selection P S × Int × Bool :=
  let s := { s with calls := s.calls ++ [PoolCall.Validate tx] }
  match b.Validate tx s.statedb s.task.header.Height with
  | some _ => chooseTransactions.reject b tx txsSize s
  | none =>
    let s := { s with calls := s.calls ++ [PoolCall.ApplyTransaction tx s.txIndex] }
    match b.ApplyTransaction tx s.txIndex s.task.coinbase s.statedb s.task.header with
    | (Except.error _, statedb) =>
      chooseTransactions.reject b tx txsSize { s with statedb := statedb }
    | (Except.ok receipt, statedb) =>
      let s := { s with statedb := statedb }
      if s.task.header.Consensus = BftConsensus then
        let rootAccounts := b.Rootaccounts
        if b.IsChallengedTx tx rootAccounts then
          ({ s with task := { s.task with challengedTxs := s.task.challengedTxs ++ [tx] } },
            txsSize, true)
        else
          let task := s.task
          let task :=
            if b.IsVerifierTx tx rootAccounts then
              { task with depositVers := task.depositVers ++ [tx.Data.To] }
            else task
          let task :=
            if b.IsExitTx tx rootAccounts then
              { task with exitVers := task.exitVers ++ [tx.Data.To] }
            else task
          chooseTransactions.keep tx receipt txsSize { s with task := task }
      else chooseTransactions.keep tx receipt txsSize s

/-- The inner loop `for _, tx := range txs` (lines 385-424): it ends with the flag set as soon
as the body executes `return`. -/
def chooseTransactions.batch {P S : Type} (b : TxBackend P S) (BftConsensus : Nat) :
    List Transaction → Int → Selection P S → Selection P S × Int × Bool
  | [], txsSize, s => (s, txsSize, false)
  | tx :: txs, txsSize, s =>
    match chooseTransactions.step b BftConsensus tx txsSize s with
    | (s, txsSize, true) => (s, txsSize, true)
    | (s, txsSize, false) => chooseTransactions.batch b BftConsensus txs txsSize s

/-- The outer loop `for size > 0` (lines 378-426) with `fuel` bounding its rounds: `none`
means that the fuel ran out. -/
def chooseTransactions.loop {P S : Type} (b : TxBackend P S) (BftConsensus : Nat) :
    Nat → Int → Selection P S → Option (Selection P S)
  | 0, size, s => if size > 0 then none else some s
  | fuel + 1, size, s =>
    if size > 0 then
      match b.GetProcessableTransactions s.pool size with
      | ((txs, txsSize), pool) =>
        let s := { s with pool := pool,
                          calls := s.calls ++ [PoolCall.GetProcessableTransactions size] }
        if txs.length = 0 then some s
        else
          match chooseTransactions.batch b BftConsensus txs txsSize s with
          | (s, _, true) => some s
          | (s, txsSize, false) => chooseTransactions.loop b BftConsensus fuel (size - txsSize) s
    else some s

/-- Embeds `Task.chooseTransactions`: the selection starts with `txIndex := 1`, the reward
transaction being the first of the task. `BftConsensus` is the constant of package `types`. -/
def chooseTransactions {P S : Type} (b : TxBackend P S) (BftConsensus : Nat) (fuel : Nat)
    (task : Task) (statedb : S) (pool : P) (size : Int) : Option (Selection P S) :=
  chooseTransactions.loop b BftConsensus fuel size
    { task := task, statedb := statedb, pool := pool, txIndex := 1, calls := [] }

/-! ## A sample pool -/

/-- A backend over a pool that is a queue of batches and a working state that counts the
applied transactions: a negative amount fails validation, a transfer to a root account is a
challenge, one from a root account a verifier deposit, and address 9 is the only root
account. -/
def sampleTxBackend : TxBackend (List (List Transaction)) Nat :=
  { GetProcessableTransactions := fun pool _ =>
      match pool with
      | [] => (([], 0), [])
      | txs :: rest => ((txs, (txs.length : Int)), rest),
    RemoveTransaction := fun pool _ => pool,
    Validate := fun tx _ _ => if tx.Data.Amount < 0 then some Error.notFound else none,
    ApplyTransaction := fun tx _ _ statedb _ =>
      (Except.ok { TxHash := tx.Hash, Result := [] }, statedb + 1),
    Size := fun _ => 1,
    Rootaccounts := [sampleAddress 9],
    IsChallengedTx := fun tx roots => decide (tx.Data.To ∈ roots),
    IsVerifierTx := fun tx roots => decide (tx.Data.From ∈ roots),
    IsExitTx := fun _ _ => false }

/-- A fresh BFT task (consensus tag 2) that holds the reward transaction. -/
def sampleBftTask : Task :=
  { sampleTask [rewardTx] 0 with header := { sampleHeader with Consensus := 2 } }

/-- A pool of two batches: a transfer, a challenge sent by the root account and one more
transfer in the first batch, a last transfer in the second. -/
def samplePool : List (List Transaction) :=
  [[sampleTx 1 2 5 [], sampleTx 9 9 5 [], sampleTx 2 3 5 []], [sampleTx 3 4 5 []]]

/-! ## The reward transaction and the selection of a block (`miner/task.go`) -/

/-- The functions of the `consensus` and `txs` packages that `handleMinerRewardTx` calls;
`ApplyRewardTx` returns the receipt or the error together with the working state as the call
leaves it. -/
structure RewardBackend (S : Type) where
  GetReward : Nat → Int
  NewRewardTx : Address → Int → Nat → Except Error Transaction
  ApplyRewardTx : Transaction → S → Except Error Receipt × S

/-- Embeds `NewTask`: a task with the given header and coinbase and nothing else. -/
def NewTask (header : BlockHeader) (coinbase : Address) : Task :=
  { header := header, txs := [], accountCount := 0, challengedTxs := [], depositVers := [],
    exitVers := [], receipts := [], coinbase := coinbase }

/-- Embeds `Task.handleMinerRewardTx` (lines 324-345): the reward, zero on the BFT path, is
paid by a reward transaction that is applied and appended to the task with its receipt. The
result is the reward or the error, with the task and the working state as the call leaves
them. -/
def handleMinerRewardTx {S : Type} (r : RewardBackend S) (BftConsensus : Nat) (task : Task)
    (statedb : S) : Except Error Int × Task × S :=
  let reward := r.GetReward task.header.Height
  let reward := if task.header.Consensus = BftConsensus then 0 else reward
  match r.NewRewardTx task.coinbase reward (task.header.CreateTimestamp % 2 ^ 64) with
  | Except.error e => (Except.error e, task, statedb)
  | Except.ok rewardTx =>
    match r.ApplyRewardTx rewardTx statedb with
    | (Except.error e, statedb) => (Except.error e, task, statedb)
    | (Except.ok rewardTxReceipt, statedb) =>
      (Except.ok reward,
        { task with txs := task.txs ++ [rewardTx],
                    receipts := task.receipts ++ [rewardTxReceipt] },
        statedb)

/-- Embeds lines 67-73 of `Task.applyTransactionsAndDebts`: `handleMinerRewardTx`, whose error
ends the assembly, followed by `chooseTransactions` with the byte budget `size`. -/
def applyTransactionsAndDebts.select {P S : Type} (r : RewardBackend S) (b : TxBackend P S)
    (BftConsensus : Nat) (fuel : Nat) (task : Task) (statedb : S) (pool : P) (size : Int) :
    Option (Except Error (Selection P S)) :=
  match handleMinerRewardTx r BftConsensus task statedb with
  | (Except.error e, _, _) => some (Except.error e)
  | (Except.ok _, task, statedb) =>
    match chooseTransactions b BftConsensus fuel task statedb pool size with
    | none => none
    | some s => some (Except.ok s)

/-! ## Specification-side definitions for the selection -/

/-- What the spec says of the transactions a selection has recorded, for a task with the given
header and coinbase: `txs` and `receipts` have the same length, which is also the next
`txIndex`, and for every position `i ≥ 1` the transaction there was handed to
`ApplyTransaction` with index `i` and the receipt there is one that call returns. -/
def Recorded {P S : Type} (b : TxBackend P S) (header : BlockHeader) (coinbase : Address)
    (s : Selection P S) : Prop :=
  s.task.header = header ∧ s.task.coinbase = coinbase ∧
  s.task.txs.length = s.task.receipts.length ∧ s.txIndex = s.task.txs.length ∧
  ∀ i tx receipt, 1 ≤ i → s.task.txs[i]? = some tx → s.task.receipts[i]? = some receipt →
    PoolCall.ApplyTransaction tx i ∈ s.calls ∧
    ∃ statedb statedb', b.ApplyTransaction tx i coinbase statedb header
      = (Except.ok receipt, statedb')

/-- The transactions in front of the first one whose stem payload does not decode. -/
def decodablePrefix (c : Collaborators) (txs : List Transaction) : List Transaction :=
  txs.takeWhile (fun tx => (hashForStem c tx).isSome)

/-! ## Sample selections and assemblies -/

/-- A reward backend that pays 10 outside the BFT path with the transaction `rewardTx`. -/
def sampleRewardBackend : RewardBackend Nat :=
  { GetReward := fun _ => 10,
    NewRewardTx := fun _ _ _ => Except.ok rewardTx,
    ApplyRewardTx := fun tx statedb => (Except.ok { TxHash := tx.Hash, Result := [1] }, statedb) }

/-- The header of the sample BFT tasks: `sampleHeader` with the consensus tag 2. -/
def sampleBftHeader : BlockHeader := { sampleHeader with Consensus := 2 }

/-- A task at height 7 whose selection met a challenge of a negative amount. -/
def negativeChallengeTask : Task :=
  { sampleTask txsAB 0 with challengedTxs := [sampleTx 1 2 (-5) (stemPayload 7)] }

/-- A block body whose second transfer carries a stem payload that does not decode. -/
def txsABbad : List Transaction :=
  [rewardTx, sampleTx 1 2 5 (stemPayload 7), sampleTx 3 4 5 [0xAA]]

/-- A header with 32 bytes of extra data and a second witness of five bytes. -/
def shortWitnessHeader : BlockHeader :=
  { Creator := sampleAddress 9, Height := 7, ExtraData := List.replicate 32 0,
    SecondWitness := [1, 2, 3, 4, 5] }

/-- The selection of the sample pool for a fresh BFT task with coinbase address 8. -/
def sampleSelection : Selection (List (List Transaction)) Nat :=
  match applyTransactionsAndDebts.select sampleRewardBackend sampleTxBackend 2 1
      (NewTask sampleBftHeader (sampleAddress 8)) 0 samplePool 100 with
  | some (Except.ok s) => s
  | _ => { task := NewTask sampleBftHeader (sampleAddress 8), statedb := 0, pool := [],
           txIndex := 1, calls := [] }

/-- The assembly of `txsAB` at height 7 with a relay interval of 7 over a chain store without
blocks: the stems succeed and the recent-transaction stem fails on the first block of the
window. -/
def relayFailAssembly : Option (Except Error Unit × Task × IndexStore) :=
  applyTransactionsAndDebts.bft sampleCollaborators 32 7 noBlocks id 8 sampleStatedb
    (parentBlock 0) (sampleTask txsAB 0) emptyStore

/-! ## Block assembly over index stores whose calls can fail

`Has`, `Put` and `Get` of `database.Database` return an `error` next to their result, and
`getStemHashes` returns it to its caller. `indexAccount`, `stemTxLoop`, `stemStateLoop` and
`getStemHashes` above are the runs in which no call on the two index stores fails; the
definitions below take the outcome of every such call from outside, the calls numbered in the
order the run makes them. -/

/-- Outcome of one call on a key-value store: the call does its work and returns no error, or
it returns the error `e`; a `Put` that returns an error may have written its entry
(`written`) or not. -/
inductive Outcome where
  | done
  | failed (e : Error) (written : Bool)
deriving DecidableEq

/-- The body of the `for i := 0; i < 2; i++` loop for one account (lines 164-179) with the
three error returns: of `Has`, of the `Put` on the address-to-index store and of the `Put` on
the index-to-address store. `calls` is the number of store calls made before; the result is
the error if any, the account count (incremented before the first `Put`), the number of calls
made and the store as the body leaves it. -/
def indexAccount.withFaults (outcome : Nat → Outcome) (account : Address)
    (accountCount calls : Nat) (store : IndexStore) :
    Except Error Unit × Nat × Nat × IndexStore :=
  match outcome calls with
  | Outcome.failed e _ => (Except.error e, accountCount, calls + 1, store)
  | Outcome.done =>
    if store.accountIndexDB.Has account.val then (Except.ok (), accountCount, calls + 1, store)
    else
      let accountCount := (accountCount + 1) % 2 ^ 64
      let index := (accountCount + 2 ^ 64 - 1) % 2 ^ 64
      let indexBytes := encodeUint index
      let forward : IndexStore :=
        { accountIndexDB := store.accountIndexDB.Put account.val indexBytes,
          indexAccountDB := store.indexAccountDB }
      match outcome (calls + 1) with
      | Outcome.failed e written =>
        (Except.error e, accountCount, calls + 2, if written then forward else store)
      | Outcome.done =>
        let both : IndexStore :=
          { accountIndexDB := forward.accountIndexDB,
            indexAccountDB := forward.indexAccountDB.Put indexBytes account.val }
        match outcome (calls + 2) with
        | Outcome.failed e written =>
          (Except.error e, accountCount, calls + 3, if written then both else forward)
        | Outcome.done => (Except.ok (), accountCount, calls + 3, both)

/-- The first loop of `getStemHashes` over stores whose calls can fail: as `stemTxLoop`, and an
error of `indexAccount.withFaults` ends the loop with that error. -/
def stemTxLoop.withFaults (c : Collaborators) (outcome : Nat → Outcome) :
    Nat → List Transaction → List Hash → Nat → Nat → IndexStore →
      Except Error (List Hash) × Nat × Nat × IndexStore
  | _, [], level, accountCount, calls, store => (Except.ok level, accountCount, calls, store)
  | txIndex, tx :: txs, level, accountCount, calls, store =>
    if txIndex = 0 then
      stemTxLoop.withFaults c outcome (txIndex + 1) txs level accountCount calls store
    else
      match c.ExtractTxPayload tx.Data.Payload with
      | Except.error e => (Except.error e, accountCount, calls, store)
      | Except.ok txPayload =>
        let level := level ++ [txPayload.HashForStem]
        match indexAccount.withFaults outcome tx.Data.From accountCount calls store with
        | (Except.error e, accountCount, calls, store) =>
          (Except.error e, accountCount, calls, store)
        | (Except.ok (), accountCount, calls, store) =>
          match indexAccount.withFaults outcome tx.Data.To accountCount calls store with
          | (Except.error e, accountCount, calls, store) =>
            (Except.error e, accountCount, calls, store)
          | (Except.ok (), accountCount, calls, store) =>
            stemTxLoop.withFaults c outcome (txIndex + 1) txs level accountCount calls store

/-- The second loop of `getStemHashes` over a store whose `Get` can fail for another reason
than a missing key; `calls` is the number of store calls made before the iteration. -/
def stemStateLoop.withFaults (c : Collaborators) (outcome : Nat → Outcome) (statedb : Statedb)
    (indexAccountDB : Database) : Nat → Nat → Nat → List Hash → Except Error (List Hash)
  | 0, _, _, level => Except.ok level
  | n + 1, i, calls, level =>
    match outcome calls with
    | Outcome.failed e _ => Except.error e
    | Outcome.done =>
      match indexAccountDB.Get (encodeUint i) with
      | Except.error e => Except.error e
      | Except.ok accountBytes =>
        let account := BytesToAddress accountBytes
        let nonce := statedb.GetNonce account
        let balance := statedb.GetBalance account
        let stateBytes := encodeState account balance nonce
        stemStateLoop.withFaults c outcome statedb indexAccountDB n (i + 1) (calls + 1)
          (level ++ [c.MustHash stateBytes])

/-- Embeds `Task.getStemHashes` over stores whose calls can fail; the store calls of block
assembly start here, with call 0. -/
def getStemHashes.withFaults (c : Collaborators) (outcome : Nat → Outcome) (statedb : Statedb)
    (task : Task) (store : IndexStore) : Except Error (Hash × Hash) × Task × IndexStore :=
  match stemTxLoop.withFaults c outcome 0 task.txs [] task.accountCount 0 store with
  | (Except.error e, accountCount, _, store) =>
    (Except.error e, { task with accountCount := accountCount }, store)
  | (Except.ok level, accountCount, calls, store) =>
    let task := { task with accountCount := accountCount }
    let txHashStem := c.GetBinaryMerkleRoot level
    match stemStateLoop.withFaults c outcome statedb store.indexAccountDB task.accountCount 0
        calls [] with
    | Except.error e => (Except.error e, task, store)
    | Except.ok level => (Except.ok (txHashStem, c.GetBinaryMerkleRoot level), task, store)

/-- Embeds the BFT branch of `Task.applyTransactionsAndDebts` (lines 86-132) over index stores
whose calls can fail: as `applyTransactionsAndDebts.bft`, with `getStemHashes.withFaults` for
the stems. No other step of the branch calls the index stores. -/
def applyTransactionsAndDebts.bft.withFaults (c : Collaborators)
    (BftExtraVanity RelayInterval : Nat) (GetBlockByHeight : Nat → Except Error Block)
    (rangeOrder : List (Address × Nat) → List (Address × Nat)) (fuel : Nat)
    (outcome : Nat → Outcome) (statedb : Statedb) (parent : Block) (task : Task)
    (store : IndexStore) : Option (Except Error Unit × Task × IndexStore) :=
  match ExtractSecondWitnessInfo BftExtraVanity parent.Header with
  | Except.error e => some (Except.error e, task, store)
  | Except.ok swExtra =>
    let task := { task with accountCount := swExtra.AccountCount }
    match getStemHashes.withFaults c outcome statedb task store with
    | (Except.error e, task, store) => some (Except.error e, task, store)
    | (Except.ok (txHashStem, stateHashStem), task, store) =>
      match getRecentTxHashStem c RelayInterval GetBlockByHeight rangeOrder fuel task with
      | none => none
      | some (Except.error e) => some (Except.error e, task, store)
      | some (Except.ok recentTxHashStem) =>
        let blockInfoBytes :=
          encodeBlockInfo task.header.Creator task.header.Height txHashStem stateHashStem
        let blockInfoHash := c.MustHash blockInfoBytes
        let blockSig := c.MustSign blockInfoHash.val
        let extraSecondWitnessInfo :=
          match PrepareSecondWitness BftExtraVanity task.challengedTxs task.depositVers
              task.exitVers task.accountCount txHashStem stateHashStem recentTxHashStem
              blockSig with
          | Except.error _ => []
          | Except.ok b => b
        some (Except.ok (),
          { task with header := { task.header with SecondWitness := extraSecondWitnessInfo } },
          store)

/-- The store after the address-to-index entry of `account` alone was written for the index
an account count of `accountCount` gives it. -/
def forwardOnly (account : Address) (accountCount : Nat) (store : IndexStore) : IndexStore :=
  { accountIndexDB := store.accountIndexDB.Put account.val (encodeUint (accountCount % 2 ^ 64)),
    indexAccountDB := store.indexAccountDB }

/-- Store calls of which the third, the `Put` on the index-to-address store for the first new
address, fails without writing. -/
def failThirdCall : Nat → Outcome :=
  fun n => if n = 2 then Outcome.failed Error.dbFailure false else Outcome.done

/-- The assembly of `txsAB` over the empty store with the store calls of `failThirdCall`. -/
def putFailAssembly : Option (Except Error Unit × Task × IndexStore) :=
  applyTransactionsAndDebts.bft.withFaults sampleCollaborators 32 100 noBlocks id 0
    failThirdCall sampleStatedb (parentBlock 0) (sampleTask txsAB 0) emptyStore

/-- The task as `putFailAssembly` leaves it. -/
def putFailTask : Task :=
  match putFailAssembly with
  | some (_, task, _) => task
  | none => sampleTask txsAB 0

/-- What a run of the account loop that started from `store` with the count `accountCount` can
have left in the store: the allocations of the first addresses of `accounts`, or those and the
address-to-index entry alone of the next address, which was not indexed. -/
def PartlyAllocated (accounts : List Address) (accountCount : Nat) (store store' : IndexStore) :
    Prop :=
  ∃ done rest, accounts = done ++ rest ∧
    (store' = (indexAccounts done accountCount store).2 ∨
      ∃ a rest', rest = a :: rest' ∧
        (indexAccounts done accountCount store).2.accountIndexDB.Has a.val = false ∧
        store' = forwardOnly a (indexAccounts done accountCount store).1
          (indexAccounts done accountCount store).2)

/-! # Theorems -/

set_option maxRecDepth 100000

/-! ## Round trip of the RLP primitives -/

theorem byteOf_val (n : Nat) : (byteOf n).val = n % 256 := rfl

theorem toBEAux_zero (fuel : Nat) : toBEAux fuel 0 = [] := by
  cases fuel <;> simp [toBEAux]

theorem fromBE_append_single (l : Bytes) (b : Byte) :
    fromBE (l ++ [b]) = fromBE l * 256 + b.val := by
  simp [fromBE, List.foldl_append]

theorem fromBE_toBEAux : ∀ (fuel n : Nat), n ≤ fuel → fromBE (toBEAux fuel n) = n
  | 0, n, h => by
    have : n = 0 := by omega
    subst this; rfl
  | fuel + 1, n, h => by
    unfold toBEAux
    split
    · next h0 => subst h0; rfl
    · next h0 =>
      rw [fromBE_append_single, fromBE_toBEAux fuel (n / 256) (by omega), byteOf_val]
      omega

theorem fromBE_toBE (n : Nat) : fromBE (toBE n) = n := fromBE_toBEAux n n (Nat.le_refl n)

theorem toBEAux_head : ∀ (fuel n : Nat), n ≤ fuel → n ≠ 0 →
    ∃ b bs, toBEAux fuel n = b :: bs ∧ b.val ≠ 0
  | 0, n, h, h0 => by omega
  | fuel + 1, n, h, h0 => by
    unfold toBEAux
    rw [if_neg h0]
    by_cases hq : n / 256 = 0
    · rw [hq, toBEAux_zero]
      refine ⟨byteOf (n % 256), [], rfl, ?_⟩
      rw [byteOf_val]; omega
    · obtain ⟨b, bs, hb, hne⟩ := toBEAux_head fuel (n / 256) (by omega) hq
      exact ⟨b, bs ++ [byteOf (n % 256)], by rw [hb]; rfl, hne⟩

theorem toBE_head (n : Nat) (h0 : n ≠ 0) : ∃ b bs, toBE n = b :: bs ∧ b.val ≠ 0 :=
  toBEAux_head n n (Nat.le_refl n) h0

theorem toBEAux_length : ∀ (fuel n k : Nat), n < 256 ^ k → (toBEAux fuel n).length ≤ k
  | 0, n, k, h => by simp [toBEAux]
  | fuel + 1, n, k, h => by
    unfold toBEAux
    split
    · simp
    · next h0 =>
      cases k with
      | zero => simp at h; omega
      | succ k =>
        have hq : n / 256 < 256 ^ k := by
          rw [Nat.div_lt_iff_lt_mul (by decide)]
          rw [pow_succ] at h; exact h
        have := toBEAux_length fuel (n / 256) k hq
        simp; omega

theorem toBE_length (n k : Nat) (h : n < 256 ^ k) : (toBE n).length ≤ k :=
  toBEAux_length n n k h

theorem toBE_zero : toBE 0 = [] := rfl

theorem readSize_toBE (size : Nat) (rest : Bytes) (h56 : 56 ≤ size) :
    readSize (toBE size ++ rest) (toBE size).length = some (size, rest) := by
  obtain ⟨b, bs, hb, hne⟩ := toBE_head size (by omega)
  have hv := fromBE_toBE size
  unfold readSize
  rw [if_neg (by simp), List.take_left', List.drop_left']
  · rw [hb] at hv ⊢
    simp only [hne, if_false, hv]
    rw [if_neg (by omega)]
  · rfl
  · rfl

theorem readKind_encodeHeader_string (size : Nat) (rest : Bytes) (h : size < 2 ^ 64) :
    readKind (encodeHeader 0x80 size ++ rest) = some (Head.string size, rest) := by
  unfold encodeHeader
  split
  · next hs =>
    have h1 : (byteOf (0x80 + size)).val = 0x80 + size := by rw [byteOf_val]; omega
    simp only [List.singleton_append, readKind, h1]
    rw [if_neg (by omega), if_pos (by omega)]
    simp
  · next hs =>
    have hl := toBE_length size 8 (by norm_num; omega)
    obtain ⟨b, bs, hb, hne⟩ := toBE_head size (by omega)
    have hl1 : 1 ≤ (toBE size).length := by rw [hb]; simp
    have h1 : (byteOf (0x80 + 55 + (toBE size).length)).val = 0xB7 + (toBE size).length := by
      rw [byteOf_val]; omega
    simp only [List.cons_append, readKind, h1]
    rw [if_neg (by omega), if_neg (by omega), if_pos (by omega)]
    have : 0xB7 + (toBE size).length - 0xB7 = (toBE size).length := by omega
    rw [this, readSize_toBE size rest (by omega)]

theorem readKind_encodeHeader_list (size : Nat) (rest : Bytes) (h : size < 2 ^ 64) :
    readKind (encodeHeader 0xC0 size ++ rest) = some (Head.list size, rest) := by
  unfold encodeHeader
  split
  · next hs =>
    have h1 : (byteOf (0xC0 + size)).val = 0xC0 + size := by rw [byteOf_val]; omega
    simp only [List.singleton_append, readKind, h1]
    rw [if_neg (by omega), if_neg (by omega), if_neg (by omega), if_pos (by omega)]
    simp
  · next hs =>
    have hl := toBE_length size 8 (by norm_num; omega)
    obtain ⟨b, bs, hb, hne⟩ := toBE_head size (by omega)
    have hl1 : 1 ≤ (toBE size).length := by rw [hb]; simp
    have h1 : (byteOf (0xC0 + 55 + (toBE size).length)).val = 0xF7 + (toBE size).length := by
      rw [byteOf_val]; omega
    simp only [List.cons_append, readKind, h1]
    rw [if_neg (by omega), if_neg (by omega), if_neg (by omega), if_neg (by omega)]
    have : 0xF7 + (toBE size).length - 0xF7 = (toBE size).length := by omega
    rw [this, readSize_toBE size rest (by omega)]

theorem decodeList_encodeList (p rest : Bytes) (h : p.length < 2 ^ 64) :
    decodeList (encodeList p ++ rest) = some (p, rest) := by
  unfold decodeList encodeList
  rw [List.append_assoc, readKind_encodeHeader_list _ _ h]
  simp

theorem decodeString_encodeString (s rest : Bytes) (h : s.length < 2 ^ 64) :
    decodeString (encodeString s ++ rest) = some (s, rest) := by
  unfold encodeString
  split
  · next x =>
    split
    · next hx =>
      simp [decodeString, readKind, hx]
    · next hx =>
      unfold decodeString
      rw [List.append_assoc, readKind_encodeHeader_string _ _ (by norm_num)]
      simp [hx]
  · next hs =>
    unfold decodeString
    rw [List.append_assoc, readKind_encodeHeader_string _ _ h]
    simp only [List.length_append, List.take_left', List.drop_left']
    rw [if_neg (by omega)]

theorem decodeUint64_encodeUint (n : Nat) (rest : Bytes) (h : n < 2 ^ 64) :
    decodeUint64 (encodeUint n ++ rest) = some (n, rest) := by
  have hl := toBE_length n 8 (by norm_num; omega)
  unfold decodeUint64 encodeUint
  rw [decodeString_encodeString _ _ (by omega)]
  simp only
  rw [if_neg (by omega)]
  by_cases h0 : n = 0
  · subst h0; rfl
  · obtain ⟨b, bs, hb, hne⟩ := toBE_head n h0
    have hv := fromBE_toBE n
    rw [hb] at hv ⊢
    have : ¬ (b = 0) := fun hb0 => hne (by rw [hb0]; rfl)
    simp [this, hv]

theorem decodeBigInt_encodeUint (n : Nat) (rest : Bytes) (h : (toBE n).length < 2 ^ 64) :
    decodeBigInt (encodeUint n ++ rest) = some (n, rest) := by
  unfold decodeBigInt encodeUint
  rw [decodeString_encodeString _ _ h]
  simp only
  by_cases h0 : n = 0
  · subst h0; rfl
  · obtain ⟨b, bs, hb, hne⟩ := toBE_head n h0
    have hv := fromBE_toBE n
    rw [hb] at hv ⊢
    have : ¬ (b = 0) := fun hb0 => hne (by rw [hb0]; rfl)
    simp [this, hv]

/-! ## Sizes of encodings -/

theorem encodeHeader_length_pos (offset size : Nat) : 1 ≤ (encodeHeader offset size).length := by
  unfold encodeHeader; split <;> simp

theorem encodeString_length_ge (s : Bytes) : s.length ≤ (encodeString s).length := by
  unfold encodeString
  split
  · split <;> simp
  · simp

theorem encodeString_length_pos (s : Bytes) : 1 ≤ (encodeString s).length := by
  unfold encodeString
  split
  · split <;> simp
  · have := encodeHeader_length_pos 0x80 s.length
    simp; omega

theorem encodeList_length_gt (p : Bytes) : p.length < (encodeList p).length := by
  have := encodeHeader_length_pos 0xC0 p.length
  unfold encodeList; simp; omega

theorem ne_nil_of_length_pos {b : Bytes} (h : 1 ≤ b.length) : b ≠ [] := by
  intro hb; subst hb; simp at h

/-! ## Round trip of the typed codecs -/

theorem decodeAddress_encodeAddress (a : Address) (rest : Bytes) :
    decodeAddress (encodeAddress a ++ rest) = some (a, rest) := by
  unfold decodeAddress encodeAddress
  rw [decodeString_encodeString _ _ (by rw [a.property]; norm_num)]
  simp [a.property]

theorem decodeHash_encodeHash (a : Hash) (rest : Bytes) :
    decodeHash (encodeHash a ++ rest) = some (a, rest) := by
  unfold decodeHash encodeHash
  rw [decodeString_encodeString _ _ (by rw [a.property]; norm_num)]
  simp [a.property]

theorem decodeElems_encodeElemsE {α : Type} (enc : α → Except Error Bytes)
    (dec : Bytes → Option (α × Bytes)) :
    ∀ (xs : List α) (bs : Bytes) (fuel : Nat),
      (∀ x ∈ xs, ∀ b, enc x = Except.ok b → b.length < 2 ^ 64 →
        b ≠ [] ∧ ∀ rest, dec (b ++ rest) = some (x, rest)) →
      encodeElemsE enc xs = Except.ok bs → bs.length < 2 ^ 64 → bs.length ≤ fuel →
      decodeElems dec fuel bs = some xs
  | [], bs, fuel, _, henc, _, _ => by
    simp only [encodeElemsE, Except.ok.injEq] at henc
    subst henc
    cases fuel <;> rfl
  | x :: xs, bs, fuel, hinv, henc, hlen, hfuel => by
    unfold encodeElemsE at henc
    split at henc
    · exact absurd henc (by simp)
    · next b hb =>
      split at henc
      · exact absurd henc (by simp)
      · next bs' hbs' =>
        simp only [Except.ok.injEq] at henc
        subst henc
        simp only [List.length_append] at hlen hfuel
        obtain ⟨hne, hdec⟩ := hinv x (List.mem_cons_self x xs) b hb (by omega)
        have ih := decodeElems_encodeElemsE enc dec xs bs'
        cases b with
        | nil => exact absurd rfl hne
        | cons c cs =>
          cases fuel with
          | zero => simp at hfuel
          | succ fuel =>
            have h1 := hdec bs'
            simp only [List.cons_append] at h1 ⊢
            simp only [decodeElems, h1]
            rw [ih fuel (fun y hy => hinv y (List.mem_cons_of_mem x hy)) hbs' (by omega)
              (by simp at hfuel; omega)]

theorem decodeSlice_encodeSlice {α : Type} (enc : α → Except Error Bytes)
    (dec : Bytes → Option (α × Bytes)) (xs : List α) (b rest : Bytes)
    (hinv : ∀ x ∈ xs, ∀ b, enc x = Except.ok b → b.length < 2 ^ 64 →
        b ≠ [] ∧ ∀ rest, dec (b ++ rest) = some (x, rest))
    (henc : encodeSlice enc xs = Except.ok b) (hlen : b.length < 2 ^ 64) :
    decodeSlice dec (b ++ rest) = some (xs, rest) := by
  unfold encodeSlice at henc
  split at henc
  · exact absurd henc (by simp)
  · next payload hp =>
    simp only [Except.ok.injEq] at henc
    subst henc
    have hl := encodeList_length_gt payload
    unfold decodeSlice
    rw [decodeList_encodeList _ _ (by omega)]
    simp only
    rw [decodeElems_encodeElemsE enc dec xs payload payload.length hinv hp (by omega)
      (Nat.le_refl _)]

theorem encodeBigInt_ok {i : Int} {b : Bytes} (h : encodeBigInt i = Except.ok b) :
    0 ≤ i ∧ b = encodeUint i.toNat := by
  unfold encodeBigInt at h
  split at h
  · exact absurd h (by simp)
  · next hi =>
    simp only [Except.ok.injEq] at h
    exact ⟨by omega, h.symm⟩

theorem decodeBigInt_encodeUint_of_length (n : Nat) (rest : Bytes)
    (h : (encodeUint n).length < 2 ^ 64) :
    decodeBigInt (encodeUint n ++ rest) = some (n, rest) := by
  apply decodeBigInt_encodeUint
  have := encodeString_length_ge (toBE n)
  unfold encodeUint at h
  omega

theorem decodeString_encodeString_of_length (s rest : Bytes)
    (h : (encodeString s).length < 2 ^ 64) :
    decodeString (encodeString s ++ rest) = some (s, rest) := by
  apply decodeString_encodeString
  have := encodeString_length_ge s
  omega

theorem decodeTransactionData_encode (d : TransactionData) (b rest : Bytes)
    (henc : encodeTransactionData d = Except.ok b)
    (hn : d.AccountNonce < 2 ^ 64) (hg : d.GasLimit < 2 ^ 64) (hlen : b.length < 2 ^ 64) :
    decodeTransactionData (b ++ rest) = some (d, rest) := by
  unfold encodeTransactionData at henc
  split at henc
  · exact absurd henc (by simp)
  · next amount ha =>
    split at henc
    · exact absurd henc (by simp)
    · next gasPrice hgp =>
      simp only [Except.ok.injEq] at henc
      subst henc
      obtain ⟨ha0, rfl⟩ := encodeBigInt_ok ha
      obtain ⟨hg0, rfl⟩ := encodeBigInt_ok hgp
      have hl := encodeList_length_gt (encodeAddress d.From ++ encodeAddress d.To ++
        encodeUint d.Amount.toNat ++ encodeUint d.AccountNonce ++ encodeUint d.GasPrice.toNat ++
        encodeUint d.GasLimit ++ encodeString d.Payload)
      simp only [List.length_append] at hl
      unfold decodeTransactionData
      rw [decodeList_encodeList _ _ (by simp only [List.length_append]; omega)]
      simp only [List.append_assoc, Option.bind_eq_bind, Option.some_bind,
        decodeAddress_encodeAddress]
      rw [decodeBigInt_encodeUint_of_length _ _ (by omega)]
      simp only [Option.some_bind]
      rw [decodeUint64_encodeUint _ _ hn]
      simp only [Option.some_bind]
      rw [decodeBigInt_encodeUint_of_length _ _ (by omega)]
      simp only [Option.some_bind]
      rw [decodeUint64_encodeUint _ _ hg]
      simp only [Option.some_bind]
      have hp := decodeString_encodeString_of_length d.Payload [] (by omega)
      rw [List.append_nil] at hp
      rw [hp]
      simp only [Option.some_bind, if_true, Int.ofNat_eq_coe, Int.toNat_of_nonneg ha0,
        Int.toNat_of_nonneg hg0]

theorem decodeTransaction_encode (t : Transaction) (b rest : Bytes)
    (henc : encodeTransaction t = Except.ok b)
    (hn : t.Data.AccountNonce < 2 ^ 64) (hg : t.Data.GasLimit < 2 ^ 64)
    (hlen : b.length < 2 ^ 64) :
    decodeTransaction (b ++ rest) = some (t, rest) := by
  unfold encodeTransaction at henc
  split at henc
  · exact absurd henc (by simp)
  · next d hd =>
    simp only [Except.ok.injEq] at henc
    subst henc
    have hl := encodeList_length_gt (encodeHash t.Hash ++ d)
    simp only [List.length_append] at hl
    unfold decodeTransaction
    rw [decodeList_encodeList _ _ (by simp only [List.length_append]; omega)]
    simp only [List.append_assoc, Option.bind_eq_bind, Option.some_bind, decodeHash_encodeHash]
    have hp := decodeTransactionData_encode t.Data d [] hd hn hg (by omega)
    rw [List.append_nil] at hp
    rw [hp]
    simp

theorem encodeTransaction_ne_nil {t : Transaction} {b : Bytes}
    (h : encodeTransaction t = Except.ok b) : b ≠ [] := by
  unfold encodeTransaction at h
  split at h
  · exact absurd h (by simp)
  · next d hd =>
    simp only [Except.ok.injEq] at h
    subst h
    exact ne_nil_of_length_pos (by have := encodeList_length_gt (encodeHash t.Hash ++ d); omega)

theorem decodeSignature_encodeSignature (s : Signature) (rest : Bytes)
    (hlen : (encodeSignature s).length < 2 ^ 64) :
    decodeSignature (encodeSignature s ++ rest) = some (s, rest) := by
  unfold encodeSignature at hlen ⊢
  have hl := encodeList_length_gt (encodeString s.Sig)
  unfold decodeSignature
  rw [decodeList_encodeList _ _ (by omega)]
  have hp := decodeString_encodeString_of_length s.Sig [] (by omega)
  rw [List.append_nil] at hp
  simp [hp]

theorem decodeAddressSlice_encode (xs : List Address) (b rest : Bytes)
    (henc : encodeSlice (fun a => Except.ok (encodeAddress a)) xs = Except.ok b)
    (hlen : b.length < 2 ^ 64) :
    decodeSlice decodeAddress (b ++ rest) = some (xs, rest) := by
  refine decodeSlice_encodeSlice _ decodeAddress xs b rest ?_ henc hlen
  intro x _ b hb _
  simp only [Except.ok.injEq] at hb
  subst hb
  exact ⟨ne_nil_of_length_pos (encodeString_length_pos _), decodeAddress_encodeAddress x⟩

theorem decodeTransactionSlice_encode (xs : List Transaction) (b rest : Bytes)
    (hwf : ∀ t ∈ xs, t.Data.AccountNonce < 2 ^ 64 ∧ t.Data.GasLimit < 2 ^ 64)
    (henc : encodeSlice encodeTransaction xs = Except.ok b)
    (hlen : b.length < 2 ^ 64) :
    decodeSlice decodeTransaction (b ++ rest) = some (xs, rest) := by
  refine decodeSlice_encodeSlice _ decodeTransaction xs b rest ?_ henc hlen
  intro t ht b hb hbl
  exact ⟨encodeTransaction_ne_nil hb,
    fun rest => decodeTransaction_encode t b rest hb (hwf t ht).1 (hwf t ht).2 hbl⟩

theorem decodeSecondWitnessInfo_encode (s : SecondWitnessInfo) (b rest : Bytes)
    (hwf : ∀ t ∈ s.ChallengedTxs, t.Data.AccountNonce < 2 ^ 64 ∧ t.Data.GasLimit < 2 ^ 64)
    (hc : s.AccountCount < 2 ^ 64)
    (henc : encodeSecondWitnessInfo s = Except.ok b) (hlen : b.length < 2 ^ 64) :
    decodeSecondWitnessInfo (b ++ rest) = some (s, rest) := by
  unfold encodeSecondWitnessInfo at henc
  split at henc
  · exact absurd henc (by simp)
  · next chTxs hch =>
    split at henc
    · exact absurd henc (by simp)
    · next dep hdep =>
      split at henc
      · exact absurd henc (by simp)
      · next ex hex =>
        simp only [Except.ok.injEq] at henc
        subst henc
        have hl := encodeList_length_gt (chTxs ++ dep ++ ex ++ encodeUint s.AccountCount ++
          encodeHash s.TxHashStem ++ encodeHash s.StateHashStem ++
          encodeHash s.RecentTxHashStem ++ encodeSignature s.BlockSig)
        simp only [List.length_append] at hl
        unfold decodeSecondWitnessInfo
        rw [decodeList_encodeList _ _ (by simp only [List.length_append]; omega)]
        simp only [List.append_assoc, Option.bind_eq_bind, Option.some_bind]
        rw [decodeTransactionSlice_encode _ _ _ hwf hch (by omega)]
        simp only [Option.some_bind]
        rw [decodeAddressSlice_encode _ _ _ hdep (by omega)]
        simp only [Option.some_bind]
        rw [decodeAddressSlice_encode _ _ _ hex (by omega)]
        simp only [Option.some_bind]
        rw [decodeUint64_encodeUint _ _ hc]
        simp only [Option.some_bind, decodeHash_encodeHash]
        have hp := decodeSignature_encodeSignature s.BlockSig [] (by omega)
        rw [List.append_nil] at hp
        rw [hp]
        simp

/-- **C1.** Round trip of the second-witness codec: when `PrepareSecondWitness` succeeds on the
eight fields of a well-formed value `v` (its 64-bit counters in range, its encoding shorter than
`2 ^ 64` bytes) and a header with at least `BftExtraVanity` bytes of extra data carries that
output as its second witness, `ExtractSecondWitnessInfo` succeeds and returns `v`. -/
theorem extract_prepare_roundtrip (BftExtraVanity : Nat) (v : SecondWitnessInfo)
    (h : BlockHeader) (sw : Bytes)
    (hwf : ∀ t ∈ v.ChallengedTxs, t.Data.AccountNonce < 2 ^ 64 ∧ t.Data.GasLimit < 2 ^ 64)
    (hc : v.AccountCount < 2 ^ 64)
    (hprep : PrepareSecondWitness BftExtraVanity v.ChallengedTxs v.DepositVers v.ExitVers
      v.AccountCount v.TxHashStem v.StateHashStem v.RecentTxHashStem v.BlockSig = Except.ok sw)
    (hsize : sw.length < 2 ^ 64)
    (hsw : h.SecondWitness = sw) (hextra : BftExtraVanity ≤ h.ExtraData.length) :
    ExtractSecondWitnessInfo BftExtraVanity h = Except.ok v := by
  unfold PrepareSecondWitness at hprep
  simp only [List.nil_append] at hprep
  split at hprep
  · exact absurd hprep (by simp)
  · next payload hp =>
    simp only [Except.ok.injEq] at hprep
    subst hprep
    have htake : List.take BftExtraVanity (List.replicate BftExtraVanity (0 : Byte))
        = List.replicate BftExtraVanity (0 : Byte) := by
      rw [List.take_of_length_le]; simp
    rw [htake] at hsize hsw
    simp only [List.length_append, List.length_replicate] at hsize
    unfold ExtractSecondWitnessInfo
    rw [if_neg (by omega), hsw, if_neg (by simp), List.drop_left' (by simp)]
    have hd := decodeSecondWitnessInfo_encode v payload [] hwf hc hp (by omega)
    rw [List.append_nil] at hd
    rw [hd]

theorem extract_prepare_roundtrip_witness :
    sampleWitnessBytes.length = 252 ∧
    ExtractSecondWitnessInfo 32 sampleHeader = Except.ok sampleWitnessInfo :=
  ⟨by decide, extract_prepare_roundtrip 32 sampleWitnessInfo sampleHeader sampleWitnessBytes
    (by decide) (by decide) rfl (by decide) rfl (by decide)⟩

/-! ## The transaction stem and the state stem -/

theorem stemTxLoop_level (c : Collaborators) :
    ∀ (txs : List Transaction) (k : Nat) (level : List Hash) (count : Nat) (store : IndexStore),
      (∀ tx ∈ txs, ∃ p, c.ExtractTxPayload tx.Data.Payload = Except.ok p) →
      (stemTxLoop c (k + 1) txs level count store).1
        = Except.ok (level ++ txs.filterMap (hashForStem c))
  | [], k, level, count, store, _ => by simp [stemTxLoop]
  | tx :: txs, k, level, count, store, h => by
    obtain ⟨p, hp⟩ := h tx (List.mem_cons_self tx txs)
    have ih := fun l cnt st => stemTxLoop_level c txs (k + 1) l cnt st
      (fun t ht => h t (List.mem_cons_of_mem tx ht))
    have hh : hashForStem c tx = some p.HashForStem := by simp [hashForStem, hp]
    simp only [stemTxLoop, Nat.add_one_ne_zero, if_false, hp, ih,
      List.filterMap_cons, hh, List.append_assoc, List.singleton_append]

theorem stemTxLoop_zero (c : Collaborators) (tx : Transaction) (txs : List Transaction)
    (level : List Hash) (count : Nat) (store : IndexStore) :
    stemTxLoop c 0 (tx :: txs) level count store = stemTxLoop c 1 txs level count store := by
  simp [stemTxLoop]

theorem stemTxLoop_specTxLeaves (c : Collaborators) (txs : List Transaction) (count : Nat)
    (store : IndexStore)
    (hdec : ∀ tx ∈ txs.drop 1, ∃ p, c.ExtractTxPayload tx.Data.Payload = Except.ok p) :
    (stemTxLoop c 0 txs [] count store).1 = Except.ok (specTxLeaves c txs) := by
  cases txs with
  | nil => simp [stemTxLoop, specTxLeaves]
  | cons tx txs =>
    rw [stemTxLoop_zero, stemTxLoop_level c txs 0 [] count store (by simpa using hdec)]
    simp [specTxLeaves]

theorem stemStateLoop_error (c : Collaborators) (statedb : Statedb) (db : Database) :
    ∀ (n i : Nat) (level : List Hash) (e : Error),
      stemStateLoop c statedb db n i level = Except.error e → e = Error.dbNotFound
  | 0, i, level, e, h => by simp [stemStateLoop] at h
  | n + 1, i, level, e, h => by
    unfold stemStateLoop at h
    split at h
    · next e' hg =>
      simp only [Except.error.injEq] at h
      subst h
      unfold Database.Get at hg
      split at hg
      · exact absurd hg (by simp)
      · simp only [Except.error.injEq] at hg
        exact hg.symm
    · exact stemStateLoop_error c statedb db n (i + 1) _ e h

theorem stemStateLoop_ok (c : Collaborators) (statedb : Statedb) (db : Database) :
    ∀ (n i : Nat) (level result : List Hash),
      stemStateLoop c statedb db n i level = Except.ok result →
      ∃ addrs : List Address, addrs.length = n ∧
        (∀ j, j < n → ∃ bytes, db.Get (encodeUint (i + j)) = Except.ok bytes ∧
          addrs[j]? = some (BytesToAddress bytes)) ∧
        result = level ++ addrs.map (specStateLeaf c statedb)
  | 0, i, level, result, h => by
    simp only [stemStateLoop, Except.ok.injEq] at h
    exact ⟨[], rfl, fun j hj => absurd hj (Nat.not_lt_zero j), by simp [h]⟩
  | n + 1, i, level, result, h => by
    unfold stemStateLoop at h
    split at h
    · exact absurd h (by simp)
    · next bytes hg =>
      obtain ⟨addrs, hlen, hget, hres⟩ := stemStateLoop_ok c statedb db n (i + 1) _ result h
      refine ⟨BytesToAddress bytes :: addrs, by simp [hlen], ?_, ?_⟩
      · intro j hj
        cases j with
        | zero => exact ⟨bytes, by simpa using hg, by simp⟩
        | succ j =>
          obtain ⟨b, hb1, hb2⟩ := hget j (by omega)
          refine ⟨b, ?_, by simpa using hb2⟩
          rw [← hb1]; congr 2; omega
      · rw [hres]; simp [specStateLeaf]

/-- **C2.** When every non-reward transaction of the task carries a decodable stem payload, the
leaf list of the first loop is `hash_for_stem` of the transactions `txs[1:]` in order, every
successful run of `getStemHashes` returns the Merkle root of that list as its first hash (the
only possible failure being a missing index in the state loop), and a task with only the reward
transaction hands the empty leaf list to the Merkle root. -/
theorem getStemHashes_txHashStem (c : Collaborators) (statedb : Statedb) (task : Task)
    (store : IndexStore)
    (hdec : ∀ tx ∈ task.txs.drop 1, ∃ p, c.ExtractTxPayload tx.Data.Payload = Except.ok p) :
    (specTxLeaves c task.txs).map some = (task.txs.drop 1).map (hashForStem c) ∧
    (stemTxLoop c 0 task.txs [] task.accountCount store).1
      = Except.ok (specTxLeaves c task.txs) ∧
    (∀ h1 h2, (getStemHashes c statedb task store).1 = Except.ok (h1, h2) →
      h1 = c.GetBinaryMerkleRoot (specTxLeaves c task.txs)) ∧
    (∀ e, (getStemHashes c statedb task store).1 = Except.error e → e = Error.dbNotFound) ∧
    (task.txs.length ≤ 1 → specTxLeaves c task.txs = []) := by
  have hloop := stemTxLoop_specTxLeaves c task.txs task.accountCount store hdec
  refine ⟨?_, hloop, ?_, ?_, ?_⟩
  · unfold specTxLeaves
    generalize task.txs.drop 1 = l at hdec
    induction l with
    | nil => rfl
    | cons tx l ih =>
      obtain ⟨p, hp⟩ := hdec tx (List.mem_cons_self tx l)
      have hh : hashForStem c tx = some p.HashForStem := by simp [hashForStem, hp]
      simp only [List.filterMap_cons, hh, List.map_cons]
      rw [ih (fun t ht => hdec t (List.mem_cons_of_mem tx ht))]
  · intro h1 h2 hrun
    unfold getStemHashes at hrun
    rcases hl : stemTxLoop c 0 task.txs [] task.accountCount store with ⟨res, cnt, st⟩
    rw [hl] at hrun hloop
    simp only at hloop
    subst hloop
    simp only at hrun
    split at hrun
    · exact absurd hrun (by simp)
    · simp only [Except.ok.injEq, Prod.mk.injEq] at hrun
      exact hrun.1.symm
  · intro e hrun
    unfold getStemHashes at hrun
    rcases hl : stemTxLoop c 0 task.txs [] task.accountCount store with ⟨res, cnt, st⟩
    rw [hl] at hrun hloop
    simp only at hloop
    subst hloop
    simp only at hrun
    split at hrun
    · next e' hs =>
      simp only [Except.error.injEq] at hrun
      subst hrun
      exact stemStateLoop_error c statedb _ _ _ _ _ hs
    · exact absurd hrun (by simp)
  · intro hlen
    unfold specTxLeaves
    have : task.txs.drop 1 = [] := by
      apply List.drop_eq_nil_of_le; exact hlen
    rw [this]; rfl

/-- **C3.** On every successful run of `getStemHashes` the second hash is the Merkle root of the
leaves `H(encode(addr_i, balance_i, nonce_i))` for `i = 0 .. accountCount - 1`, where
`accountCount` is the task's count after the run, `addr_i` is the address stored under the
encoded index `i` in the index-to-address store after the run, and balance and nonce are read
from the state passed in. -/
theorem getStemHashes_stateHashStem (c : Collaborators) (statedb : Statedb) (task : Task)
    (store : IndexStore) (h1 h2 : Hash) (task' : Task) (store' : IndexStore)
    (hrun : getStemHashes c statedb task store = (Except.ok (h1, h2), task', store')) :
    ∃ addrs : List Address, addrs.length = task'.accountCount ∧
      (∀ i, i < task'.accountCount → ∃ bytes,
        store'.indexAccountDB.Get (encodeUint i) = Except.ok bytes ∧
        addrs[i]? = some (BytesToAddress bytes)) ∧
      h2 = c.GetBinaryMerkleRoot (addrs.map (specStateLeaf c statedb)) := by
  unfold getStemHashes at hrun
  rcases hl : stemTxLoop c 0 task.txs [] task.accountCount store with ⟨res, cnt, st⟩
  rw [hl] at hrun
  cases res with
  | error e => simp at hrun
  | ok level =>
    simp only at hrun
    split at hrun
    · simp at hrun
    · next level2 hs =>
      simp only [Prod.mk.injEq, Except.ok.injEq] at hrun
      obtain ⟨⟨_, h2eq⟩, htask, hstore⟩ := hrun
      subst htask hstore
      obtain ⟨addrs, hlen, hget, hres⟩ := stemStateLoop_ok c statedb _ _ _ _ _ hs
      refine ⟨addrs, hlen, ?_, ?_⟩
      · intro i hi
        obtain ⟨b, hb1, hb2⟩ := hget i hi
        exact ⟨b, by simpa using hb1, hb2⟩
      · rw [← h2eq, hres]; rfl

/-! ## The key-value stores -/

theorem Database.lookup_Put (db : Database) (k v k' : Bytes) :
    (db.Put k v).lookup k' = if k' = k then some v else db.lookup k' := by
  unfold Database.Put
  by_cases h : k' = k
  · subst h; simp [AList.lookup_insert]
  · simp [h, AList.lookup_insert_ne h]

theorem Database.Has_Put (db : Database) (k v k' : Bytes) :
    (db.Put k v).Has k' = true ↔ (k' = k ∨ db.Has k' = true) := by
  unfold Database.Has
  rw [Database.lookup_Put]
  by_cases h : k' = k <;> simp [h]

theorem Database.size_Put (db : Database) (k v : Bytes) (h : db.Has k = false) :
    (db.Put k v).size = db.size + 1 := by
  have hk : k ∉ db := by
    intro hmem
    have : (db.lookup k).isSome = true := AList.lookup_isSome.mpr hmem
    unfold Database.Has at h
    rw [this] at h
    exact absurd h (by simp)
  unfold Database.size Database.Put
  have hk' : k ∉ db.entries.keys := hk
  simp [AList.keys, AList.insert_entries, List.kerase_of_not_mem_keys hk', List.keys]

theorem encodeUint_injective {a b : Nat} (ha : a < 2 ^ 64) (hb : b < 2 ^ 64)
    (h : encodeUint a = encodeUint b) : a = b := by
  have h1 := decodeUint64_encodeUint a [] ha
  have h2 := decodeUint64_encodeUint b [] hb
  rw [h, h2] at h1
  simp only [Option.some.injEq, Prod.mk.injEq, and_true] at h1
  exact h1.symm

/-! ## The index allocations of `getStemHashes` -/

theorem stemTxLoop_state (c : Collaborators) :
    ∀ (txs : List Transaction) (k : Nat) (level : List Hash) (count : Nat) (store : IndexStore),
      (∀ tx ∈ txs, ∃ p, c.ExtractTxPayload tx.Data.Payload = Except.ok p) →
      (stemTxLoop c (k + 1) txs level count store).2 = indexAccounts (accountsOf txs) count store
  | [], k, level, count, store, _ => by simp [stemTxLoop, accountsOf, indexAccounts]
  | tx :: txs, k, level, count, store, h => by
    obtain ⟨p, hp⟩ := h tx (List.mem_cons_self tx txs)
    have ih := fun l cnt st => stemTxLoop_state c txs (k + 1) l cnt st
      (fun t ht => h t (List.mem_cons_of_mem tx ht))
    simp only [stemTxLoop, Nat.add_one_ne_zero, if_false, hp, ih, accountsOf, indexAccounts]

theorem stemTxLoop_indexAccounts (c : Collaborators) (txs : List Transaction) (count : Nat)
    (store : IndexStore)
    (hdec : ∀ tx ∈ txs.drop 1, ∃ p, c.ExtractTxPayload tx.Data.Payload = Except.ok p) :
    (stemTxLoop c 0 txs [] count store).2 = indexAccounts (txAccounts txs) count store := by
  cases txs with
  | nil => simp [stemTxLoop, txAccounts, accountsOf, indexAccounts]
  | cons tx txs =>
    rw [stemTxLoop_zero, stemTxLoop_state c txs 0 [] count store (by simpa using hdec)]
    simp [txAccounts]

theorem indexAccount_of_has (a : Address) (count : Nat) (store : IndexStore)
    (h : store.accountIndexDB.Has a.val = true) : indexAccount a count store = (count, store) := by
  simp [indexAccount, h]

theorem indexAccount_of_new (a : Address) (count : Nat) (store : IndexStore)
    (h : store.accountIndexDB.Has a.val = false) (hc : count + 1 < 2 ^ 64) :
    indexAccount a count store = (count + 1,
      { accountIndexDB := store.accountIndexDB.Put a.val (encodeUint count),
        indexAccountDB := store.indexAccountDB.Put (encodeUint count) a.val }) := by
  have h1 : (count + 1) % 2 ^ 64 = count + 1 := Nat.mod_eq_of_lt hc
  have h2 : (count + 1 + 2 ^ 64 - 1) % 2 ^ 64 = count := by omega
  unfold indexAccount
  simp only [h, Bool.false_eq_true, if_false, h1, h2]

theorem indexAccounts_eq_allocAll (fwd0 : Database) :
    ∀ (as seen : List Address) (count : Nat) (store : IndexStore),
      (∀ x : Address, store.accountIndexDB.Has x.val = true ↔
        (fwd0.Has x.val = true ∨ x ∈ seen)) →
      count + (firstAppearances seen (as.filter (fun a => !fwd0.Has a.val))).length < 2 ^ 64 →
      indexAccounts as count store
        = (count + (firstAppearances seen (as.filter (fun a => !fwd0.Has a.val))).length,
           allocAll (firstAppearances seen (as.filter (fun a => !fwd0.Has a.val))) count store)
  | [], seen, count, store, _, _ => by simp [indexAccounts, firstAppearances, allocAll]
  | a :: as, seen, count, store, hseen, hlen => by
    by_cases h0 : fwd0.Has a.val = true
    · have hf : (a :: as).filter (fun a => !fwd0.Has a.val)
          = as.filter (fun a => !fwd0.Has a.val) := by simp [List.filter_cons, h0]
      rw [hf] at hlen ⊢
      have hhas : store.accountIndexDB.Has a.val = true := (hseen a).mpr (Or.inl h0)
      simp only [indexAccounts, indexAccount_of_has a count store hhas]
      exact indexAccounts_eq_allocAll fwd0 as seen count store hseen hlen
    · have hf : (a :: as).filter (fun a => !fwd0.Has a.val)
          = a :: as.filter (fun a => !fwd0.Has a.val) := by simp [List.filter_cons, h0]
      rw [hf] at hlen ⊢
      by_cases hs : a ∈ seen
      · have hhas : store.accountIndexDB.Has a.val = true := (hseen a).mpr (Or.inr hs)
        simp only [firstAppearances, hs, if_true] at hlen ⊢
        simp only [indexAccounts, indexAccount_of_has a count store hhas]
        exact indexAccounts_eq_allocAll fwd0 as seen count store hseen hlen
      · have hhas : store.accountIndexDB.Has a.val = false := by
          cases hh : store.accountIndexDB.Has a.val with
          | false => rfl
          | true => exact absurd ((hseen a).mp hh) (by simp [h0, hs])
        simp only [firstAppearances, hs, if_false, List.length_cons] at hlen ⊢
        simp only [indexAccounts, indexAccount_of_new a count store hhas (by omega)]
        rw [indexAccounts_eq_allocAll fwd0 as (a :: seen) (count + 1) _ ?_ (by omega)]
        · simp only [allocAll, Prod.mk.injEq, and_true]; omega
        · intro x
          simp only [Database.Has_Put, List.mem_cons]
          rw [hseen x]
          constructor
          · rintro (h | h | h)
            · exact Or.inr (Or.inl (Subtype.ext h))
            · exact Or.inl h
            · exact Or.inr (Or.inr h)
          · rintro (h | h | h)
            · exact Or.inr (Or.inl h)
            · exact Or.inl (congrArg Subtype.val h)
            · exact Or.inr (Or.inr h)

theorem mem_firstAppearances :
    ∀ (l seen : List Address) (x : Address),
      x ∈ firstAppearances seen l ↔ (x ∈ l ∧ x ∉ seen)
  | [], seen, x => by simp [firstAppearances]
  | a :: as, seen, x => by
    unfold firstAppearances
    by_cases hs : a ∈ seen
    · rw [if_pos hs, mem_firstAppearances as seen x]
      constructor
      · rintro ⟨h1, h2⟩; exact ⟨List.mem_cons_of_mem a h1, h2⟩
      · rintro ⟨h1, h2⟩
        rcases List.mem_cons.mp h1 with h | h
        · subst h; exact absurd hs h2
        · exact ⟨h, h2⟩
    · rw [if_neg hs, List.mem_cons, mem_firstAppearances as (a :: seen) x]
      constructor
      · rintro (h | ⟨h1, h2⟩)
        · subst h; exact ⟨List.mem_cons_self _ _, hs⟩
        · exact ⟨List.mem_cons_of_mem a h1, fun h => h2 (List.mem_cons_of_mem a h)⟩
      · rintro ⟨h1, h2⟩
        by_cases hx : x = a
        · exact Or.inl hx
        · rcases List.mem_cons.mp h1 with h | h
          · exact absurd h hx
          · refine Or.inr ⟨h, ?_⟩
            intro hmem
            rcases List.mem_cons.mp hmem with h' | h'
            · exact hx h'
            · exact h2 h'

theorem nodup_firstAppearances :
    ∀ (l seen : List Address), (firstAppearances seen l).Nodup
  | [], seen => by simp [firstAppearances]
  | a :: as, seen => by
    unfold firstAppearances
    by_cases hs : a ∈ seen
    · rw [if_pos hs]; exact nodup_firstAppearances as seen
    · rw [if_neg hs, List.nodup_cons]
      refine ⟨?_, nodup_firstAppearances as (a :: seen)⟩
      intro h
      exact ((mem_firstAppearances as (a :: seen) a).mp h).2 (List.mem_cons_self _ _)

theorem mem_specNewAddresses (fwd : Database) (txs : List Transaction) (x : Address) :
    x ∈ specNewAddresses fwd txs ↔ (x ∈ txAccounts txs ∧ fwd.Has x.val = false) := by
  unfold specNewAddresses
  rw [mem_firstAppearances]
  simp

theorem nodup_specNewAddresses (fwd : Database) (txs : List Transaction) :
    (specNewAddresses fwd txs).Nodup := nodup_firstAppearances _ _

/-! ## The store after consecutive allocations -/

theorem allocAll_fwd_lookup_other :
    ∀ (news : List Address) (i : Nat) (store : IndexStore) (k : Bytes),
      (∀ a ∈ news, a.val ≠ k) →
      (allocAll news i store).accountIndexDB.lookup k = store.accountIndexDB.lookup k
  | [], i, store, k, _ => rfl
  | a :: as, i, store, k, h => by
    unfold allocAll
    rw [allocAll_fwd_lookup_other as (i + 1) _ k
      (fun b hb => h b (List.mem_cons_of_mem a hb))]
    simp only
    rw [Database.lookup_Put, if_neg (fun hk => h a (List.mem_cons_self a as) hk.symm)]

theorem allocAll_fwd_lookup :
    ∀ (news : List Address) (i : Nat) (store : IndexStore), news.Nodup →
      ∀ (j : Nat) (a : Address), news[j]? = some a →
      (allocAll news i store).accountIndexDB.lookup a.val = some (encodeUint (i + j))
  | [], i, store, _, j, a, h => by simp at h
  | b :: bs, i, store, hnd, j, a, h => by
    rw [List.nodup_cons] at hnd
    unfold allocAll
    cases j with
    | zero =>
      simp only [List.getElem?_cons_zero, Option.some.injEq] at h
      subst h
      rw [allocAll_fwd_lookup_other bs (i + 1) _ b.val
        (fun x hx hxe => hnd.1 (by rw [← Subtype.ext hxe]; exact hx))]
      simp [Database.lookup_Put]
    | succ j =>
      simp only [List.getElem?_cons_succ] at h
      rw [allocAll_fwd_lookup bs (i + 1) _ hnd.2 j a h]
      congr 2; omega

theorem allocAll_rev_lookup_other :
    ∀ (news : List Address) (i : Nat) (store : IndexStore) (k : Bytes),
      (∀ j, j < news.length → k ≠ encodeUint (i + j)) →
      (allocAll news i store).indexAccountDB.lookup k = store.indexAccountDB.lookup k
  | [], i, store, k, _ => rfl
  | a :: as, i, store, k, h => by
    unfold allocAll
    rw [allocAll_rev_lookup_other as (i + 1) _ k (fun j hj => by
      have := h (j + 1) (by simp; omega)
      rwa [show i + (j + 1) = i + 1 + j by omega] at this)]
    simp only
    rw [Database.lookup_Put, if_neg (by simpa using h 0 (by simp))]

theorem allocAll_rev_lookup :
    ∀ (news : List Address) (i : Nat) (store : IndexStore), i + news.length ≤ 2 ^ 64 →
      ∀ (j : Nat) (a : Address), news[j]? = some a →
      (allocAll news i store).indexAccountDB.lookup (encodeUint (i + j)) = some a.val
  | [], i, store, _, j, a, h => by simp at h
  | b :: bs, i, store, hlen, j, a, h => by
    simp only [List.length_cons] at hlen
    unfold allocAll
    cases j with
    | zero =>
      simp only [List.getElem?_cons_zero, Option.some.injEq] at h
      subst h
      rw [allocAll_rev_lookup_other bs (i + 1) _ (encodeUint (i + 0)) (fun j hj he => by
        have := encodeUint_injective (by omega) (by omega) he
        omega)]
      simp [Database.lookup_Put]
    | succ j =>
      simp only [List.getElem?_cons_succ] at h
      rw [show i + (j + 1) = i + 1 + j by omega]
      exact allocAll_rev_lookup bs (i + 1) _ (by omega) j a h

theorem allocAll_fwd_has :
    ∀ (news : List Address) (i : Nat) (store : IndexStore) (k : Bytes),
      (allocAll news i store).accountIndexDB.Has k = true ↔
        (store.accountIndexDB.Has k = true ∨ ∃ a ∈ news, a.val = k)
  | [], i, store, k => by simp [allocAll]
  | a :: as, i, store, k => by
    unfold allocAll
    rw [allocAll_fwd_has as (i + 1) _ k]
    simp only [Database.Has_Put, List.mem_cons, exists_eq_or_imp]
    constructor
    · rintro ((h | h) | h)
      · exact Or.inr (Or.inl h.symm)
      · exact Or.inl h
      · exact Or.inr (Or.inr h)
    · rintro (h | h | h)
      · exact Or.inl (Or.inr h)
      · exact Or.inl (Or.inl h.symm)
      · exact Or.inr h

theorem allocAll_rev_has :
    ∀ (news : List Address) (i : Nat) (store : IndexStore) (k : Bytes),
      (allocAll news i store).indexAccountDB.Has k = true ↔
        (store.indexAccountDB.Has k = true ∨ ∃ j, j < news.length ∧ k = encodeUint (i + j))
  | [], i, store, k => by simp [allocAll]
  | a :: as, i, store, k => by
    unfold allocAll
    rw [allocAll_rev_has as (i + 1) _ k]
    simp only [Database.Has_Put, List.length_cons]
    constructor
    · rintro ((h | h) | ⟨j, hj, h⟩)
      · exact Or.inr ⟨0, by omega, by simpa using h⟩
      · exact Or.inl h
      · exact Or.inr ⟨j + 1, by omega, by rw [h]; congr 1; omega⟩
    · rintro (h | ⟨j, hj, h⟩)
      · exact Or.inl (Or.inr h)
      · cases j with
        | zero => exact Or.inl (Or.inl (by simpa using h))
        | succ j => exact Or.inr ⟨j, by omega, by rw [h]; congr 1; omega⟩

theorem allocAll_fwd_size :
    ∀ (news : List Address) (i : Nat) (store : IndexStore), news.Nodup →
      (∀ a ∈ news, store.accountIndexDB.Has a.val = false) →
      (allocAll news i store).accountIndexDB.size = store.accountIndexDB.size + news.length
  | [], i, store, _, _ => by simp [allocAll]
  | a :: as, i, store, hnd, hnew => by
    rw [List.nodup_cons] at hnd
    unfold allocAll
    rw [allocAll_fwd_size as (i + 1) _ hnd.2 ?_]
    · simp only
      rw [Database.size_Put _ _ _ (hnew a (List.mem_cons_self a as))]
      simp only [List.length_cons]; omega
    · intro b hb
      cases hh : (store.accountIndexDB.Put a.val (encodeUint i)).Has b.val with
      | false => rfl
      | true =>
        rcases (Database.Has_Put _ _ _ _).mp hh with h | h
        · exact absurd (by rw [← Subtype.ext h]; exact hb) hnd.1
        · rw [hnew b (List.mem_cons_of_mem a hb)] at h; exact absurd h (by simp)

theorem allocAll_rev_size :
    ∀ (news : List Address) (i : Nat) (store : IndexStore), i + news.length ≤ 2 ^ 64 →
      (∀ j, j < news.length → store.indexAccountDB.Has (encodeUint (i + j)) = false) →
      (allocAll news i store).indexAccountDB.size = store.indexAccountDB.size + news.length
  | [], i, store, _, _ => by simp [allocAll]
  | a :: as, i, store, hlen, hnew => by
    simp only [List.length_cons] at hlen hnew
    unfold allocAll
    rw [allocAll_rev_size as (i + 1) _ (by omega) ?_]
    · simp only
      rw [Database.size_Put _ _ _ (by simpa using hnew 0 (by omega))]
      simp only [List.length_cons]; omega
    · intro j hj
      cases hh : (store.indexAccountDB.Put (encodeUint i) a.val).Has (encodeUint (i + 1 + j)) with
      | false => rfl
      | true =>
        rcases (Database.Has_Put _ _ _ _).mp hh with h | h
        · have := encodeUint_injective (by omega) (by omega) h
          omega
        · have := hnew (j + 1) (by omega)
          rw [show i + (j + 1) = i + 1 + j by omega, h] at this
          exact absurd this (by simp)

theorem stemTxLoop_ok_decodable (c : Collaborators) :
    ∀ (txs : List Transaction) (k : Nat) (level : List Hash) (count : Nat) (store : IndexStore)
      (l : List Hash), (stemTxLoop c (k + 1) txs level count store).1 = Except.ok l →
      ∀ tx ∈ txs, ∃ p, c.ExtractTxPayload tx.Data.Payload = Except.ok p
  | [], _, _, _, _, _, _ => by simp
  | tx :: txs, k, level, count, store, l, h => by
    unfold stemTxLoop at h
    rw [if_neg (Nat.add_one_ne_zero k)] at h
    split at h
    · exact absurd h (by simp)
    · next p hp =>
      intro t ht
      rcases List.mem_cons.mp ht with h1 | h1
      · subst h1; exact ⟨p, hp⟩
      · exact stemTxLoop_ok_decodable c txs (k + 1) _ _ _ l h t h1

theorem getStemHashes_state (c : Collaborators) (statedb : Statedb) (task : Task)
    (store : IndexStore) :
    (getStemHashes c statedb task store).2
      = ({ task with accountCount := (stemTxLoop c 0 task.txs [] task.accountCount store).2.1 },
         (stemTxLoop c 0 task.txs [] task.accountCount store).2.2) := by
  unfold getStemHashes
  rcases stemTxLoop c 0 task.txs [] task.accountCount store with ⟨res, cnt, st⟩
  cases res with
  | error e => rfl
  | ok level =>
    simp only
    split <;> rfl

theorem getStemHashes_ok_decodable (c : Collaborators) (statedb : Statedb) (task : Task)
    (store : IndexStore) (hs : Hash × Hash)
    (hrun : (getStemHashes c statedb task store).1 = Except.ok hs) :
    ∀ tx ∈ task.txs.drop 1, ∃ p, c.ExtractTxPayload tx.Data.Payload = Except.ok p := by
  unfold getStemHashes at hrun
  rcases hl : stemTxLoop c 0 task.txs [] task.accountCount store with ⟨res, cnt, st⟩
  rw [hl] at hrun
  cases res with
  | error e => simp at hrun
  | ok level =>
    cases htx : task.txs with
    | nil => simp
    | cons tx txs =>
      rw [htx, stemTxLoop_zero] at hl
      have := stemTxLoop_ok_decodable c txs 0 [] task.accountCount store level (by rw [hl])
      simpa using this

theorem getStemHashes_alloc (c : Collaborators) (statedb : Statedb) (task : Task)
    (store : IndexStore)
    (hdec : ∀ tx ∈ task.txs.drop 1, ∃ p, c.ExtractTxPayload tx.Data.Payload = Except.ok p)
    (hwrap : task.accountCount + (specNewAddresses store.accountIndexDB task.txs).length
      < 2 ^ 64) :
    (getStemHashes c statedb task store).2
      = ({ task with accountCount :=
            task.accountCount + (specNewAddresses store.accountIndexDB task.txs).length },
         allocAll (specNewAddresses store.accountIndexDB task.txs) task.accountCount store) := by
  rw [getStemHashes_state, stemTxLoop_indexAccounts c task.txs task.accountCount store hdec]
  unfold specNewAddresses at hwrap ⊢
  rw [indexAccounts_eq_allocAll store.accountIndexDB (txAccounts task.txs) [] task.accountCount
    store (by simp) hwrap]

theorem allocAll_inverse :
    ∀ (news : List Address) (i : Nat) (store : IndexStore), i + news.length ≤ 2 ^ 64 →
      (∀ k v, store.accountIndexDB.lookup k = some v →
        ∃ n, n < i ∧ v = encodeUint n ∧ store.indexAccountDB.lookup v = some k) →
      ∀ k v, (allocAll news i store).accountIndexDB.lookup k = some v →
        ∃ n, n < i + news.length ∧ v = encodeUint n ∧
          (allocAll news i store).indexAccountDB.lookup v = some k
  | [], i, store, _, hpre => by simpa [allocAll] using hpre
  | a :: as, i, store, hlen, hpre => by
    simp only [List.length_cons] at hlen
    unfold allocAll
    intro k v hk
    obtain ⟨n, hn, hv, hl⟩ := allocAll_inverse as (i + 1) _ (by omega) (by
      intro k v hk
      simp only at hk ⊢
      rw [Database.lookup_Put] at hk
      rw [Database.lookup_Put]
      by_cases hka : k = a.val
      · rw [if_pos hka] at hk
        simp only [Option.some.injEq] at hk
        subst hk
        exact ⟨i, by omega, rfl, by rw [if_pos rfl, hka]⟩
      · rw [if_neg hka] at hk
        obtain ⟨n, hn, hv, hl⟩ := hpre k v hk
        refine ⟨n, by omega, hv, ?_⟩
        rw [if_neg, hl]
        rw [hv]
        intro he
        have := encodeUint_injective (by omega) (by omega) he
        omega) k v hk
    exact ⟨n, by simp only [List.length_cons]; omega, hv, hl⟩

/-- **C6 (amended).** On every successful run of `getStemHashes` in which the count does not
wrap around `2 ^ 64`, the addresses that get an index are the distinct addresses of the
non-reward transactions missing from the address-to-index store, in order of first appearance
(`From` before `To`); the `j`-th of them gets index `accountCount + j` in both stores, indexed
addresses keep their entry, and the resulting count is the inherited count plus the number of
new addresses, hence never smaller. -/
theorem getStemHashes_allocation (c : Collaborators) (statedb : Statedb) (task : Task)
    (store : IndexStore) (hs : Hash × Hash)
    (hrun : (getStemHashes c statedb task store).1 = Except.ok hs)
    (hwrap : task.accountCount + (specNewAddresses store.accountIndexDB task.txs).length
      < 2 ^ 64) :
    (getStemHashes c statedb task store).2.1.accountCount
      = task.accountCount + (specNewAddresses store.accountIndexDB task.txs).length ∧
    task.accountCount ≤ (getStemHashes c statedb task store).2.1.accountCount ∧
    (specNewAddresses store.accountIndexDB task.txs).Nodup ∧
    (∀ a, a ∈ specNewAddresses store.accountIndexDB task.txs ↔
      (a ∈ txAccounts task.txs ∧ store.accountIndexDB.Has a.val = false)) ∧
    (∀ j a, (specNewAddresses store.accountIndexDB task.txs)[j]? = some a →
      (getStemHashes c statedb task store).2.2.accountIndexDB.lookup a.val
        = some (encodeUint (task.accountCount + j)) ∧
      (getStemHashes c statedb task store).2.2.indexAccountDB.lookup
        (encodeUint (task.accountCount + j)) = some a.val) ∧
    (∀ k, store.accountIndexDB.Has k = true →
      (getStemHashes c statedb task store).2.2.accountIndexDB.lookup k
        = store.accountIndexDB.lookup k) := by
  have hdec := getStemHashes_ok_decodable c statedb task store hs hrun
  have hst := getStemHashes_alloc c statedb task store hdec hwrap
  have hnd := nodup_specNewAddresses store.accountIndexDB task.txs
  rw [hst]
  refine ⟨rfl, Nat.le_add_right _ _, hnd, mem_specNewAddresses _ _, ?_, ?_⟩
  · intro j a hj
    exact ⟨allocAll_fwd_lookup _ _ _ hnd j a hj,
      allocAll_rev_lookup _ _ _ (by omega) j a hj⟩
  · intro k hk
    simp only
    apply allocAll_fwd_lookup_other
    intro a ha hak
    have := ((mem_specNewAddresses _ _ a).mp ha).2
    rw [hak, hk] at this
    exact absurd this (by simp)

/-- **C5 (amended).** On every successful run of `getStemHashes` in which the count does not
wrap around `2 ^ 64`, started from a store in which every stored address maps to an index below
the inherited count whose inverse entry maps back to it, every address that is the `From` or
the `To` of a non-reward transaction has an index afterwards, the inverse entry of that index
is the address, and the index is below the resulting count. -/
theorem getStemHashes_index_inverse (c : Collaborators) (statedb : Statedb) (task : Task)
    (store : IndexStore) (hs : Hash × Hash)
    (hrun : (getStemHashes c statedb task store).1 = Except.ok hs)
    (hpre : ∀ k v, store.accountIndexDB.lookup k = some v →
      ∃ n, n < task.accountCount ∧ v = encodeUint n ∧
        store.indexAccountDB.lookup v = some k)
    (hwrap : task.accountCount + (specNewAddresses store.accountIndexDB task.txs).length
      < 2 ^ 64) :
    ∀ a ∈ txAccounts task.txs, ∃ n,
      (getStemHashes c statedb task store).2.2.accountIndexDB.lookup a.val
        = some (encodeUint n) ∧
      (getStemHashes c statedb task store).2.2.indexAccountDB.lookup (encodeUint n)
        = some a.val ∧
      n < (getStemHashes c statedb task store).2.1.accountCount := by
  have hdec := getStemHashes_ok_decodable c statedb task store hs hrun
  have hst := getStemHashes_alloc c statedb task store hdec hwrap
  rw [hst]
  intro a ha
  simp only
  have hhas : (allocAll (specNewAddresses store.accountIndexDB task.txs) task.accountCount
      store).accountIndexDB.Has a.val = true := by
    rw [allocAll_fwd_has]
    cases h0 : store.accountIndexDB.Has a.val with
    | true => exact Or.inl rfl
    | false => exact Or.inr ⟨a, (mem_specNewAddresses _ _ a).mpr ⟨ha, h0⟩, rfl⟩
  unfold Database.Has at hhas
  obtain ⟨v, hv⟩ := Option.isSome_iff_exists.mp hhas
  obtain ⟨n, hn, hvn, hl⟩ := allocAll_inverse _ _ _ (by omega) hpre a.val v hv
  subst hvn
  exact ⟨n, hv, hl, hn⟩

/-! ## The account count written by block assembly -/

theorem ExtractSecondWitnessInfo_of_prepared (BftExtraVanity : Nat) (h : BlockHeader)
    (v sw' : SecondWitnessInfo) (payload : Bytes)
    (hwf : ∀ t ∈ v.ChallengedTxs, t.Data.AccountNonce < 2 ^ 64 ∧ t.Data.GasLimit < 2 ^ 64)
    (hc : v.AccountCount < 2 ^ 64)
    (henc : encodeSecondWitnessInfo v = Except.ok payload)
    (hsw : h.SecondWitness = List.replicate BftExtraVanity (0 : Byte) ++ payload)
    (hsize : h.SecondWitness.length < 2 ^ 64)
    (hex : ExtractSecondWitnessInfo BftExtraVanity h = Except.ok sw') : sw' = v := by
  rw [hsw] at hsize
  simp only [List.length_append, List.length_replicate] at hsize
  unfold ExtractSecondWitnessInfo at hex
  split at hex
  · exact absurd hex (by simp)
  · rw [hsw, if_neg (by simp), List.drop_left' (by simp)] at hex
    have hd := decodeSecondWitnessInfo_encode v payload [] hwf hc henc (by omega)
    rw [List.append_nil] at hd
    rw [hd] at hex
    simp only [Except.ok.injEq] at hex
    exact hex.symm

theorem ExtractSecondWitnessInfo_nil (BftExtraVanity : Nat) (h : BlockHeader)
    (sw' : SecondWitnessInfo) (hsw : h.SecondWitness = [])
    (hex : ExtractSecondWitnessInfo BftExtraVanity h = Except.ok sw') : False := by
  unfold ExtractSecondWitnessInfo at hex
  split at hex
  · exact absurd hex (by simp)
  · split at hex
    · exact absurd hex (by simp)
    · rw [hsw] at hex
      simp [decodeSecondWitnessInfo, decodeList, readKind] at hex

theorem PrepareSecondWitness_ok {BftExtraVanity : Nat} {chTxs : List Transaction}
    {dep ex : List Address} {count : Nat} {h1 h2 h3 : Hash} {sig : Signature} {b : Bytes}
    (h : PrepareSecondWitness BftExtraVanity chTxs dep ex count h1 h2 h3 sig = Except.ok b) :
    ∃ payload, encodeSecondWitnessInfo
        { ChallengedTxs := chTxs, DepositVers := dep, ExitVers := ex, AccountCount := count,
          TxHashStem := h1, StateHashStem := h2, RecentTxHashStem := h3, BlockSig := sig }
        = Except.ok payload ∧
      b = List.replicate BftExtraVanity (0 : Byte) ++ payload := by
  unfold PrepareSecondWitness at h
  simp only [List.nil_append] at h
  split at h
  · exact absurd h (by simp)
  · next payload hp =>
    simp only [Except.ok.injEq] at h
    refine ⟨payload, hp, ?_⟩
    rw [← h, List.take_of_length_le (by simp)]

/-- **C4 (amended).** For every BFT block assembly that succeeds without the count wrapping
around `2 ^ 64`, started from an index store whose two maps hold `c` entries each, the
index-to-address map holding exactly the encoded indices `0 .. c - 1`, where `c` is the account
count of the parent's second witness: the task's count, and the account count decoded from the
second witness written into the new header, equal the number of entries of either map after the
assembly. -/
theorem applyTransactionsAndDebts_accountCount (c : Collaborators)
    (BftExtraVanity RelayInterval : Nat) (GetBlockByHeight : Nat → Except Error Block)
    (rangeOrder : List (Address × Nat) → List (Address × Nat)) (fuel : Nat)
    (statedb : Statedb) (parent : Block) (task : Task) (store : IndexStore)
    (sw : SecondWitnessInfo) (task' : Task) (store' : IndexStore)
    (hparent : ExtractSecondWitnessInfo BftExtraVanity parent.Header = Except.ok sw)
    (hfwd : store.accountIndexDB.size = sw.AccountCount)
    (hrev : store.indexAccountDB.size = sw.AccountCount)
    (hkeys : ∀ k, store.indexAccountDB.Has k = true ↔
      ∃ i, i < sw.AccountCount ∧ k = encodeUint i)
    (hwrap : sw.AccountCount + (specNewAddresses store.accountIndexDB task.txs).length < 2 ^ 64)
    (hwf : ∀ t ∈ task.challengedTxs, t.Data.AccountNonce < 2 ^ 64 ∧ t.Data.GasLimit < 2 ^ 64)
    (hrun : applyTransactionsAndDebts.bft c BftExtraVanity RelayInterval GetBlockByHeight
      rangeOrder fuel statedb parent task store = some (Except.ok (), task', store'))
    (hsize : task'.header.SecondWitness.length < 2 ^ 64) :
    task'.accountCount = store'.accountIndexDB.size ∧
    task'.accountCount = store'.indexAccountDB.size ∧
    ∀ sw', ExtractSecondWitnessInfo BftExtraVanity task'.header = Except.ok sw' →
      sw'.AccountCount = store'.accountIndexDB.size ∧
      sw'.AccountCount = store'.indexAccountDB.size := by
  unfold applyTransactionsAndDebts.bft at hrun
  rw [hparent] at hrun
  simp only at hrun
  rcases hg : getStemHashes c statedb { task with accountCount := sw.AccountCount } store
    with ⟨res, task2, store2⟩
  rw [hg] at hrun
  cases res with
  | error e => simp at hrun
  | ok hs =>
    obtain ⟨txHashStem, stateHashStem⟩ := hs
    have hdec := getStemHashes_ok_decodable c statedb
      { task with accountCount := sw.AccountCount } store (txHashStem, stateHashStem)
      (by rw [hg])
    have hst := getStemHashes_alloc c statedb { task with accountCount := sw.AccountCount }
      store hdec hwrap
    rw [hg] at hst
    simp only [Prod.mk.injEq] at hst
    obtain ⟨ht2, hs2⟩ := hst
    have hnd := nodup_specNewAddresses store.accountIndexDB task.txs
    have hsz1 : store2.accountIndexDB.size = task2.accountCount := by
      rw [hs2, ht2, allocAll_fwd_size _ _ _ hnd
        (fun a ha => ((mem_specNewAddresses _ _ a).mp ha).2), hfwd]
    have hsz2 : store2.indexAccountDB.size = task2.accountCount := by
      rw [hs2, ht2, allocAll_rev_size _ _ _ (by omega) ?_, hrev]
      intro j hj
      cases hh : store.indexAccountDB.Has (encodeUint (sw.AccountCount + j)) with
      | false => rfl
      | true =>
        obtain ⟨i, hi, he⟩ := (hkeys _).mp hh
        have := encodeUint_injective (by omega) (by omega) he
        omega
    have hc2 : task2.accountCount < 2 ^ 64 := by rw [ht2]; simp only; omega
    have hch : task2.challengedTxs = task.challengedTxs := by rw [ht2]
    simp only at hrun
    split at hrun
    · exact absurd hrun (by simp)
    · exact absurd hrun (by simp)
    · next recent hrec =>
      simp only [Option.some.injEq, Prod.mk.injEq, true_and] at hrun
      obtain ⟨htask, hstore⟩ := hrun
      subst hstore
      subst htask
      refine ⟨hsz1.symm, hsz2.symm, ?_⟩
      intro sw' hex
      have key : ∀ hdr : BlockHeader, hdr.SecondWitness =
          (match PrepareSecondWitness BftExtraVanity task2.challengedTxs task2.depositVers
              task2.exitVers task2.accountCount txHashStem stateHashStem recent
              (c.MustSign (c.MustHash (encodeBlockInfo task2.header.Creator task2.header.Height
                txHashStem stateHashStem)).val) with
          | Except.error _ => []
          | Except.ok b => b) → hdr.SecondWitness.length < 2 ^ 64 →
          ExtractSecondWitnessInfo BftExtraVanity hdr = Except.ok sw' →
          sw'.AccountCount = task2.accountCount := by
        intro hdr hhead hsz hx
        split at hhead
        · exact absurd hx (fun h => ExtractSecondWitnessInfo_nil _ _ _ hhead h)
        · next b hb =>
          obtain ⟨payload, henc, hbp⟩ := PrepareSecondWitness_ok hb
          have := ExtractSecondWitnessInfo_of_prepared BftExtraVanity hdr _ sw' payload
            (by rw [hch]; exact hwf) hc2 henc (by rw [hhead, hbp]) hsz hx
          rw [this]
      have hcnt := key _ rfl hsize hex
      exact ⟨by rw [hcnt]; exact hsz1.symm, by rw [hcnt]; exact hsz2.symm⟩

/-! ## Sample runs of `getStemHashes` -/

theorem sampleDecodable (txs : List Transaction)
    (h : ∀ tx ∈ txs.drop 1, tx.Data.Payload.length = 32) :
    ∀ tx ∈ txs.drop 1, ∃ p, sampleCollaborators.ExtractTxPayload tx.Data.Payload = Except.ok p := by
  intro tx htx
  have h32 := h tx htx
  refine ⟨{ HashForStem := ⟨tx.Data.Payload, h32⟩, SignStringForStem := [],
            LargestPackHeight := 0 }, ?_⟩
  simp [sampleCollaborators, sampleExtractTxPayload, h32]

theorem getStemHashes_txHashStem_witness :
    (∀ tx ∈ (sampleTask txsAB 0).txs.drop 1, tx.Data.Payload.length = 32) ∧
    specTxLeaves sampleCollaborators txsAB = [sampleHash 7] ∧
    (stemTxLoop sampleCollaborators 0 (sampleTask txsAB 0).txs [] (sampleTask txsAB 0).accountCount
      emptyStore).1 = Except.ok (specTxLeaves sampleCollaborators (sampleTask txsAB 0).txs) :=
  ⟨by decide, by decide,
    (getStemHashes_txHashStem sampleCollaborators sampleStatedb (sampleTask txsAB 0) emptyStore
      (sampleDecodable _ (by decide))).2.1⟩

theorem getStemHashes_stateHashStem_witness :
    sampleStemRun.2.1.accountCount = 2 ∧
    ∃ addrs : List Address, addrs.length = sampleStemRun.2.1.accountCount ∧
      sampleStems.2 = sampleCollaborators.GetBinaryMerkleRoot
        (addrs.map (specStateLeaf sampleCollaborators sampleStatedb)) := by
  refine ⟨by decide, ?_⟩
  obtain ⟨addrs, h1, _, h3⟩ := getStemHashes_stateHashStem sampleCollaborators sampleStatedb
    (sampleTask txsAB 0) emptyStore sampleStems.1 sampleStems.2 sampleStemRun.2.1
    sampleStemRun.2.2 rfl
  exact ⟨addrs, h1, h3⟩

/-- **C6, as stated, fails.** With an inherited count of `2 ^ 64 - 1`, the transfer from
address 1 to address 2 over the empty store is a successful run with two new addresses, yet the
resulting count is 1: it is not the inherited count plus two, it is smaller than the inherited
count, and the first new address got index `2 ^ 64 - 1`, the second index 0. -/
theorem getStemHashes_allocation_wraps :
    wrapRunAB.1.isOk = true ∧
    specNewAddresses emptyStore.accountIndexDB txsAB = [sampleAddress 1, sampleAddress 2] ∧
    wrapRunAB.2.1.accountCount = 1 ∧
    ¬ (wrapRunAB.2.1.accountCount = maxUint64 + 2) ∧
    ¬ (maxUint64 ≤ wrapRunAB.2.1.accountCount) ∧
    wrapRunAB.2.2.accountIndexDB.lookup (sampleAddress 1).val = some (encodeUint maxUint64) ∧
    wrapRunAB.2.2.accountIndexDB.lookup (sampleAddress 2).val = some (encodeUint 0) := by
  decide

theorem getStemHashes_allocation_witness :
    sampleStemRun.1.isOk = true ∧
    sampleStemRun.2.1.accountCount = 2 ∧
    sampleStemRun.2.2.accountIndexDB.lookup (sampleAddress 1).val = some (encodeUint 0) ∧
    sampleStemRun.2.2.accountIndexDB.lookup (sampleAddress 2).val = some (encodeUint 1) ∧
    (getStemHashes sampleCollaborators sampleStatedb (sampleTask txsAA 0)
      emptyStore).2.1.accountCount = 1 ∧
    (getStemHashes sampleCollaborators sampleStatedb (sampleTask txsAB 0)
        emptyStore).2.1.accountCount
      = (sampleTask txsAB 0).accountCount
        + (specNewAddresses emptyStore.accountIndexDB (sampleTask txsAB 0).txs).length :=
  ⟨by decide, by decide, by decide, by decide, by decide,
    (getStemHashes_allocation sampleCollaborators sampleStatedb (sampleTask txsAB 0) emptyStore
      sampleStems (by decide) (by decide)).1⟩

/-- **C5, as stated, fails.** The empty store meets the precondition for any inherited count.
With an inherited count of `2 ^ 64 - 1` the self-transfer of address 1 is a successful run
after which address 1 has index `2 ^ 64 - 1` while the resulting count is 0, so its index is
not below the count. -/
theorem getStemHashes_index_not_below_count :
    (∀ k v, emptyStore.accountIndexDB.lookup k = some v →
      ∃ n, n < maxUint64 ∧ v = encodeUint n ∧ emptyStore.indexAccountDB.lookup v = some k) ∧
    wrapRunAA.1.isOk = true ∧
    sampleAddress 1 ∈ txAccounts (sampleTask txsAA maxUint64).txs ∧
    wrapRunAA.2.2.accountIndexDB.lookup (sampleAddress 1).val = some (encodeUint maxUint64) ∧
    wrapRunAA.2.1.accountCount = 0 ∧
    ¬ (∀ a ∈ txAccounts (sampleTask txsAA maxUint64).txs, ∃ n,
        wrapRunAA.2.2.accountIndexDB.lookup a.val = some (encodeUint n) ∧
        wrapRunAA.2.2.indexAccountDB.lookup (encodeUint n) = some a.val ∧
        n < wrapRunAA.2.1.accountCount) := by
  refine ⟨?_, by decide, by decide, by decide, by decide, ?_⟩
  · intro k v h
    simp [emptyStore] at h
  · intro h
    obtain ⟨n, _, _, hn⟩ := h (sampleAddress 1) (by decide)
    have h0 : wrapRunAA.2.1.accountCount = 0 := by decide
    omega

theorem getStemHashes_index_inverse_witness :
    sampleStemRun.1.isOk = true ∧
    ∀ a ∈ txAccounts (sampleTask txsAB 0).txs, ∃ n,
      (getStemHashes sampleCollaborators sampleStatedb (sampleTask txsAB 0)
        emptyStore).2.2.accountIndexDB.lookup a.val = some (encodeUint n) ∧
      (getStemHashes sampleCollaborators sampleStatedb (sampleTask txsAB 0)
        emptyStore).2.2.indexAccountDB.lookup (encodeUint n) = some a.val ∧
      n < (getStemHashes sampleCollaborators sampleStatedb (sampleTask txsAB 0)
        emptyStore).2.1.accountCount :=
  ⟨by decide,
    getStemHashes_index_inverse sampleCollaborators sampleStatedb (sampleTask txsAB 0) emptyStore
      sampleStems (by decide) (by intro k v h; simp [emptyStore] at h) (by decide)⟩

/-! ## Sample assemblies -/

theorem applyTransactionsAndDebts_accountCount_witness :
    sampleAssemblyTask.accountCount = 2 ∧
    ExtractSecondWitnessInfo 32 sampleAssemblyTask.header
      = Except.ok { parentWitnessInfo 2 with
          TxHashStem := sampleStems.1, StateHashStem := sampleStems.2,
          BlockSig := sampleCollaborators.MustSign (sampleCollaborators.MustHash
            (encodeBlockInfo sampleHeader.Creator sampleHeader.Height sampleStems.1
              sampleStems.2)).val } ∧
    sampleAssemblyTask.accountCount = sampleAssemblyStore.accountIndexDB.size ∧
    sampleAssemblyTask.accountCount = sampleAssemblyStore.indexAccountDB.size ∧
    ∀ sw', ExtractSecondWitnessInfo 32 sampleAssemblyTask.header = Except.ok sw' →
      sw'.AccountCount = sampleAssemblyStore.accountIndexDB.size ∧
      sw'.AccountCount = sampleAssemblyStore.indexAccountDB.size :=
  ⟨by decide, by decide,
    applyTransactionsAndDebts_accountCount sampleCollaborators 32 100 noBlocks id 0 sampleStatedb
      (parentBlock 0) (sampleTask txsAB 0) emptyStore (parentWitnessInfo 0) sampleAssemblyTask
      sampleAssemblyStore (by decide) (by decide) (by decide)
      (by intro k; simp [emptyStore, Database.Has, parentWitnessInfo])
      (by decide) (by decide) rfl (by decide)⟩

/-! ## An index store with `2 ^ 64 - 1` entries -/

theorem fromBE_zero_cons (l : Bytes) : fromBE ((0 : Byte) :: l) = fromBE l := by
  simp [fromBE]

theorem fromBE_replicate_zero (k : Nat) (l : Bytes) :
    fromBE (List.replicate k (0 : Byte) ++ l) = fromBE l := by
  induction k with
  | zero => rfl
  | succ k ih => rw [List.replicate_succ, List.cons_append, fromBE_zero_cons, ih]

theorem fromBE_addressOfNat (n : Nat) (h : n < 2 ^ 64) : fromBE (addressOfNat n).val = n := by
  have hl := toBE_length n 8 (by norm_num; omega)
  unfold addressOfNat BytesToAddress
  simp only
  rw [fromBE_replicate_zero, show (toBE n).length - 20 = 0 by omega, List.drop_zero,
    fromBE_toBE]

theorem addressOfNat_injective {a b : Nat} (ha : a < 2 ^ 64) (hb : b < 2 ^ 64)
    (h : addressOfNat a = addressOfNat b) : a = b := by
  rw [← fromBE_addressOfNat a ha, ← fromBE_addressOfNat b hb, h]

theorem nodup_addresses (n : Nat) (h : n ≤ 2 ^ 64) :
    ((List.range n).map addressOfNat).Nodup := by
  apply List.Nodup.map_on _ (List.nodup_range n)
  intro x hx y hy hxy
  rw [List.mem_range] at hx hy
  exact addressOfNat_injective (by omega) (by omega) hxy

theorem emptyStore_has (k : Bytes) :
    emptyStore.accountIndexDB.Has k = false ∧ emptyStore.indexAccountDB.Has k = false := by
  simp [emptyStore, Database.Has]

theorem fullStore_fwd_size (n : Nat) (h : n ≤ 2 ^ 64) :
    (fullStore n).accountIndexDB.size = n := by
  unfold fullStore
  rw [allocAll_fwd_size _ _ _ (nodup_addresses n h) (fun a _ => (emptyStore_has a.val).1)]
  simp [emptyStore, Database.size]

theorem fullStore_rev_size (n : Nat) (h : n ≤ 2 ^ 64) :
    (fullStore n).indexAccountDB.size = n := by
  unfold fullStore
  rw [allocAll_rev_size _ _ _ (by simpa using h) (fun j _ => (emptyStore_has _).2)]
  simp [emptyStore, Database.size]

theorem fullStore_rev_has (n : Nat) (k : Bytes) :
    (fullStore n).indexAccountDB.Has k = true ↔ ∃ i, i < n ∧ k = encodeUint i := by
  unfold fullStore
  rw [allocAll_rev_has]
  simp [(emptyStore_has k).2]

theorem fullStore_fwd_has_sample (n : Nat) (h : n ≤ 2 ^ 64) :
    (fullStore n).accountIndexDB.Has (sampleAddress 1).val = false := by
  cases hh : (fullStore n).accountIndexDB.Has (sampleAddress 1).val with
  | false => rfl
  | true =>
    unfold fullStore at hh
    rw [allocAll_fwd_has] at hh
    rcases hh with hh | ⟨a, ha, hav⟩
    · rw [(emptyStore_has _).1] at hh; exact absurd hh (by simp)
    · rw [List.mem_map] at ha
      obtain ⟨j, hj, rfl⟩ := ha
      rw [List.mem_range] at hj
      have h1 := fromBE_addressOfNat j (by omega)
      rw [hav] at h1
      have h2 : 2 ^ 64 ≤ fromBE (sampleAddress 1).val := by decide
      omega

theorem fullStore_rev_has_max (n : Nat) (h : n ≤ maxUint64) :
    (fullStore n).indexAccountDB.Has (encodeUint maxUint64) = false := by
  cases hh : (fullStore n).indexAccountDB.Has (encodeUint maxUint64) with
  | false => rfl
  | true =>
    obtain ⟨i, hi, he⟩ := (fullStore_rev_has n _).mp hh
    have hm : maxUint64 = 2 ^ 64 - 1 := rfl
    have := encodeUint_injective (by omega) (by omega) he
    omega

/-! ## The assembly whose count wraps -/

theorem getStemHashes_of_loops (c : Collaborators) (statedb : Statedb) (task : Task)
    (store st : IndexStore) (level level2 : List Hash) (cnt : Nat)
    (hl : stemTxLoop c 0 task.txs [] task.accountCount store = (Except.ok level, cnt, st))
    (hs : stemStateLoop c statedb st.indexAccountDB cnt 0 [] = Except.ok level2) :
    getStemHashes c statedb task store
      = (Except.ok (c.GetBinaryMerkleRoot level, c.GetBinaryMerkleRoot level2),
         { task with accountCount := cnt }, st) := by
  unfold getStemHashes
  rw [hl]
  simp only
  rw [hs]

theorem bft_of_steps (c : Collaborators) (BftExtraVanity RelayInterval : Nat)
    (GetBlockByHeight : Nat → Except Error Block)
    (rangeOrder : List (Address × Nat) → List (Address × Nat)) (fuel : Nat)
    (statedb : Statedb) (parent : Block) (task task2 : Task) (store store2 : IndexStore)
    (sw : SecondWitnessInfo) (h1 h2 recent : Hash)
    (hparent : ExtractSecondWitnessInfo BftExtraVanity parent.Header = Except.ok sw)
    (hg : getStemHashes c statedb { task with accountCount := sw.AccountCount } store
      = (Except.ok (h1, h2), task2, store2))
    (hr : getRecentTxHashStem c RelayInterval GetBlockByHeight rangeOrder fuel task2
      = some (Except.ok recent)) :
    applyTransactionsAndDebts.bft c BftExtraVanity RelayInterval GetBlockByHeight rangeOrder
      fuel statedb parent task store
      = some (Except.ok (),
          { task2 with header := { task2.header with SecondWitness :=
              (match PrepareSecondWitness BftExtraVanity task2.challengedTxs task2.depositVers
                  task2.exitVers task2.accountCount h1 h2 recent
                  (c.MustSign (c.MustHash (encodeBlockInfo task2.header.Creator
                    task2.header.Height h1 h2)).val) with
              | Except.error _ => []
              | Except.ok b => b) } },
          store2) := by
  unfold applyTransactionsAndDebts.bft
  rw [hparent]
  simp only
  rw [hg]
  simp only [hr]

theorem stemTxLoop_wrap (store : IndexStore)
    (h : store.accountIndexDB.Has (sampleAddress 1).val = false) :
    stemTxLoop sampleCollaborators 0 txsAA [] maxUint64 store
      = (Except.ok [sampleHash 7], 0, wrapStoreAfter store) := by
  have hp : sampleCollaborators.ExtractTxPayload (sampleTx 1 1 5 (stemPayload 7)).Data.Payload
      = Except.ok { HashForStem := sampleHash 7, SignStringForStem := [],
                    LargestPackHeight := 0 } := by decide
  have hfrom : (sampleTx 1 1 5 (stemPayload 7)).Data.From = sampleAddress 1 := rfl
  have hto : (sampleTx 1 1 5 (stemPayload 7)).Data.To = sampleAddress 1 := rfl
  have h1 : indexAccount (sampleAddress 1) maxUint64 store = (0, wrapStoreAfter store) := by
    unfold indexAccount
    rw [h]
    rfl
  have h2 : indexAccount (sampleAddress 1) 0 (wrapStoreAfter store)
      = (0, wrapStoreAfter store) :=
    indexAccount_of_has _ _ _ (by
      unfold wrapStoreAfter
      exact (Database.Has_Put _ _ _ _).mpr (Or.inl rfl))
  rw [show txsAA = rewardTx :: [sampleTx 1 1 5 (stemPayload 7)] from rfl, stemTxLoop_zero]
  simp only [stemTxLoop, hp, hfrom, hto, h1, h2]
  rfl

/-- **C4, as stated, fails.** The store `fullStore (2 ^ 64 - 1)` holds exactly the indices
`0 .. 2 ^ 64 - 2`, and the parent's second witness records the count `2 ^ 64 - 1`. Assembling
the self-transfer of the new address 1 succeeds; the count wraps to 0, so the second witness of
the new header carries the account count 0, while either map of the store holds `2 ^ 64`
entries afterwards. -/
theorem applyTransactionsAndDebts_accountCount_wraps :
    ExtractSecondWitnessInfo 32 (parentBlock maxUint64).Header
      = Except.ok (parentWitnessInfo maxUint64) ∧
    (fullStore maxUint64).accountIndexDB.size = maxUint64 ∧
    (fullStore maxUint64).indexAccountDB.size = maxUint64 ∧
    (∀ k, (fullStore maxUint64).indexAccountDB.Has k = true ↔
      ∃ i, i < maxUint64 ∧ k = encodeUint i) ∧
    sampleAssembly txsAA maxUint64 (fullStore maxUint64)
      = some (Except.ok (), wrapTaskAfter, wrapStoreAfter (fullStore maxUint64)) ∧
    ExtractSecondWitnessInfo 32 wrapTaskAfter.header
      = Except.ok { parentWitnessInfo 0 with
          TxHashStem := sampleCollaborators.GetBinaryMerkleRoot [sampleHash 7],
          BlockSig := sampleCollaborators.MustSign (sampleCollaborators.MustHash
            (encodeBlockInfo sampleHeader.Creator sampleHeader.Height
              (sampleCollaborators.GetBinaryMerkleRoot [sampleHash 7]) EmptyHash)).val } ∧
    wrapTaskAfter.accountCount = 0 ∧
    (wrapStoreAfter (fullStore maxUint64)).accountIndexDB.size = 2 ^ 64 ∧
    (wrapStoreAfter (fullStore maxUint64)).indexAccountDB.size = 2 ^ 64 := by
  have hm : maxUint64 = 2 ^ 64 - 1 := rfl
  have hhas := fullStore_fwd_has_sample maxUint64 (by omega)
  refine ⟨by decide, fullStore_fwd_size _ (by omega), fullStore_rev_size _ (by omega),
    fullStore_rev_has _, ?_, by decide, rfl, ?_, ?_⟩
  · unfold sampleAssembly
    rw [bft_of_steps sampleCollaborators 32 100 noBlocks id 0 sampleStatedb
      (parentBlock maxUint64) (sampleTask txsAA 0)
      { sampleTask txsAA 0 with accountCount := 0 } (fullStore maxUint64)
      (wrapStoreAfter (fullStore maxUint64)) (parentWitnessInfo maxUint64)
      (sampleCollaborators.GetBinaryMerkleRoot [sampleHash 7])
      (sampleCollaborators.GetBinaryMerkleRoot []) EmptyHash (by decide)
      (getStemHashes_of_loops _ _ _ _ _ _ _ _ (stemTxLoop_wrap _ hhas) rfl) (by decide)]
    rfl
  · unfold wrapStoreAfter
    simp only
    rw [Database.size_Put _ _ _ hhas, fullStore_fwd_size _ (by omega)]
    omega
  · unfold wrapStoreAfter
    simp only
    rw [Database.size_Put _ _ _ (fullStore_rev_has_max _ (Nat.le_refl _)),
      fullStore_rev_size _ (by omega)]
    omega

/-! ## The relay test of `getRecentTxHashStem` -/

theorem toInt64_of_lt {x : Nat} (h : x < 2 ^ 63) : toInt64 x = (x : Int) := by
  unfold toInt64
  have : x % 2 ^ 64 = x := Nat.mod_eq_of_lt (by omega)
  rw [this, if_pos h]

theorem toInt64_of_ge {x : Nat} (h : 2 ^ 63 ≤ x) (h' : x < 2 ^ 64) :
    toInt64 x = (x : Int) - 2 ^ 64 := by
  unfold toInt64
  have : x % 2 ^ 64 = x := Nat.mod_eq_of_lt h'
  rw [this, if_neg (by omega)]

theorem getRecentTxHashStem_zero_branch (c : Collaborators) (R : Nat)
    (GetBlockByHeight : Nat → Except Error Block)
    (rangeOrder : List (Address × Nat) → List (Address × Nat)) (fuel : Nat) (task : Task)
    (hR0 : R ≠ 0) (hR : R < 2 ^ 63) (hh : task.header.Height < 2 ^ 63)
    (hmod : task.header.Height % R ≠ 0) :
    getRecentTxHashStem c R GetBlockByHeight rangeOrder fuel task = some (Except.ok EmptyHash) := by
  unfold getRecentTxHashStem
  rw [toInt64_of_lt hR, toInt64_of_lt hh]
  rw [if_neg (by exact_mod_cast hR0)]
  rw [if_pos]
  have h1 : Int.tmod (task.header.Height : Int) (R : Int) = ((task.header.Height % R : Nat) : Int) := by
    rw [Int.tmod_eq_emod (by positivity) (by positivity)]
    simp
  rw [h1]
  have : 0 < task.header.Height % R := Nat.pos_of_ne_zero hmod
  exact_mod_cast this

theorem getRecentTxHashStem_high_branch (c : Collaborators) (R : Nat)
    (GetBlockByHeight : Nat → Except Error Block)
    (rangeOrder : List (Address × Nat) → List (Address × Nat)) (fuel : Nat) (task : Task)
    (hR0 : 0 < R) (hR : R < 2 ^ 63) (hh : 2 ^ 63 ≤ task.header.Height)
    (hh' : task.header.Height < 2 ^ 64) :
    getRecentTxHashStem c R GetBlockByHeight rangeOrder fuel task
      = match getRecentTxHashStem.aggregate R GetBlockByHeight fuel task with
        | none => none
        | some (Except.error e) => some (Except.error e)
        | some (Except.ok s) =>
          match producerLevel c s.accTxs (rangeOrder (mapEntries s.accountToIndexMap)) [] with
          | Except.error e => some (Except.error e)
          | Except.ok level => some (Except.ok (c.GetBinaryMerkleRoot level)) := by
  unfold getRecentTxHashStem
  rw [toInt64_of_lt hR, toInt64_of_ge hh hh']
  have h1 : Int.tmod ((task.header.Height : Int) - 2 ^ 64) (R : Int) ≤ 0 := by
    have hlt : (task.header.Height : Int) - 2 ^ 64 < 0 := by omega
    obtain ⟨m, hm⟩ := Int.eq_negSucc_of_lt_zero hlt
    rw [hm]
    show Int.tmod (Int.negSucc m) (Int.ofNat R) ≤ 0
    simp only [Int.tmod]
    exact Int.neg_nonpos_of_nonneg (Int.ofNat_nonneg _)
  have hne : ¬ ((R : Int) = 0) := by omega
  simp only [if_neg hne, if_neg (not_lt.mpr h1)]

/-- **C7, failing input.** With a relay interval of 100 the height `2 ^ 63 + 1` is not a
multiple of the interval, yet `getRecentTxHashStem` does not return the zero hash: it enters the
relay branch and reads the block at height `2 ^ 63 - 98`, so that over a store without blocks it
fails with the store's error and over a store with blocks it returns a Merkle root that is not
the zero hash. The same happens with an interval of 2. GetFee's test
`height % RelayInterval != 0` on the unsigned values would give the zero hash here. -/
theorem getRecentTxHashStem_signed_relay_test :
    (2 ^ 63 + 1) % 100 ≠ 0 ∧
    getRecentTxHashStem sampleCollaborators 100 noBlocks id 1 (taskAtHeight (2 ^ 63 + 1) txsAB)
      = some (Except.error Error.blockNotFound) ∧
    (2 ^ 63 + 1) % 2 ≠ 0 ∧
    getRecentTxHashStem sampleCollaborators 2 noBlocks id 1 (taskAtHeight (2 ^ 63 + 1) txsAB)
      = some (Except.error Error.blockNotFound) ∧
    getRecentTxHashStem sampleCollaborators 2 (uniformChain txsAB) id 3
        (taskAtHeight (2 ^ 63 + 1) txsAB)
      ≠ some (Except.ok EmptyHash) ∧
    (getRecentTxHashStem sampleCollaborators 2 (uniformChain txsAB) id 3
        (taskAtHeight (2 ^ 63 + 1) txsAB)).isSome = true := by
  decide

/-! ## The order of the recent-transaction leaves -/

/-- **C8, failing input.** At the relay height 7 with interval 1 the window is the task's own
block, in which address 1 appears first and address 2 second. The read side lists the leaf of
address 1 first. The producer ranges over the map: when the run time visits the entry of
address 2 first, its leaf vector is the reverse of the read side's, and the root depends on the
order of the visit although the transactions are the same. -/
theorem getRecentTxHashStem_map_order :
    (getRecentTxHashStem.aggregate 1 noBlocks 2 (taskAtHeight 7 txsABA)).isSome = true ∧
    (∀ s, getRecentTxHashStem.aggregate 1 noBlocks 2 (taskAtHeight 7 txsABA)
        = some (Except.ok s) →
      mapEntries s.accountToIndexMap = [(sampleAddress 2, 1), (sampleAddress 1, 0)] ∧
      producerLevel sampleCollaborators s.accTxs (mapEntries s.accountToIndexMap) []
        = Except.ok (consumerLevel sampleCollaborators s.accTxs).reverse ∧
      (consumerLevel sampleCollaborators s.accTxs).reverse
        ≠ consumerLevel sampleCollaborators s.accTxs) ∧
    getRecentTxHashStem sampleCollaborators 1 noBlocks id 2 (taskAtHeight 7 txsABA)
      ≠ getRecentTxHashStem sampleCollaborators 1 noBlocks List.reverse 2
          (taskAtHeight 7 txsABA) := by
  refine ⟨by decide, ?_, by decide⟩
  intro s hs
  have h : getRecentTxHashStem.aggregate 1 noBlocks 2 (taskAtHeight 7 txsABA)
      = some (Except.ok
          (match getRecentTxHashStem.aggregate 1 noBlocks 2 (taskAtHeight 7 txsABA) with
           | some (Except.ok s) => s
           | _ => RecentTxs.init)) := by rfl
  rw [h] at hs
  simp only [Option.some.injEq, Except.ok.injEq] at hs
  subst hs
  exact ⟨by decide, by decide, by decide⟩

/-! ## The index passed to the Merkle engine by `GetTxMerkleInfo` -/

theorem GetTxMerkleInfo_of_found (c : Collaborators)
    (GetTxIndex : Hash → Except Error (Option TxIndex)) (GetBlock : Hash → Except Error Block)
    (txHash : Hash) (txIdx : TxIndex) (block : Block) (level : List Hash)
    (hidx : GetTxIndex txHash = Except.ok (some txIdx))
    (hblock : GetBlock txIdx.BlockHash = Except.ok block)
    (hlevel : txLevelLoop c 0 block.Transactions [] = Except.ok level) :
    GetTxMerkleInfo c GetTxIndex GetBlock txHash
      = Except.ok (some { index := (txIdx.Index + 2 ^ 64 - 1) % 2 ^ 64,
                          proof := encodeHashes (c.GetMerkleProof level (toInt64 txIdx.Index)) }) := by
  unfold GetTxMerkleInfo
  rw [hidx]
  simp only
  rw [hblock]
  simp only
  rw [hlevel]

/-- **C10, failing input.** In a block with the reward transaction and three transfers, the
transfer at position 1 is reported with merkle index 0, but the proof returned is the sibling
path of leaf 1 (the leaf of the transfer at position 2), which differs from the path of leaf 0;
for the transfer at position 3 the engine is asked for leaf 3 of a vector of three leaves. -/
theorem GetTxMerkleInfo_proof_off_by_one :
    txLevelLoop sampleCollaborators 0 threeTxBlock.Transactions [] = Except.ok threeTxLeaves ∧
    GetTxMerkleInfo sampleCollaborators threeTxIndex (fun _ => Except.ok threeTxBlock)
        (sampleHash 1)
      = Except.ok (some { index := 0,
                          proof := encodeHashes (sampleMerkleProof threeTxLeaves 1) }) ∧
    sampleMerkleProof threeTxLeaves 1 ≠ sampleMerkleProof threeTxLeaves 0 ∧
    GetTxMerkleInfo sampleCollaborators threeTxIndex (fun _ => Except.ok threeTxBlock)
        (sampleHash 3)
      = Except.ok (some { index := 2,
                          proof := encodeHashes (sampleMerkleProof threeTxLeaves 3) }) ∧
    ¬ (3 < threeTxLeaves.length) := by
  decide

/-! ## The recent-transaction aggregation -/

theorem accountMap_keys_length_insert (m : AList (fun _ : Address => Nat)) (a : Address)
    (n : Nat) (h : m.lookup a = none) : (m.insert a n).keys.length = m.keys.length + 1 := by
  have hk : a ∉ m := AList.lookup_eq_none.mp h
  have hk' : a ∉ m.entries.keys := hk
  simp [AList.keys, AList.insert_entries, List.kerase_of_not_mem_keys hk', List.keys]

theorem addAccountTx_represents (a : Address) (d : Bytes) (s : RecentTxs)
    (L : Address → List Bytes) (h : Represents s L) :
    ∃ s', addAccountTx a d s = Except.ok s' ∧
      Represents s' (fun x => if x = a then L a ++ [d] else L x) := by
  obtain ⟨hlen, hget, hinj, hnone⟩ := h
  unfold addAccountTx
  cases hl : s.accountToIndexMap.lookup a with
  | some index =>
    simp only
    have hg := hget a index hl
    rw [hg]
    refine ⟨_, rfl, ?_, ?_, ?_, ?_⟩
    · simpa using hlen
    · intro x i hx
      simp only at hx ⊢
      have hgx := hget x i hx
      rw [List.getElem?_set]
      by_cases hxa : x = a
      · subst hxa
        rw [hl] at hx
        simp only [Option.some.injEq] at hx
        subst hx
        have hlt : index < s.accTxs.length := by
          rcases List.getElem?_eq_some.mp hg with ⟨hlt, _⟩
          exact hlt
        simp [hlt]
      · have hne : index ≠ i := fun hi => hxa (hinj x a i hx (hi ▸ hl))
        simp [hne, hxa, hgx]
    · intro x y i hx hy
      exact hinj x y i hx hy
    · intro x hx
      simp only at hx
      have hxa : x ≠ a := by
        intro hxa; subst hxa; rw [hl] at hx; exact absurd hx (by simp)
      simp [hxa, hnone x hx]
  | none =>
    simp only
    refine ⟨_, rfl, ?_, ?_, ?_, ?_⟩
    · simp only [List.length_append, List.length_singleton]
      rw [accountMap_keys_length_insert _ _ _ hl, hlen]
    · intro x i hx
      simp only at hx ⊢
      by_cases hxa : x = a
      · subst hxa
        rw [AList.lookup_insert] at hx
        simp only [Option.some.injEq] at hx
        subst hx
        rw [hlen, hnone x hl]
        simp
      · rw [AList.lookup_insert_ne hxa] at hx
        have hgx := hget x i hx
        have hlt : i < s.accTxs.length := by
          rcases List.getElem?_eq_some.mp hgx with ⟨hlt, _⟩
          exact hlt
        rw [List.getElem?_append_left hlt, hgx]
        simp [hxa]
    · intro x y i hx hy
      simp only at hx hy
      by_cases hxa : x = a
      · by_cases hya : y = a
        · rw [hxa, hya]
        · subst hxa
          rw [AList.lookup_insert] at hx
          rw [AList.lookup_insert_ne hya] at hy
          simp only [Option.some.injEq] at hx
          subst hx
          have hgy := hget y _ hy
          rcases List.getElem?_eq_some.mp hgy with ⟨hlt, _⟩
          omega
      · by_cases hya : y = a
        · subst hya
          rw [AList.lookup_insert] at hy
          rw [AList.lookup_insert_ne hxa] at hx
          simp only [Option.some.injEq] at hy
          subst hy
          have hgx := hget x _ hx
          rcases List.getElem?_eq_some.mp hgx with ⟨hlt, _⟩
          omega
        · rw [AList.lookup_insert_ne hxa] at hx
          rw [AList.lookup_insert_ne hya] at hy
          exact hinj x y i hx hy
    · intro x hx
      simp only at hx
      have hxa : x ≠ a := by
        intro hxa; subst hxa; rw [AList.lookup_insert] at hx; exact absurd hx (by simp)
      rw [AList.lookup_insert_ne hxa] at hx
      simp [hxa, hnone x hx]

theorem addTx_represents (tx : Transaction) (d : Bytes) (s : RecentTxs)
    (L : Address → List Bytes) (h : Represents s L)
    (hd : encodeDataForStem tx = Except.ok d) :
    ∃ s', addTx tx s = Except.ok s' ∧
      Represents s' (fun x => if touches x tx = true then L x ++ [d] else L x) := by
  unfold addTx
  rw [hd]
  simp only
  obtain ⟨s1, hs1, hr1⟩ := addAccountTx_represents tx.Data.From d s L h
  rw [hs1]
  simp only
  by_cases hft : tx.Data.From = tx.Data.To
  · rw [if_neg (by simpa using hft)]
    refine ⟨s1, rfl, ?_⟩
    have : (fun x => if touches x tx = true then L x ++ [d] else L x)
        = (fun x => if x = tx.Data.From then L tx.Data.From ++ [d] else L x) := by
      funext x
      by_cases hx : x = tx.Data.From
      · subst hx; simp [touches]
      · have : touches x tx = false := by
          simp [touches, ← hft, Ne.symm hx]
        simp [hx, this]
    rw [this]; exact hr1
  · rw [if_pos (by simpa using hft)]
    obtain ⟨s2, hs2, hr2⟩ := addAccountTx_represents tx.Data.To d s1 _ hr1
    refine ⟨s2, hs2, ?_⟩
    have : (fun x => if touches x tx = true then L x ++ [d] else L x)
        = (fun x => if x = tx.Data.To then
            (if tx.Data.To = tx.Data.From then L tx.Data.From ++ [d] else L tx.Data.To) ++ [d]
            else if x = tx.Data.From then L tx.Data.From ++ [d] else L x) := by
      funext x
      by_cases hxt : x = tx.Data.To
      · subst hxt
        simp [touches, Ne.symm hft]
      · by_cases hxf : x = tx.Data.From
        · subst hxf; simp [touches, hxt]
        · have : touches x tx = false := by
            simp [touches, Ne.symm hxf, Ne.symm hxt]
          simp [hxt, hxf, this]
    rw [this]; exact hr2

theorem represents_init : Represents RecentTxs.init (fun _ => []) := by
  refine ⟨rfl, ?_, ?_, ?_⟩
  · intro a i h; simp [RecentTxs.init] at h
  · intro a b i h; simp [RecentTxs.init] at h
  · intro a _; rfl

theorem addBlockTxs_represents :
    ∀ (txs : List Transaction) (k : Nat) (s s' : RecentTxs) (seen : List Transaction),
      Represents s (fun a => (seen.filter (touches a)).map dataForStemBytes) →
      addBlockTxs (k + 1) txs s = Except.ok s' →
      Represents s' (fun a => ((seen ++ txs).filter (touches a)).map dataForStemBytes) ∧
      ∀ tx ∈ txs, encodeDataForStem tx = Except.ok (dataForStemBytes tx)
  | [], k, s, s', seen, hr, h => by
    simp only [addBlockTxs, Except.ok.injEq] at h
    subst h
    simpa using hr
  | tx :: txs, k, s, s', seen, hr, h => by
    unfold addBlockTxs at h
    rw [if_neg (Nat.add_one_ne_zero k)] at h
    cases hd : encodeDataForStem tx with
    | error e =>
      simp [addTx, hd] at h
    | ok d =>
      have hdb : dataForStemBytes tx = d := by simp [dataForStemBytes, hd]
      obtain ⟨s1, hs1, hr1⟩ := addTx_represents tx d s _ hr hd
      rw [hs1] at h
      simp only at h
      have hr1' : Represents s1
          (fun a => (((seen ++ [tx]).filter (touches a)).map dataForStemBytes)) := by
        have : (fun a => (((seen ++ [tx]).filter (touches a)).map dataForStemBytes))
            = (fun x => if touches x tx = true
                then (seen.filter (touches x)).map dataForStemBytes ++ [d]
                else (seen.filter (touches x)).map dataForStemBytes) := by
          funext x
          by_cases hx : touches x tx = true
          · simp [List.filter_append, List.filter_cons, hx, hdb]
          · simp [List.filter_append, List.filter_cons, hx]
        rw [this]; exact hr1
      obtain ⟨hrep, hall⟩ := addBlockTxs_represents txs (k + 1) s1 s' (seen ++ [tx]) hr1' h
      refine ⟨by simpa using hrep, ?_⟩
      intro t ht
      rcases List.mem_cons.mp ht with h1 | h1
      · subst h1; rw [hd, hdb]
      · exact hall t h1

theorem addBlockTxs_zero (txs : List Transaction) (s : RecentTxs) :
    addBlockTxs 0 txs s = addBlockTxs 1 (txs.drop 1) s := by
  cases txs with
  | nil => simp [addBlockTxs]
  | cons t rest => simp [addBlockTxs]

theorem aggregateWindow_represents :
    ∀ (window : List (List Transaction)) (s s' : RecentTxs) (seen : List Transaction),
      Represents s (fun a => (seen.filter (touches a)).map dataForStemBytes) →
      aggregateWindow window s = Except.ok s' →
      Represents s'
        (fun a => ((seen ++ windowTxs window).filter (touches a)).map dataForStemBytes) ∧
      ∀ tx ∈ windowTxs window, encodeDataForStem tx = Except.ok (dataForStemBytes tx)
  | [], s, s', seen, hr, h => by
    simp only [aggregateWindow, Except.ok.injEq] at h
    subst h
    simpa [windowTxs] using hr
  | txs :: rest, s, s', seen, hr, h => by
    unfold aggregateWindow at h
    split at h
    · exact absurd h (by simp)
    · next s1 hs1 =>
      rw [addBlockTxs_zero] at hs1
      obtain ⟨hr1, hall1⟩ := addBlockTxs_represents (txs.drop 1) 0 s s1 seen hr hs1
      obtain ⟨hr2, hall2⟩ := aggregateWindow_represents rest s1 s' (seen ++ txs.drop 1) hr1 h
      refine ⟨by simpa [windowTxs, List.append_assoc] using hr2, ?_⟩
      intro tx htx
      simp only [windowTxs, List.mem_append] at htx
      rcases htx with h1 | h1
      · exact hall1 tx h1
      · exact hall2 tx h1

theorem aggregateWindow_spec (window : List (List Transaction)) (s : RecentTxs)
    (h : aggregateWindow window RecentTxs.init = Except.ok s) : AggregationSpec s window := by
  obtain ⟨⟨_, hget, _, hnone⟩, hall⟩ :=
    aggregateWindow_represents window RecentTxs.init s [] (by simpa using represents_init) h
  simp only [List.nil_append] at hget hnone
  refine ⟨?_, ?_, hall⟩
  · intro a i hl
    have hg := hget a i hl
    rcases List.getElem?_eq_some.mp hg with ⟨hlt, _⟩
    exact ⟨hlt, hg⟩
  · intro a hl
    have := hnone a hl
    simpa using this

/-! ## The window loop -/

theorem forUint64_eq {σ : Type} (body : Nat → σ → Except Error σ) (stop : Nat)
    (hstop : stop < 2 ^ 64 - 1) :
    ∀ (fuel i : Nat) (s : σ), stop + 1 - i < fuel →
      forUint64 body fuel i stop s
        = some (runHeights body (List.range' i (stop + 1 - i)) s)
  | 0, i, s, h => absurd h (Nat.not_lt_zero _)
  | fuel + 1, i, s, h => by
    unfold forUint64
    by_cases hi : i ≤ stop
    · rw [if_pos hi]
      have hn : stop + 1 - i = (stop + 1 - (i + 1)) + 1 := by omega
      rw [hn, List.range'_succ]
      simp only [runHeights]
      cases hb : body i s with
      | error e => rfl
      | ok s1 =>
        simp only
        have hm : (i + 1) % 2 ^ 64 = i + 1 := Nat.mod_eq_of_lt (by omega)
        rw [hm]
        exact forUint64_eq body stop hstop fuel (i + 1) s1 (by omega)
    · rw [if_neg hi]
      have hn : stop + 1 - i = 0 := by omega
      rw [hn]
      rfl

theorem forUint64_ok {σ : Type} (body : Nat → σ → Except Error σ) (stop : Nat)
    (hstop : stop < 2 ^ 64 - 1) :
    ∀ (fuel i : Nat) (s s' : σ), forUint64 body fuel i stop s = some (Except.ok s') →
      runHeights body (List.range' i (stop + 1 - i)) s = Except.ok s'
  | 0, i, s, s', h => by simp [forUint64] at h
  | fuel + 1, i, s, s', h => by
    unfold forUint64 at h
    by_cases hi : i ≤ stop
    · rw [if_pos hi] at h
      have hn : stop + 1 - i = (stop + 1 - (i + 1)) + 1 := by omega
      rw [hn, List.range'_succ]
      simp only [runHeights]
      cases hb : body i s with
      | error e => rw [hb] at h; simp at h
      | ok s1 =>
        rw [hb] at h
        simp only at h ⊢
        have hm : (i + 1) % 2 ^ 64 = i + 1 := Nat.mod_eq_of_lt (by omega)
        rw [hm] at h
        exact forUint64_ok body stop hstop fuel (i + 1) s1 s' h
    · rw [if_neg hi] at h
      have hn : stop + 1 - i = 0 := by omega
      rw [hn]
      simp only [Option.some.injEq, Except.ok.injEq] at h
      subst h
      rfl

theorem forUint64_max {σ : Type} (body : Nat → σ → Except Error σ) :
    ∀ (fuel i : Nat) (s s' : σ), i < 2 ^ 64 →
      forUint64 body fuel i (2 ^ 64 - 1) s ≠ some (Except.ok s')
  | 0, i, s, s', _ => by simp [forUint64]
  | fuel + 1, i, s, s', hi => by
    unfold forUint64
    rw [if_pos (by omega)]
    cases hb : body i s with
    | error e => simp
    | ok s1 =>
      simp only
      exact forUint64_max body fuel ((i + 1) % 2 ^ 64) s1 s' (Nat.mod_lt _ (by norm_num))

theorem windowStart_lt (height RelayInterval : Nat) :
    windowStart height RelayInterval < 2 ^ 64 := by
  unfold windowStart
  exact Nat.mod_lt _ (by norm_num)

theorem runHeights_window (fetch : Nat → Except Error (List Transaction)) :
    ∀ (hs : List Nat) (s s' : RecentTxs),
      runHeights (fun i s =>
          match fetch i with
          | Except.error e => Except.error e
          | Except.ok txs => addBlockTxs 0 txs s) hs s = Except.ok s' →
      ∃ window, List.Forall₂ (fun h txs => fetch h = Except.ok txs) hs window ∧
        aggregateWindow window s = Except.ok s'
  | [], s, s', h => by
    simp only [runHeights, Except.ok.injEq] at h
    subst h
    exact ⟨[], List.Forall₂.nil, rfl⟩
  | x :: hs, s, s', h => by
    simp only [runHeights] at h
    cases hf : fetch x with
    | error e => rw [hf] at h; simp at h
    | ok txs =>
      rw [hf] at h
      simp only at h
      cases hb : addBlockTxs 0 txs s with
      | error e => rw [hb] at h; simp at h
      | ok s1 =>
        rw [hb] at h
        simp only at h
        obtain ⟨window, hw, ha⟩ := runHeights_window fetch hs s1 s' h
        refine ⟨txs :: window, List.Forall₂.cons hf hw, ?_⟩
        simp only [aggregateWindow, hb]
        exact ha

theorem producer_aggregate_eq (RelayInterval : Nat)
    (GetBlockByHeight : Nat → Except Error Block) (fuel : Nat) (task : Task) :
    getRecentTxHashStem.aggregate RelayInterval GetBlockByHeight fuel task
      = forUint64 (fun i s =>
          match producerFetch GetBlockByHeight task i with
          | Except.error e => Except.error e
          | Except.ok txs => addBlockTxs 0 txs s)
        fuel (windowStart task.header.Height RelayInterval) task.header.Height
        RecentTxs.init := by
  unfold getRecentTxHashStem.aggregate
  simp only
  congr 1
  funext i s
  unfold producerFetch
  by_cases hi : i ≠ task.header.Height
  · rw [if_pos hi, if_pos hi]
    cases GetBlockByHeight i <;> rfl
  · rw [if_neg hi, if_neg hi]

theorem consumer_aggregate_eq (RelayInterval : Nat)
    (GetBlockByHeight : Nat → Except Error Block) (fuel : Nat) (height : Nat) :
    GetRecentTxMerkleInfo.aggregate RelayInterval GetBlockByHeight fuel height
      = forUint64 (fun i s =>
          match consumerFetch GetBlockByHeight i with
          | Except.error e => Except.error e
          | Except.ok txs => addBlockTxs 0 txs s)
        fuel (windowStart height RelayInterval) height RecentTxs.init := by
  unfold GetRecentTxMerkleInfo.aggregate
  simp only
  congr 1
  funext i s
  unfold consumerFetch
  cases GetBlockByHeight i <;> rfl

theorem aggregate_window {fetch : Nat → Except Error (List Transaction)}
    (height RelayInterval fuel : Nat) (s : RecentTxs) (hh : height < 2 ^ 64)
    (h : forUint64 (fun i s =>
          match fetch i with
          | Except.error e => Except.error e
          | Except.ok txs => addBlockTxs 0 txs s)
        fuel (windowStart height RelayInterval) height RecentTxs.init = some (Except.ok s)) :
    ∃ window, List.Forall₂ (fun h txs => fetch h = Except.ok txs)
        (windowHeights height RelayInterval) window ∧
      aggregateWindow window RecentTxs.init = Except.ok s ∧ AggregationSpec s window := by
  by_cases hmax : height = 2 ^ 64 - 1
  · subst hmax
    exact absurd h (forUint64_max _ _ _ _ _ (windowStart_lt _ _))
  · have hr := forUint64_ok _ height (by omega) _ _ _ _ h
    obtain ⟨window, hw, ha⟩ := runHeights_window fetch _ _ _ hr
    exact ⟨window, hw, ha, aggregateWindow_spec window s ha⟩

/-- **C9.** In the aggregation of `getRecentTxHashStem` and of `GetRecentTxMerkleInfo`, for every
window of blocks: every index stored in the account-to-index map is a valid position of
`accTxs`, and the entry of each account is exactly the sequence, in block order then
transaction order, of `encode(from, to, amount, nonce, gas_price, gas_limit)` over the
non-reward transactions that have the account as `From` or as `To`, each contributing once
(also a self-transfer); an account outside the map touches no transaction of the window.
Whenever either function finishes its window loop, the state it holds is this aggregation of
the blocks of the heights `height - RelayInterval + 1 .. height` (the producer taking the
task's own transactions at its height), and with fuel above the length of the window the loop
does finish unless the height is `2 ^ 64 - 1`. -/
theorem recentTx_aggregation (RelayInterval : Nat)
    (GetBlockByHeight : Nat → Except Error Block) (fuel : Nat) (task : Task) (height : Nat)
    (s : RecentTxs) :
    (∀ window, aggregateWindow window RecentTxs.init = Except.ok s →
      AggregationSpec s window) ∧
    (task.header.Height < 2 ^ 64 →
      getRecentTxHashStem.aggregate RelayInterval GetBlockByHeight fuel task
        = some (Except.ok s) →
      ∃ window,
        List.Forall₂ (fun h txs => producerFetch GetBlockByHeight task h = Except.ok txs)
          (windowHeights task.header.Height RelayInterval) window ∧
        aggregateWindow window RecentTxs.init = Except.ok s ∧ AggregationSpec s window) ∧
    (height < 2 ^ 64 →
      GetRecentTxMerkleInfo.aggregate RelayInterval GetBlockByHeight fuel height
        = some (Except.ok s) →
      ∃ window,
        List.Forall₂ (fun h txs => consumerFetch GetBlockByHeight h = Except.ok txs)
          (windowHeights height RelayInterval) window ∧
        aggregateWindow window RecentTxs.init = Except.ok s ∧ AggregationSpec s window) ∧
    (task.header.Height < 2 ^ 64 - 1 →
      (windowHeights task.header.Height RelayInterval).length < fuel →
      (getRecentTxHashStem.aggregate RelayInterval GetBlockByHeight fuel task).isSome = true) ∧
    (height < 2 ^ 64 - 1 →
      (windowHeights height RelayInterval).length < fuel →
      (GetRecentTxMerkleInfo.aggregate RelayInterval GetBlockByHeight fuel height).isSome
        = true) := by
  refine ⟨fun window h => aggregateWindow_spec window s h, ?_, ?_, ?_, ?_⟩
  · intro hh h
    rw [producer_aggregate_eq] at h
    exact aggregate_window _ _ _ s hh h
  · intro hh h
    rw [consumer_aggregate_eq] at h
    exact aggregate_window _ _ _ s hh h
  · intro hh hf
    simp only [windowHeights, List.length_range'] at hf
    rw [producer_aggregate_eq, forUint64_eq _ _ hh _ _ _ hf]
    rfl
  · intro hh hf
    simp only [windowHeights, List.length_range'] at hf
    rw [consumer_aggregate_eq, forUint64_eq _ _ hh _ _ _ hf]
    rfl

theorem recentTx_aggregation_witness :
    windowHeights 7 1 = [7] ∧
    sampleRecent.accTxs
      = [{ Txs := [dataForStemBytes (sampleTx 1 2 5 (stemPayload 7)),
                   dataForStemBytes (sampleTx 1 1 6 (stemPayload 8))] },
         { Txs := [dataForStemBytes (sampleTx 1 2 5 (stemPayload 7))] }] ∧
    sampleRecent.accountToIndexMap.lookup (sampleAddress 1) = some 0 ∧
    sampleRecent.accountToIndexMap.lookup (sampleAddress 2) = some 1 ∧
    ∃ window,
      List.Forall₂ (fun h txs => producerFetch noBlocks (taskAtHeight 7 txsABA) h
        = Except.ok txs) (windowHeights (taskAtHeight 7 txsABA).header.Height 1) window ∧
      aggregateWindow window RecentTxs.init = Except.ok sampleRecent ∧
      AggregationSpec sampleRecent window :=
  ⟨by decide, by decide, by decide, by decide,
    (recentTx_aggregation 1 noBlocks 2 (taskAtHeight 7 txsABA) 7 sampleRecent).2.1
      (by decide) rfl⟩

/-! ## The state leaves of the proof service -/

theorem GetBalanceMerkleInfo_level_eq (c : Collaborators) (statedb : StateSnapshot)
    (db : Database) :
    ∀ (n i : Nat) (level : List Hash),
      GetBalanceMerkleInfo.level c statedb db n i level
        = stemStateLoop c statedb.toStatedb db n i level
  | 0, i, level => rfl
  | n + 1, i, level => by
    unfold GetBalanceMerkleInfo.level stemStateLoop
    simp only
    cases db.Get (encodeUint i) with
    | error e => rfl
    | ok accountBytes =>
      simp only
      exact GetBalanceMerkleInfo_level_eq c statedb db n (i + 1) _

/-- **C11.** For the same index store, the same state snapshot and the same account count, the
leaf loop of `GetBalanceMerkleInfo` and the state loop of `getStemHashes` give the same result,
the same leaf vector element by element or the same error; hence after every successful run of
`getStemHashes` the proof service, run over the store and the count that run leaves, rebuilds
a leaf vector whose Merkle root is the `state_hash_stem` of that run. -/
theorem balance_leaves_eq_stem_leaves (c : Collaborators) (statedb : StateSnapshot)
    (task : Task) (store : IndexStore) (accountCount : Nat) :
    GetBalanceMerkleInfo.level c statedb store.indexAccountDB accountCount 0 []
      = stemStateLoop c statedb.toStatedb store.indexAccountDB accountCount 0 [] ∧
    (∀ (h1 h2 : Hash) (task' : Task) (store' : IndexStore),
      getStemHashes c statedb.toStatedb task store = (Except.ok (h1, h2), task', store') →
      ∃ level, GetBalanceMerkleInfo.level c statedb store'.indexAccountDB task'.accountCount 0 []
          = Except.ok level ∧
        h2 = c.GetBinaryMerkleRoot level) := by
  refine ⟨GetBalanceMerkleInfo_level_eq c statedb _ _ _ _, ?_⟩
  intro h1 h2 task' store' h
  unfold getStemHashes at h
  rcases hl : stemTxLoop c 0 task.txs [] task.accountCount store with ⟨res, cnt, st⟩
  rw [hl] at h
  cases res with
  | error e => simp at h
  | ok level =>
    simp only at h
    cases hs : stemStateLoop c statedb.toStatedb st.indexAccountDB cnt 0 [] with
    | error e => rw [hs] at h; simp at h
    | ok level2 =>
      rw [hs] at h
      simp only [Prod.mk.injEq, Except.ok.injEq] at h
      obtain ⟨⟨_, h2e⟩, ht, hst⟩ := h
      subst ht hst
      refine ⟨level2, ?_, h2e.symm⟩
      rw [GetBalanceMerkleInfo_level_eq]
      exact hs

theorem balance_leaves_eq_stem_leaves_witness :
    getStemHashes sampleCollaborators (sampleSnapshot 7).toStatedb (sampleTask txsAB 0) emptyStore
      = (Except.ok (sampleCollaborators.GetBinaryMerkleRoot [sampleHash 7],
          sampleCollaborators.GetBinaryMerkleRoot
            [specStateLeaf sampleCollaborators (sampleSnapshot 7).toStatedb (sampleAddress 1),
             specStateLeaf sampleCollaborators (sampleSnapshot 7).toStatedb (sampleAddress 2)]),
         { sampleTask txsAB 0 with accountCount := 2 }, sampleAssemblyStore) ∧
    ∃ level, GetBalanceMerkleInfo.level sampleCollaborators (sampleSnapshot 7)
        sampleAssemblyStore.indexAccountDB 2 0 [] = Except.ok level ∧
      sampleCollaborators.GetBinaryMerkleRoot
          [specStateLeaf sampleCollaborators (sampleSnapshot 7).toStatedb (sampleAddress 1),
           specStateLeaf sampleCollaborators (sampleSnapshot 7).toStatedb (sampleAddress 2)]
        = sampleCollaborators.GetBinaryMerkleRoot level :=
  ⟨rfl, (balance_leaves_eq_stem_leaves sampleCollaborators (sampleSnapshot 7)
    (sampleTask txsAB 0) emptyStore 0).2 _ _ _ _ rfl⟩

/-! ## The rejection of `GetBalanceMerkleInfo` -/

theorem GetBalanceMerkleInfo_of_index_ge (c : Collaborators) (BftExtraVanity : Nat)
    (b : Backend) (account : Address) (height : Int) (statedb : StateSnapshot)
    (indexBytes : Bytes) (index : Nat) (block : Block) (swExtra : SecondWitnessInfo)
    (hs : (if height < 0 then b.GetCurrentState else GetStatedbByHeight b (toUint64 height))
      = Except.ok statedb)
    (hi : b.GetAccountIndexDB.Get account.val = Except.ok indexBytes)
    (hd : decodeBytesUint64 indexBytes = Except.ok index)
    (hb : b.GetBlock height = Except.ok block)
    (he : ExtractSecondWitnessInfo BftExtraVanity block.Header = Except.ok swExtra)
    (hge : index ≥ swExtra.AccountCount) :
    GetBalanceMerkleInfo c BftExtraVanity b account height = Except.ok none := by
  unfold GetBalanceMerkleInfo
  rw [hs]
  simp only [hi, hd, hb, he, hge, if_true]

/-- **C12, failing input.** In the sample chain address 1 holds index 0 in the index store and
the block at height 0 records an account count of 0, so the index is not below the count: the
call for address 1 at height 0 returns the `nil` map together with a `nil` error
(`Except.ok none`), not an error. -/
theorem GetBalanceMerkleInfo_nil_error_above_count :
    sampleBackend.GetAccountIndexDB.Get (sampleAddress 1).val = Except.ok (encodeUint 0) ∧
    decodeBytesUint64 (encodeUint 0) = Except.ok 0 ∧
    (match ExtractSecondWitnessInfo 32 (sampleChainBlock 0).Header with
      | Except.ok swExtra => some swExtra.AccountCount
      | Except.error _ => none) = some 0 ∧
    GetBalanceMerkleInfo sampleCollaborators 32 sampleBackend (sampleAddress 1) 0
      = Except.ok none := by
  refine ⟨by decide, by decide, by decide, by decide⟩

/-! ## The block info of the proof service -/

theorem GetBlockInfoForStem_of_header_height (BftExtraVanity : Nat) (b : Backend)
    (height : Int) (block : Block) (swExtra : SecondWitnessInfo)
    (hb : b.GetBlock height = Except.ok block)
    (he : ExtractSecondWitnessInfo BftExtraVanity block.Header = Except.ok swExtra)
    (hh : toUint64 height = block.Header.Height) :
    GetBlockInfoForStem BftExtraVanity b height
      = Except.ok (encodeBlockInfo block.Header.Creator block.Header.Height
          swExtra.TxHashStem swExtra.StateHashStem) := by
  unfold GetBlockInfoForStem encodeBlockInfo
  rw [hb]
  simp only [he, hh]

/-- **C14, failing input.** The current block of the sample chain was assembled at height 7
and its `block_sig` signs the hash of `encode(creator, 7, tx_hash_stem, state_hash_stem)`.
Asked with the height argument `-1`, for which the backend returns this block,
`GetBlockInfoForStem` encodes `uint64(-1) = 2 ^ 64 - 1` in place of the header's height, so the
bytes it returns differ from the signed ones. -/
theorem GetBlockInfoForStem_encodes_argument :
    sampleBackend.GetBlock (-1) = Except.ok assembledBlock ∧
    assembledBlock.Header.Height = 7 ∧
    ExtractSecondWitnessInfo 32 assembledBlock.Header = Except.ok assembledWitness ∧
    assembledWitness.BlockSig
      = sampleCollaborators.MustSign (sampleCollaborators.MustHash
          (encodeBlockInfo assembledBlock.Header.Creator 7 assembledWitness.TxHashStem
            assembledWitness.StateHashStem)).val ∧
    GetBlockInfoForStem 32 sampleBackend (-1)
      = Except.ok (encodeBlockInfo assembledBlock.Header.Creator (2 ^ 64 - 1)
          assembledWitness.TxHashStem assembledWitness.StateHashStem) ∧
    GetBlockInfoForStem 32 sampleBackend (-1)
      ≠ Except.ok (encodeBlockInfo assembledBlock.Header.Creator assembledBlock.Header.Height
          assembledWitness.TxHashStem assembledWitness.StateHashStem) := by
  refine ⟨by decide, by decide, by decide, by decide, by decide, by decide⟩

/-! ## The balance comparison of `GetUpdatedAccountInfo` -/

/-- **C15, failing input.** In the sample chain with a relay interval of 2 the balance of
address 2 is 100 in the snapshot at height 2 and in the snapshot at height 0, held by two
different `big.Int` objects, and the balance of address 1 changes from 100 to 150. The loop
compares the two pointers, so `GetUpdatedAccountInfo` at height 2 returns both addresses with
the balances 150 and 100, where only address 1 changed in value. -/
theorem GetUpdatedAccountInfo_compares_pointers :
    ((sampleSnapshot 2).GetBalance (sampleAddress 2)).value = 100 ∧
    ((sampleSnapshot 0).GetBalance (sampleAddress 2)).value = 100 ∧
    ((sampleSnapshot 2).GetBalance (sampleAddress 1)).value = 150 ∧
    ((sampleSnapshot 0).GetBalance (sampleAddress 1)).value = 100 ∧
    GetUpdatedAccountInfo 32 2 sampleBackend 2
      = Except.ok { updatedAccounts := encodeAddresses [sampleAddress 1, sampleAddress 2],
                    balances := encodeBalances [(sampleSnapshot 2).GetBalance (sampleAddress 1),
                      (sampleSnapshot 2).GetBalance (sampleAddress 2)] } ∧
    GetUpdatedAccountInfo 32 2 sampleBackend 2
      ≠ Except.ok { updatedAccounts := encodeAddresses [sampleAddress 1],
                    balances := encodeBalances
                      [(sampleSnapshot 2).GetBalance (sampleAddress 1)] } := by
  refine ⟨by decide, by decide, by decide, by decide, by decide, by decide⟩

/-! ## The fee of a relay interval -/

/-- **C16 (amended).** With a positive relay interval: at every height below the interval or
not a multiple of it `GetFee` returns the relay-block error; at every relay height whose two
snapshots can be read and whose block lists `n ≥ 1` verifiers it returns `verNum = n` and the
fee `q` that `big.Int.Div` computes from the balance delta `d` of the fee account, the floor of
`d / n` (`q * n ≤ d < (q + 1) * n`), which is the quotient truncated toward zero whenever `d` is
not negative or is a multiple of `n`. -/
theorem GetFee_floor_division (RelayInterval : Nat) (SubchainFeeAccount : Address)
    (ExtractBftExtra : BlockHeader → Except Error (List Address)) (b : Backend) (height : Nat)
    (curStatedb prevStatedb : StateSnapshot) (block : Block) (verifiers : List Address)
    (hR : 0 < RelayInterval) :
    ((height < RelayInterval ∨ height % RelayInterval ≠ 0) →
      GetFee RelayInterval SubchainFeeAccount ExtractBftExtra b height
        = Except.error Error.mustBeRelayBlock) ∧
    (RelayInterval ≤ height → height % RelayInterval = 0 →
      GetStatedbByHeight b height = Except.ok curStatedb →
      GetStatedbByHeight b (height - RelayInterval) = Except.ok prevStatedb →
      b.GetBlock (toInt64 height) = Except.ok block →
      ExtractBftExtra block.Header = Except.ok verifiers →
      1 ≤ verifiers.length →
      ∃ q : Int,
        GetFee RelayInterval SubchainFeeAccount ExtractBftExtra b height
          = Except.ok { fee := q, verNum := (verifiers.length : Int) } ∧
        q * (verifiers.length : Int)
          ≤ (curStatedb.GetBalance SubchainFeeAccount).value
            - (prevStatedb.GetBalance SubchainFeeAccount).value ∧
        (curStatedb.GetBalance SubchainFeeAccount).value
            - (prevStatedb.GetBalance SubchainFeeAccount).value
          < (q + 1) * (verifiers.length : Int) ∧
        ((0 ≤ (curStatedb.GetBalance SubchainFeeAccount).value
              - (prevStatedb.GetBalance SubchainFeeAccount).value ∨
            (verifiers.length : Int) ∣ (curStatedb.GetBalance SubchainFeeAccount).value
              - (prevStatedb.GetBalance SubchainFeeAccount).value) →
          q = Int.tdiv ((curStatedb.GetBalance SubchainFeeAccount).value
              - (prevStatedb.GetBalance SubchainFeeAccount).value) (verifiers.length : Int))) := by
  constructor
  · intro h
    unfold GetFee
    by_cases hlt : height < RelayInterval
    · rw [if_pos hlt]
    · rw [if_neg hlt, if_neg (Nat.pos_iff_ne_zero.mp hR)]
      rcases h with h | h
      · exact absurd h hlt
      · rw [if_pos h]
  · intro hge hmod hcur hprev hblock hext hn
    have hnpos : (0 : Int) < (verifiers.length : Int) := by exact_mod_cast hn
    have hnne : (verifiers.length : Int) ≠ 0 := ne_of_gt hnpos
    refine ⟨Int.ediv ((curStatedb.GetBalance SubchainFeeAccount).value
      - (prevStatedb.GetBalance SubchainFeeAccount).value) (verifiers.length : Int), ?_, ?_, ?_, ?_⟩
    · unfold GetFee
      rw [if_neg (Nat.not_lt.mpr hge), if_neg (Nat.pos_iff_ne_zero.mp hR),
        if_neg (not_not.mpr hmod)]
      simp only [hcur, hprev, hblock, hext, hnne, if_false]
    · exact Int.ediv_mul_le _ hnne
    · exact Int.lt_ediv_add_one_mul_self _ hnpos
    · intro hd
      rcases hd with hd | hd
      · exact (Int.tdiv_eq_ediv hd (le_of_lt hnpos)).symm
      · obtain ⟨k, hk⟩ := hd
        rw [hk]
        show (verifiers.length : Int) * k / (verifiers.length : Int) = _
        rw [Int.mul_ediv_cancel_left _ hnne, Int.mul_tdiv_cancel_left _ hnne]

theorem GetFee_floor_division_witness :
    ((sampleSnapshot 4).GetBalance (sampleAddress 15)).value
      - ((sampleSnapshot 2).GetBalance (sampleAddress 15)).value = 20 ∧
    ∃ q : Int,
      GetFee 2 (sampleAddress 15) sampleExtractBftExtra sampleBackend 4
        = Except.ok ⟨q, (([sampleAddress 3, sampleAddress 4] : List Address).length : Int)⟩ ∧
      q = Int.tdiv (((sampleSnapshot 4).GetBalance (sampleAddress 15)).value
          - ((sampleSnapshot 2).GetBalance (sampleAddress 15)).value)
        (([sampleAddress 3, sampleAddress 4] : List Address).length : Int) :=
  ⟨by decide,
    match (GetFee_floor_division 2 (sampleAddress 15) sampleExtractBftExtra sampleBackend 4
      (sampleSnapshot 4) (sampleSnapshot 2) (sampleChainBlock 4)
      [sampleAddress 3, sampleAddress 4] (by decide)).2
      (by decide) (by decide) rfl rfl rfl rfl (by decide) with
    | ⟨q, h1, _, _, h4⟩ => ⟨q, h1, h4 (Or.inl (by decide))⟩⟩

/-- **C16, as stated, fails.** In the sample chain with a relay interval of 2 the fee account
holds 107 at height 0 and 100 at height 2, a delta of -7, and the block at height 2 lists two
verifiers: `GetFee` returns the fee -4, while -7 / 2 truncated toward zero is -3. -/
theorem GetFee_negative_delta_floors :
    ((sampleSnapshot 2).GetBalance (sampleAddress 15)).value
      - ((sampleSnapshot 0).GetBalance (sampleAddress 15)).value = -7 ∧
    sampleExtractBftExtra (sampleChainBlock 2).Header
      = Except.ok [sampleAddress 3, sampleAddress 4] ∧
    GetFee 2 (sampleAddress 15) sampleExtractBftExtra sampleBackend 2
      = Except.ok { fee := -4, verNum := 2 } ∧
    Int.tdiv (-7) 2 = -3 := by
  refine ⟨by decide, by decide, by decide, by decide⟩

/-! ## The rank of an account in the recent-transaction window -/

theorem firstAppearances_snoc :
    ∀ (l seen : List Address) (a : Address),
      firstAppearances seen (l ++ [a])
        = firstAppearances seen l ++ (if a ∈ seen ∨ a ∈ l then [] else [a])
  | [], seen, a => by
    simp only [List.nil_append, firstAppearances, List.not_mem_nil, or_false]
  | b :: l, seen, a => by
    simp only [List.cons_append]
    unfold firstAppearances
    by_cases hb : b ∈ seen
    · rw [if_pos hb, if_pos hb, firstAppearances_snoc l seen a]
      congr 1
      by_cases h1 : a ∈ seen
      · simp [h1]
      · by_cases h2 : a ∈ l
        · simp [h2]
        · have hab : a ≠ b := fun h => h1 (h ▸ hb)
          simp [h1, h2, hab]
    · rw [if_neg hb, if_neg hb, firstAppearances_snoc l (b :: seen) a]
      simp only [List.cons_append]
      congr 2
      by_cases h1 : a = b
      · simp [h1]
      · by_cases h2 : a ∈ seen
        · simp [h2]
        · by_cases h3 : a ∈ l
          · simp [h3]
          · simp [h1, h2, h3]

theorem firstAppearances_nil_snoc (l : List Address) (a : Address) :
    firstAppearances [] (l ++ [a]) = appendNew (firstAppearances [] l) a := by
  rw [firstAppearances_snoc]
  unfold appendNew
  have hm : a ∈ firstAppearances [] l ↔ a ∈ l := by
    rw [mem_firstAppearances]; simp
  by_cases h : a ∈ l
  · simp [h, hm.mpr h]
  · have h' : a ∉ firstAppearances [] l := fun x => h (hm.mp x)
    simp [h, h']

theorem accountsOf_append :
    ∀ (xs ys : List Transaction), accountsOf (xs ++ ys) = accountsOf xs ++ accountsOf ys
  | [], ys => rfl
  | x :: xs, ys => by
    show accountsOf (x :: (xs ++ ys)) = _
    simp only [accountsOf, accountsOf_append xs ys, List.cons_append]

theorem mem_accountsOf (a : Address) :
    ∀ (txs : List Transaction), a ∈ accountsOf txs ↔ ∃ tx ∈ txs, touches a tx = true
  | [] => by simp [accountsOf]
  | tx :: txs => by
    simp only [accountsOf, List.mem_cons, mem_accountsOf a txs, touches, Bool.or_eq_true,
      decide_eq_true_eq, exists_eq_or_imp]
    constructor
    · rintro (h | h | h)
      · exact Or.inl (Or.inl h.symm)
      · exact Or.inl (Or.inr h.symm)
      · exact Or.inr h
    · rintro ((h | h) | h)
      · exact Or.inl h.symm
      · exact Or.inr (Or.inl h.symm)
      · exact Or.inr (Or.inr h)

theorem ranked_init : Ranked RecentTxs.init [] := by
  refine ⟨rfl, ?_⟩
  intro a
  simp [RecentTxs.init]

theorem addAccountTx_ranked (a : Address) (d : Bytes) (s s' : RecentTxs)
    (order : List Address) (hr : Ranked s order) (h : addAccountTx a d s = Except.ok s') :
    Ranked s' (appendNew order a) := by
  obtain ⟨hlen, hlook⟩ := hr
  unfold addAccountTx at h
  cases hl : s.accountToIndexMap.lookup a with
  | some index =>
    rw [hl] at h
    simp only at h
    have ha : a ∈ order := by
      by_contra hn
      have := hlook a
      rw [hl, if_neg hn] at this
      exact absurd this (by simp)
    cases hg : s.accTxs[index]? with
    | none => rw [hg] at h; simp at h
    | some entry =>
      rw [hg] at h
      simp only [Except.ok.injEq] at h
      subst h
      unfold appendNew
      rw [if_pos ha]
      exact ⟨hlen, hlook⟩
  | none =>
    rw [hl] at h
    simp only [Except.ok.injEq] at h
    subst h
    have ha : a ∉ order := by
      intro hn
      have := hlook a
      rw [hl, if_pos hn] at this
      exact absurd this (by simp)
    unfold appendNew
    rw [if_neg ha]
    refine ⟨?_, ?_⟩
    · simp only [List.length_append, List.length_singleton]
      rw [accountMap_keys_length_insert _ _ _ hl, hlen]
    · intro x
      simp only
      by_cases hx : x = a
      · subst hx
        rw [AList.lookup_insert, hlen]
        have : x ∈ order ++ [x] := by simp
        rw [if_pos this, List.indexOf_append_of_not_mem ha]
        simp
      · rw [AList.lookup_insert_ne hx, hlook x]
        by_cases hxo : x ∈ order
        · have : x ∈ order ++ [a] := List.mem_append_left _ hxo
          rw [if_pos hxo, if_pos this, List.indexOf_append_of_mem hxo]
        · have : x ∉ order ++ [a] := by simp [hxo, hx]
          rw [if_neg hxo, if_neg this]

theorem appendNew_self (order : List Address) (a : Address) :
    appendNew (appendNew order a) a = appendNew order a := by
  unfold appendNew
  by_cases h : a ∈ order
  · simp [h]
  · simp [h]

theorem addTx_ranked (tx : Transaction) (s s' : RecentTxs) (order : List Address)
    (hr : Ranked s order) (h : addTx tx s = Except.ok s') :
    Ranked s' (appendNew (appendNew order tx.Data.From) tx.Data.To) := by
  unfold addTx at h
  cases hd : encodeDataForStem tx with
  | error e => rw [hd] at h; simp at h
  | ok d =>
    rw [hd] at h
    simp only at h
    cases h1 : addAccountTx tx.Data.From d s with
    | error e => rw [h1] at h; simp at h
    | ok s1 =>
      rw [h1] at h
      simp only at h
      have hr1 := addAccountTx_ranked _ _ _ _ _ hr h1
      by_cases hft : tx.Data.From = tx.Data.To
      · rw [if_neg (by simpa using hft)] at h
        simp only [Except.ok.injEq] at h
        subst h
        rw [← hft, appendNew_self]
        exact hr1
      · rw [if_pos (by simpa using hft)] at h
        exact addAccountTx_ranked _ _ _ _ _ hr1 h

theorem addBlockTxs_ranked :
    ∀ (txs : List Transaction) (k : Nat) (s s' : RecentTxs) (seen : List Transaction),
      Ranked s (firstAppearances [] (accountsOf seen)) →
      addBlockTxs (k + 1) txs s = Except.ok s' →
      Ranked s' (firstAppearances [] (accountsOf (seen ++ txs)))
  | [], k, s, s', seen, hr, h => by
    simp only [addBlockTxs, Except.ok.injEq] at h
    subst h
    simpa using hr
  | tx :: txs, k, s, s', seen, hr, h => by
    unfold addBlockTxs at h
    rw [if_neg (Nat.add_one_ne_zero k)] at h
    cases h1 : addTx tx s with
    | error e => rw [h1] at h; simp at h
    | ok s1 =>
      rw [h1] at h
      simp only at h
      have hr1 := addTx_ranked tx s s1 _ hr h1
      have he : firstAppearances [] (accountsOf (seen ++ [tx]))
          = appendNew (appendNew (firstAppearances [] (accountsOf seen)) tx.Data.From)
              tx.Data.To := by
        rw [accountsOf_append]
        show firstAppearances [] (accountsOf seen ++ [tx.Data.From, tx.Data.To]) = _
        have : accountsOf seen ++ [tx.Data.From, tx.Data.To]
            = (accountsOf seen ++ [tx.Data.From]) ++ [tx.Data.To] := by simp
        rw [this, firstAppearances_nil_snoc, firstAppearances_nil_snoc]
      rw [← he] at hr1
      have := addBlockTxs_ranked txs (k + 1) s1 s' (seen ++ [tx]) hr1 h
      simpa using this

theorem aggregateWindow_ranked :
    ∀ (window : List (List Transaction)) (s s' : RecentTxs) (seen : List Transaction),
      Ranked s (firstAppearances [] (accountsOf seen)) →
      aggregateWindow window s = Except.ok s' →
      Ranked s' (firstAppearances [] (accountsOf (seen ++ windowTxs window)))
  | [], s, s', seen, hr, h => by
    simp only [aggregateWindow, Except.ok.injEq] at h
    subst h
    simpa [windowTxs] using hr
  | txs :: rest, s, s', seen, hr, h => by
    unfold aggregateWindow at h
    cases h1 : addBlockTxs 0 txs s with
    | error e => rw [h1] at h; simp at h
    | ok s1 =>
      rw [h1] at h
      simp only at h
      rw [addBlockTxs_zero] at h1
      have hr1 := addBlockTxs_ranked (txs.drop 1) 0 s s1 seen hr h1
      have := aggregateWindow_ranked rest s1 s' (seen ++ txs.drop 1) hr1 h
      simpa [windowTxs, List.append_assoc] using this

theorem addBlockTxs_total :
    ∀ (txs : List Transaction) (k : Nat) (s : RecentTxs) (seen : List Transaction),
      Represents s (fun a => (seen.filter (touches a)).map dataForStemBytes) →
      (∀ tx ∈ txs, ∃ d, encodeDataForStem tx = Except.ok d) →
      ∃ s', addBlockTxs (k + 1) txs s = Except.ok s'
  | [], k, s, seen, _, _ => ⟨s, rfl⟩
  | tx :: txs, k, s, seen, hr, henc => by
    obtain ⟨d, hd⟩ := henc tx (List.mem_cons_self _ _)
    obtain ⟨s1, hs1, _⟩ := addTx_represents tx d s _ hr hd
    have hone : addBlockTxs (k + 1) [tx] s = Except.ok s1 := by
      unfold addBlockTxs
      rw [if_neg (Nat.add_one_ne_zero k), hs1]
      rfl
    have hr1 := (addBlockTxs_represents [tx] k s s1 seen hr hone).1
    obtain ⟨s', hs'⟩ := addBlockTxs_total txs (k + 1) s1 (seen ++ [tx]) hr1
      (fun t ht => henc t (List.mem_cons_of_mem _ ht))
    refine ⟨s', ?_⟩
    unfold addBlockTxs
    rw [if_neg (Nat.add_one_ne_zero k), hs1]
    exact hs'

theorem aggregateWindow_total :
    ∀ (window : List (List Transaction)) (s : RecentTxs) (seen : List Transaction),
      Represents s (fun a => (seen.filter (touches a)).map dataForStemBytes) →
      (∀ tx ∈ windowTxs window, ∃ d, encodeDataForStem tx = Except.ok d) →
      ∃ s', aggregateWindow window s = Except.ok s'
  | [], s, seen, _, _ => ⟨s, rfl⟩
  | txs :: rest, s, seen, hr, henc => by
    have henc1 : ∀ tx ∈ txs.drop 1, ∃ d, encodeDataForStem tx = Except.ok d := by
      intro tx ht
      exact henc tx (by simp only [windowTxs, List.mem_append]; exact Or.inl ht)
    obtain ⟨s1, hs1⟩ := addBlockTxs_total (txs.drop 1) 0 s seen hr henc1
    have hr1 := (addBlockTxs_represents (txs.drop 1) 0 s s1 seen hr hs1).1
    obtain ⟨s', hs'⟩ := aggregateWindow_total rest s1 (seen ++ txs.drop 1) hr1
      (fun tx ht => henc tx (by simp only [windowTxs, List.mem_append]; exact Or.inr ht))
    refine ⟨s', ?_⟩
    unfold aggregateWindow
    rw [addBlockTxs_zero, hs1]
    exact hs'

theorem runHeights_of_window (body : Nat → RecentTxs → Except Error RecentTxs)
    (fetch : Nat → Except Error (List Transaction))
    (hbody : ∀ i s txs, fetch i = Except.ok txs → body i s = addBlockTxs 0 txs s) :
    ∀ (hs : List Nat) (window : List (List Transaction)) (s : RecentTxs),
      List.Forall₂ (fun h txs => fetch h = Except.ok txs) hs window →
      runHeights body hs s = aggregateWindow window s
  | _, _, s, List.Forall₂.nil => rfl
  | h :: hs, txs :: window, s, List.Forall₂.cons hf hw => by
    simp only [runHeights, aggregateWindow, hbody h s txs hf]
    cases addBlockTxs 0 txs s with
    | error e => rfl
    | ok s1 => exact runHeights_of_window body fetch hbody hs window s1 hw

theorem windowStart_eq (height RelayInterval : Nat) (hR : RelayInterval ≤ height + 1)
    (hh : height < 2 ^ 64 - 1) :
    windowStart height RelayInterval = height + 1 - RelayInterval := by
  unfold windowStart
  have h1 : RelayInterval % 2 ^ 64 = RelayInterval := Nat.mod_eq_of_lt (by omega)
  rw [h1]
  omega

theorem encodeDataForStem_of_nonneg (tx : Transaction) (ha : 0 ≤ tx.Data.Amount)
    (hg : 0 ≤ tx.Data.GasPrice) : ∃ d, encodeDataForStem tx = Except.ok d := by
  unfold encodeDataForStem encodeBigInt
  rw [if_neg (by omega), if_neg (by omega)]
  exact ⟨_, rfl⟩

theorem mem_windowOrder (a : Address) (window : List (List Transaction)) :
    a ∈ windowOrder window ↔ ∃ tx ∈ windowTxs window, touches a tx = true := by
  unfold windowOrder
  rw [mem_firstAppearances, mem_accountsOf]
  simp

theorem GetRecentTxMerkleInfo_max_height (c : Collaborators) (RelayInterval : Nat)
    (GetBlockByHeight : Nat → Except Error Block) (fuel : Nat) (account : Address)
    (info : MerkleInfo) :
    GetRecentTxMerkleInfo c RelayInterval GetBlockByHeight fuel account (2 ^ 64 - 1)
      ≠ some (Except.ok info) := by
  intro h
  unfold GetRecentTxMerkleInfo at h
  cases ha : GetRecentTxMerkleInfo.aggregate RelayInterval GetBlockByHeight fuel (2 ^ 64 - 1) with
  | none => rw [ha] at h; simp at h
  | some r =>
    cases r with
    | error e => rw [ha] at h; simp at h
    | ok s =>
      rw [consumer_aggregate_eq] at ha
      exact forUint64_max _ _ _ _ _ (windowStart_lt _ _) ha

/-- **C13 (amended).** For every address and every height `h` with `R - 1 ≤ h < 2 ^ 64 - 1`
such that every block of the heights `h - R + 1 .. h` is read from the chain store and every
non-reward transaction of these blocks has a non-negative amount and gas price (so that its
summary encodes), `GetRecentTxMerkleInfo`, given fuel above `R`, returns the NotFound error
exactly when the address is neither the `From` nor the `To` of any non-reward transaction of
the window, and otherwise succeeds and reports as merkle index the rank, counted from 0, of the
address in the first-appearance order of the window. -/
theorem GetRecentTxMerkleInfo_rank (c : Collaborators) (RelayInterval : Nat)
    (GetBlockByHeight : Nat → Except Error Block) (fuel : Nat) (account : Address)
    (height : Nat) (window : List (List Transaction))
    (hR : RelayInterval ≤ height + 1) (hh : height < 2 ^ 64 - 1) (hfuel : RelayInterval < fuel)
    (hw : List.Forall₂ (fun h txs => consumerFetch GetBlockByHeight h = Except.ok txs)
      (List.range' (height + 1 - RelayInterval) RelayInterval) window)
    (henc : ∀ tx ∈ windowTxs window, 0 ≤ tx.Data.Amount ∧ 0 ≤ tx.Data.GasPrice) :
    (GetRecentTxMerkleInfo c RelayInterval GetBlockByHeight fuel account height
        = some (Except.error Error.notFound)
      ↔ ∀ tx ∈ windowTxs window, touches account tx = false) ∧
    ((∃ tx ∈ windowTxs window, touches account tx = true) →
      ∃ index proof, specRank account window = some index ∧
        GetRecentTxMerkleInfo c RelayInterval GetBlockByHeight fuel account height
          = some (Except.ok { index := index, proof := proof })) := by
  have henc' : ∀ tx ∈ windowTxs window, ∃ d, encodeDataForStem tx = Except.ok d :=
    fun tx ht => encodeDataForStem_of_nonneg tx (henc tx ht).1 (henc tx ht).2
  obtain ⟨s, hs⟩ := aggregateWindow_total window RecentTxs.init []
    (by simpa using represents_init) henc'
  have hrank : Ranked s (windowOrder window) := by
    have := aggregateWindow_ranked window RecentTxs.init s []
      (by simpa [accountsOf, firstAppearances] using ranked_init) hs
    simpa [windowOrder] using this
  have hstart := windowStart_eq height RelayInterval hR hh
  have hagg : GetRecentTxMerkleInfo.aggregate RelayInterval GetBlockByHeight fuel height
      = some (Except.ok s) := by
    rw [consumer_aggregate_eq, forUint64_eq _ _ hh _ _ _ (by rw [hstart]; omega), hstart]
    have hlen : height + 1 - (height + 1 - RelayInterval) = RelayInterval := by omega
    rw [hlen, runHeights_of_window _ (consumerFetch GetBlockByHeight)
      (fun i s txs h => by simp only [h]) _ _ _ hw]
    exact congrArg some hs
  have hlook := hrank.2 account
  by_cases hmem : account ∈ windowOrder window
  · rw [if_pos hmem] at hlook
    have hres : GetRecentTxMerkleInfo c RelayInterval GetBlockByHeight fuel account height
        = some (Except.ok ⟨(windowOrder window).indexOf account,
            encodeHashes (c.GetMerkleProof (consumerLevel c s.accTxs)
              (toInt64 ((windowOrder window).indexOf account)))⟩) := by
      unfold GetRecentTxMerkleInfo
      rw [hagg]
      simp only [hlook]
    rw [hres]
    have hex := (mem_windowOrder account window).mp hmem
    refine ⟨?_, ?_⟩
    · constructor
      · intro h; simp at h
      · intro h
        obtain ⟨tx, ht, htt⟩ := hex
        rw [h tx ht] at htt
        exact absurd htt (by simp)
    · intro _
      exact ⟨_, _, by unfold specRank; rw [if_pos hmem], rfl⟩
  · rw [if_neg hmem] at hlook
    have hres : GetRecentTxMerkleInfo c RelayInterval GetBlockByHeight fuel account height
        = some (Except.error Error.notFound) := by
      unfold GetRecentTxMerkleInfo
      rw [hagg]
      simp only [hlook]
    rw [hres]
    have hnone : ∀ tx ∈ windowTxs window, touches account tx = false := by
      intro tx ht
      cases htt : touches account tx with
      | false => rfl
      | true => exact absurd ((mem_windowOrder account window).mpr ⟨tx, ht, htt⟩) hmem
    refine ⟨⟨fun _ => hnone, fun _ => rfl⟩, ?_⟩
    rintro ⟨tx, ht, htt⟩
    rw [hnone tx ht] at htt
    exact absurd htt (by simp)

theorem GetRecentTxMerkleInfo_rank_witness :
    specRank (sampleAddress 2) [txsABA, txsABA] = some 1 ∧
    GetRecentTxMerkleInfo sampleCollaborators 2 (uniformChain txsABA) 3 (sampleAddress 3) 7
      = some (Except.error Error.notFound) ∧
    ∃ index proof, specRank (sampleAddress 2) [txsABA, txsABA] = some index ∧
      GetRecentTxMerkleInfo sampleCollaborators 2 (uniformChain txsABA) 3 (sampleAddress 2) 7
        = some (Except.ok { index := index, proof := proof }) :=
  ⟨by decide,
    (GetRecentTxMerkleInfo_rank sampleCollaborators 2 (uniformChain txsABA) 3 (sampleAddress 3)
      7 [txsABA, txsABA] (by decide) (by decide) (by decide)
      (List.Forall₂.cons rfl (List.Forall₂.cons rfl List.Forall₂.nil)) (by decide)).1.mpr
      (by decide),
    (GetRecentTxMerkleInfo_rank sampleCollaborators 2 (uniformChain txsABA) 3 (sampleAddress 2)
      7 [txsABA, txsABA] (by decide) (by decide) (by decide)
      (List.Forall₂.cons rfl (List.Forall₂.cons rfl List.Forall₂.nil)) (by decide)).2
      ⟨sampleTx 1 2 5 (stemPayload 7), by decide, by decide⟩⟩

/-- **C13, as stated, fails.** (1) The sample chain ends at height 7 and address 3 is in no
transaction of it; asked for height 8 with an interval of 2 the function returns the error of
the chain store for the missing block, not NotFound. (2) Over a chain whose every block holds a
transfer from address 1, at height 0 with an interval of 2 the start `0 - 2 + 1` wraps, no
block is read and address 1 is reported NotFound although block 0 holds it. (3) A transfer
with a negative amount does not encode and the encoding error is returned. (4) At height
`2 ^ 64 - 1` the loop counter wraps past the end and five rounds of fuel do not finish a window
of one block. -/
theorem GetRecentTxMerkleInfo_other_errors :
    (consumerFetch sampleBackend.GetBlockByHeight 7 = Except.ok txsAB ∧
      (windowTxs [txsAB]).all (fun tx => !touches (sampleAddress 3) tx) = true ∧
      sampleBackend.GetBlockByHeight 8 = Except.error Error.blockNotFound ∧
      GetRecentTxMerkleInfo sampleCollaborators 2 sampleBackend.GetBlockByHeight 3
          (sampleAddress 3) 8 = some (Except.error Error.blockNotFound)) ∧
    (consumerFetch (uniformChain txsABA) 0 = Except.ok txsABA ∧
      (windowTxs [txsABA]).any (fun tx => touches (sampleAddress 1) tx) = true ∧
      GetRecentTxMerkleInfo sampleCollaborators 2 (uniformChain txsABA) 3 (sampleAddress 1) 0
        = some (Except.error Error.notFound)) ∧
    GetRecentTxMerkleInfo sampleCollaborators 1 negativeChain 3 (sampleAddress 3) 7
      = some (Except.error Error.rlpNegativeBigInt) ∧
    GetRecentTxMerkleInfo sampleCollaborators 1 (uniformChain [rewardTx]) 5 (sampleAddress 3)
      (2 ^ 64 - 1) = none := by
  refine ⟨⟨by decide, by decide, by decide, by decide⟩, ⟨by decide, by decide, by decide⟩,
    by decide, by decide⟩

/-! ## The pre-prepare handler -/

/-- **C17.** For every preprepare that decodes, whose view `checkMessage` accepts, whose
sender is the proposer of the handler's verifier set and whose proposal `Verify` accepts,
`handlePreprepare` returns `nil` and: in `StateAcceptRequest` without a hash lock it stores the
preprepare in the current round, moves to `StatePreprepared` and calls `sendPrepare`; in
`StateAcceptRequest` with a lock on the hash of the proposal it stores the preprepare, moves to
`StatePrepared` and calls `sendCommit`; in `StateAcceptRequest` with a lock on another hash it
stores nothing and calls `sendNextRoundChange`; in every other state it stores nothing, sends
nothing and leaves the state as it is. The only other call recorded is the `Verify` that
accepted the proposal. -/
theorem handlePreprepare_accept {VerSet : Type} (server : Server VerSet)
    (Decode : message → Option Preprepare)
    (checkMessage : core VerSet → View → Option BftError) (now : Nat)
    (c : core VerSet) (msg : message) (src : Verifier) (preprepare : Preprepare)
    (duration : Nat)
    (hd : Decode msg = some preprepare)
    (hc : checkMessage c preprepare.View = none)
    (hp : server.IsProposer c.verSet src.Address = true)
    (hv : server.Verify preprepare.Proposal = (duration, none)) :
    (handlePreprepare server Decode checkMessage now c msg src).1 = none ∧
    (c.state = State.StateAcceptRequest → c.current.IsHashLocked = false →
      (handlePreprepare server Decode checkMessage now c msg src).2
        = { c with
            state := State.StatePreprepared
            current := { c.current with Preprepare := some preprepare }
            consensusTimestamp := now
            calls := c.calls ++ [Call.Verify preprepare.Proposal, Call.sendPrepare] }) ∧
    (c.state = State.StateAcceptRequest → c.current.IsHashLocked = true →
      preprepare.Proposal.Hash = c.current.GetLockedHash →
      (handlePreprepare server Decode checkMessage now c msg src).2
        = { c with
            state := State.StatePrepared
            current := { c.current with Preprepare := some preprepare }
            consensusTimestamp := now
            calls := c.calls ++ [Call.Verify preprepare.Proposal, Call.sendCommit] }) ∧
    (c.state = State.StateAcceptRequest → c.current.IsHashLocked = true →
      preprepare.Proposal.Hash ≠ c.current.GetLockedHash →
      (handlePreprepare server Decode checkMessage now c msg src).2
        = { c with
            calls := c.calls ++ [Call.Verify preprepare.Proposal, Call.sendNextRoundChange] }) ∧
    (c.state ≠ State.StateAcceptRequest →
      (handlePreprepare server Decode checkMessage now c msg src).2
        = { c with calls := c.calls ++ [Call.Verify preprepare.Proposal] }) := by
  have hrun : handlePreprepare server Decode checkMessage now c msg src
      = if c.state = State.StateAcceptRequest then
          if c.current.IsHashLocked then
            if preprepare.Proposal.Hash = c.current.GetLockedHash then
              (none, (((c.record (Call.Verify preprepare.Proposal)).acceptPreprepare now
                preprepare).setState State.StatePrepared).record Call.sendCommit)
            else (none, (c.record (Call.Verify preprepare.Proposal)).record
              Call.sendNextRoundChange)
          else
            (none, (((c.record (Call.Verify preprepare.Proposal)).acceptPreprepare now
              preprepare).setState State.StatePreprepared).record Call.sendPrepare)
        else (none, c.record (Call.Verify preprepare.Proposal)) := by
    unfold handlePreprepare
    simp only [hd, hc, hp, hv, Bool.not_true, Bool.false_eq_true, if_false]
    rfl
  rw [hrun]
  refine ⟨?_, ?_, ?_, ?_, ?_⟩
  · split
    · split
      · split <;> rfl
      · rfl
    · rfl
  · intro hs hl
    rw [if_pos hs, hl]
    simp [core.record, core.acceptPreprepare, core.setState, roundState.SetPreprepare]
  · intro hs hl hh
    rw [if_pos hs, hl, if_pos rfl, if_pos hh]
    simp [core.record, core.acceptPreprepare, core.setState, roundState.SetPreprepare]
  · intro hs hl hh
    rw [if_pos hs, hl, if_pos rfl, if_neg hh]
    simp [core.record]
  · intro hs
    rw [if_neg hs]
    rfl

theorem handlePreprepare_accept_witness :
    (handlePreprepare sampleServer sampleDecode sampleCheckMessage 77
        (sampleCore State.StateAcceptRequest true (sampleHash 5)) (sampleMessage 8 1 8 5)
        { Address := sampleAddress 2 }).1 = none ∧
    (handlePreprepare sampleServer sampleDecode sampleCheckMessage 77
        (sampleCore State.StateAcceptRequest true (sampleHash 5)) (sampleMessage 8 1 8 5)
        { Address := sampleAddress 2 }).2
      = { sampleCore State.StateAcceptRequest true (sampleHash 5) with
          state := State.StatePrepared
          current := { (sampleCore State.StateAcceptRequest true (sampleHash 5)).current with
            Preprepare := some { View := { Sequence := 8, Round := 1 },
                                 Proposal := { Hash := sampleHash 5, Height := 8 } } }
          consensusTimestamp := 77
          calls := [] ++ [Call.Verify { Hash := sampleHash 5, Height := 8 }, Call.sendCommit] } :=
  ⟨(handlePreprepare_accept sampleServer sampleDecode sampleCheckMessage 77
      (sampleCore State.StateAcceptRequest true (sampleHash 5)) (sampleMessage 8 1 8 5)
      { Address := sampleAddress 2 }
      { View := { Sequence := 8, Round := 1 }, Proposal := { Hash := sampleHash 5, Height := 8 } }
      0 rfl rfl rfl rfl).1,
   (handlePreprepare_accept sampleServer sampleDecode sampleCheckMessage 77
      (sampleCore State.StateAcceptRequest true (sampleHash 5)) (sampleMessage 8 1 8 5)
      { Address := sampleAddress 2 }
      { View := { Sequence := 8, Round := 1 }, Proposal := { Hash := sampleHash 5, Height := 8 } }
      0 rfl rfl rfl rfl).2.2.1 rfl rfl rfl⟩

/-- **C18.** For a preprepare that decodes and whose view `checkMessage` classifies as old:
when the sender is the proposer of the verifier set computed for that view (the parent
verifiers of the proposal, advanced from the proposer of the previous height by the round of
the view) and the backend holds the hash of the proposal, `handlePreprepare` records exactly
one `sendOldCommit` for the view and the hash and returns `nil`; in every other old-view case it
returns the old-message error and records nothing. A view classified as future returns the
future-message error and records nothing. In all these cases no `Verify` is recorded and the
fields of `core` (state, current round, timer) are as before. -/
theorem handlePreprepare_old_view {VerSet : Type} (server : Server VerSet)
    (Decode : message → Option Preprepare)
    (checkMessage : core VerSet → View → Option BftError) (now : Nat)
    (c : core VerSet) (msg : message) (src : Verifier) (preprepare : Preprepare)
    (hd : Decode msg = some preprepare) :
    (checkMessage c preprepare.View = some BftError.errOldMsg →
      handlePreprepare server Decode checkMessage now c msg src
        = if server.IsProposer
              (server.CalcProposer (server.ParentVerifiers preprepare.Proposal)
                (server.GetProposer ((preprepare.Proposal.Height + 2 ^ 64 - 1) % 2 ^ 64))
                (preprepare.View.Round % 2 ^ 64)) src.Address = true ∧
            server.HasPropsal preprepare.Proposal.Hash = true
          then (none, { c with calls := c.calls ++
                  [Call.sendOldCommit preprepare.View preprepare.Proposal.Hash] })
          else (some BftError.errOldMsg, c)) ∧
    (checkMessage c preprepare.View = some BftError.errFutureMsg →
      handlePreprepare server Decode checkMessage now c msg src
        = (some BftError.errFutureMsg, c)) := by
  constructor
  · intro hc
    unfold handlePreprepare
    simp only [hd, hc, if_true, Bool.and_eq_true]
    rfl
  · intro hc
    unfold handlePreprepare
    simp only [hd, hc]
    rw [if_neg (by decide)]

theorem handlePreprepare_old_view_witness :
    handlePreprepare sampleServer sampleDecode sampleCheckMessage 77
        (sampleCore State.StatePrepared false EmptyHash) (sampleMessage 8 0 8 5)
        { Address := sampleAddress 1 }
      = (none, { sampleCore State.StatePrepared false EmptyHash with
          calls := [Call.sendOldCommit { Sequence := 8, Round := 0 } (sampleHash 5)] }) :=
  ((handlePreprepare_old_view sampleServer sampleDecode sampleCheckMessage 77
      (sampleCore State.StatePrepared false EmptyHash) (sampleMessage 8 0 8 5)
      { Address := sampleAddress 1 }
      { View := { Sequence := 8, Round := 0 }, Proposal := { Hash := sampleHash 5, Height := 8 } }
      rfl).1 rfl).trans (by decide)

/-- **C19.** For a preprepare that decodes and whose view `checkMessage` accepts: when the
sender is not the proposer of the handler's verifier set the handler returns the not-proposer
error and records no call, so no `Verify`; when the sender is the proposer and `Verify` fails
with `ErrBlockCreateTimeOld` and duration `d`, the handler calls `stopFuturePreprepareTimer` on
the outstanding timer, arms exactly one timer of duration `d` whose event is the same sender
and message, keeps it in `futurePreprepareTimer`, and calls no `sendNextRoundChange`; when
`Verify` fails with any other error it calls `sendNextRoundChange` and arms no timer. In both
failures it returns the error of `Verify` and leaves the state and the current round as they
are. -/
theorem handlePreprepare_verify_fails {VerSet : Type} (server : Server VerSet)
    (Decode : message → Option Preprepare)
    (checkMessage : core VerSet → View → Option BftError) (now : Nat)
    (c : core VerSet) (msg : message) (src : Verifier) (preprepare : Preprepare)
    (hd : Decode msg = some preprepare)
    (hc : checkMessage c preprepare.View = none) :
    (server.IsProposer c.verSet src.Address = false →
      handlePreprepare server Decode checkMessage now c msg src
        = (some BftError.errNotProposer, c)) ∧
    (∀ duration, server.IsProposer c.verSet src.Address = true →
      server.Verify preprepare.Proposal = (duration, some BftError.ErrBlockCreateTimeOld) →
      handlePreprepare server Decode checkMessage now c msg src
        = (some BftError.ErrBlockCreateTimeOld,
            { c with
              futurePreprepareTimer :=
                some { duration := duration, event := { src := src, msg := msg } }
              calls := c.calls ++
                [Call.Verify preprepare.Proposal,
                 Call.stopFuturePreprepareTimer c.futurePreprepareTimer,
                 Call.AfterFunc duration { src := src, msg := msg }] })) ∧
    (∀ duration err, server.IsProposer c.verSet src.Address = true →
      server.Verify preprepare.Proposal = (duration, some err) →
      err ≠ BftError.ErrBlockCreateTimeOld →
      handlePreprepare server Decode checkMessage now c msg src
        = (some err,
            { c with
              calls := c.calls ++
                [Call.Verify preprepare.Proposal, Call.sendNextRoundChange] })) := by
  refine ⟨?_, ?_, ?_⟩
  · intro hp
    unfold handlePreprepare
    simp only [hd, hc, hp, Bool.not_false, if_true]
  · intro duration hp hv
    unfold handlePreprepare
    simp only [hd, hc, hp, hv, Bool.not_true, Bool.false_eq_true, if_false, if_true]
    simp [core.record, core.stopFuturePreprepareTimer]
  · intro duration err hp hv hne
    unfold handlePreprepare
    simp only [hd, hc, hp, hv, Bool.not_true, Bool.false_eq_true, if_false, if_neg hne]
    simp [core.record]

theorem handlePreprepare_verify_fails_witness :
    handlePreprepare sampleServer sampleDecode sampleCheckMessage 77
        (sampleCore State.StateAcceptRequest false EmptyHash) (sampleMessage 8 1 9 4)
        { Address := sampleAddress 2 }
      = (some BftError.ErrBlockCreateTimeOld,
          { sampleCore State.StateAcceptRequest false EmptyHash with
            futurePreprepareTimer :=
              some { duration := 300,
                     event := { src := { Address := sampleAddress 2 },
                                msg := sampleMessage 8 1 9 4 } }
            calls := [] ++
              [Call.Verify { Hash := sampleHash 4, Height := 9 },
               Call.stopFuturePreprepareTimer
                 (sampleCore State.StateAcceptRequest false EmptyHash).futurePreprepareTimer,
               Call.AfterFunc 300 { src := { Address := sampleAddress 2 },
                                    msg := sampleMessage 8 1 9 4 }] }) :=
  (handlePreprepare_verify_fails sampleServer sampleDecode sampleCheckMessage 77
    (sampleCore State.StateAcceptRequest false EmptyHash) (sampleMessage 8 1 9 4)
    { Address := sampleAddress 2 }
    { View := { Sequence := 8, Round := 1 }, Proposal := { Hash := sampleHash 4, Height := 9 } }
    rfl rfl).2.1 300 rfl rfl

/-! ## The challenged transaction in `chooseTransactions` -/

theorem step_challenged {P S : Type} (b : TxBackend P S) (BftConsensus : Nat)
    (tx : Transaction) (txsSize : Int) (s : Selection P S) (receipt : Receipt) (statedb : S)
    (hc : s.task.header.Consensus = BftConsensus)
    (hv : b.Validate tx s.statedb s.task.header.Height = none)
    (ha : b.ApplyTransaction tx s.txIndex s.task.coinbase s.statedb s.task.header
      = (Except.ok receipt, statedb))
    (hch : b.IsChallengedTx tx b.Rootaccounts = true) :
    chooseTransactions.step b BftConsensus tx txsSize s
      = ({ s with
            statedb := statedb
            task := { s.task with challengedTxs := s.task.challengedTxs ++ [tx] }
            calls := s.calls ++ [PoolCall.Validate tx, PoolCall.ApplyTransaction tx s.txIndex] },
          txsSize, true) := by
  unfold chooseTransactions.step
  simp only [hv, ha, hc, hch, if_true, List.append_assoc, List.singleton_append]

theorem batch_append {P S : Type} (b : TxBackend P S) (BftConsensus : Nat)
    (rest : List Transaction) :
    ∀ (pre : List Transaction) (txsSize sz1 : Int) (s s1 : Selection P S),
      chooseTransactions.batch b BftConsensus pre txsSize s = (s1, sz1, false) →
      chooseTransactions.batch b BftConsensus (pre ++ rest) txsSize s
        = chooseTransactions.batch b BftConsensus rest sz1 s1
  | [], txsSize, sz1, s, s1, h => by
    simp only [chooseTransactions.batch, Prod.mk.injEq, and_true] at h
    obtain ⟨h1, h2⟩ := h
    subst h1 h2
    rfl
  | t :: pre, txsSize, sz1, s, s1, h => by
    simp only [List.cons_append]
    unfold chooseTransactions.batch at h
    conv_lhs => unfold chooseTransactions.batch
    rcases hs : chooseTransactions.step b BftConsensus t txsSize s with ⟨s2, sz2, flag⟩
    rw [hs] at h
    cases flag with
    | true => simp at h
    | false =>
      simp only at h ⊢
      exact batch_append b BftConsensus rest pre sz2 sz1 s2 s1 h

theorem step_challengedTxs {P S : Type} (b : TxBackend P S) (BftConsensus : Nat)
    (tx : Transaction) (txsSize sz' : Int) (s s' : Selection P S) (flag : Bool)
    (h : chooseTransactions.step b BftConsensus tx txsSize s = (s', sz', flag)) :
    s'.task.challengedTxs = s.task.challengedTxs ++ (if flag = true then [tx] else []) := by
  unfold chooseTransactions.step at h
  simp only at h
  split at h
  · simp only [chooseTransactions.reject, Prod.mk.injEq] at h
    obtain ⟨h1, _, h3⟩ := h
    subst h1 h3
    simp
  · split at h
    · simp only [chooseTransactions.reject, Prod.mk.injEq] at h
      obtain ⟨h1, _, h3⟩ := h
      subst h1 h3
      simp
    · split at h
      · split at h
        · simp only [Prod.mk.injEq] at h
          obtain ⟨h1, _, h3⟩ := h
          subst h1 h3
          simp
        · simp only [chooseTransactions.keep, Prod.mk.injEq] at h
          obtain ⟨h1, _, h3⟩ := h
          subst h1 h3
          simp only [Bool.false_eq_true, if_false, List.append_nil]
          split <;> split <;> rfl
      · simp only [chooseTransactions.keep, Prod.mk.injEq] at h
        obtain ⟨h1, _, h3⟩ := h
        subst h1 h3
        simp

theorem batch_challengedTxs {P S : Type} (b : TxBackend P S) (BftConsensus : Nat) :
    ∀ (txs : List Transaction) (txsSize sz' : Int) (s s' : Selection P S) (flag : Bool),
      chooseTransactions.batch b BftConsensus txs txsSize s = (s', sz', flag) →
      (flag = false → s'.task.challengedTxs = s.task.challengedTxs) ∧
      (flag = true → ∃ tx ∈ txs, s'.task.challengedTxs = s.task.challengedTxs ++ [tx])
  | [], txsSize, sz', s, s', flag, h => by
    simp only [chooseTransactions.batch, Prod.mk.injEq] at h
    obtain ⟨h1, _, h3⟩ := h
    subst h1 h3
    simp
  | t :: txs, txsSize, sz', s, s', flag, h => by
    unfold chooseTransactions.batch at h
    rcases hs : chooseTransactions.step b BftConsensus t txsSize s with ⟨s2, sz2, f2⟩
    rw [hs] at h
    have h2 := step_challengedTxs b BftConsensus t txsSize sz2 s s2 f2 hs
    cases f2 with
    | true =>
      simp only [Prod.mk.injEq] at h
      obtain ⟨h1, _, h3⟩ := h
      subst h1 h3
      simp only [if_true] at h2
      exact ⟨fun x => absurd x (by simp), fun _ => ⟨t, List.mem_cons_self _ _, h2⟩⟩
    | false =>
      simp only at h
      simp only [Bool.false_eq_true, if_false, List.append_nil] at h2
      obtain ⟨ha, hb⟩ := batch_challengedTxs b BftConsensus txs sz2 sz' s2 s' flag h
      rw [h2] at ha hb
      refine ⟨ha, fun hf => ?_⟩
      obtain ⟨tx, hm, he⟩ := hb hf
      exact ⟨tx, List.mem_cons_of_mem _ hm, he⟩

theorem loop_challengedTxs {P S : Type} (b : TxBackend P S) (BftConsensus : Nat) :
    ∀ (fuel : Nat) (size : Int) (s s' : Selection P S),
      chooseTransactions.loop b BftConsensus fuel size s = some s' →
      s'.task.challengedTxs = s.task.challengedTxs ∨
        ∃ tx, s'.task.challengedTxs = s.task.challengedTxs ++ [tx]
  | 0, size, s, s', h => by
    unfold chooseTransactions.loop at h
    split at h
    · exact absurd h (by simp)
    · simp only [Option.some.injEq] at h
      subst h
      exact Or.inl rfl
  | fuel + 1, size, s, s', h => by
    unfold chooseTransactions.loop at h
    split at h
    · rcases hg : b.GetProcessableTransactions s.pool size with ⟨⟨txs, txsSize⟩, pool⟩
      rw [hg] at h
      simp only at h
      split at h
      · simp only [Option.some.injEq] at h
        subst h
        exact Or.inl rfl
      · rcases hb : chooseTransactions.batch b BftConsensus txs txsSize
            { s with pool := pool,
                     calls := s.calls ++ [PoolCall.GetProcessableTransactions size] }
          with ⟨s2, sz2, flag⟩
        rw [hb] at h
        have hinv := batch_challengedTxs b BftConsensus txs txsSize sz2 _ s2 flag hb
        cases flag with
        | true =>
          simp only [Option.some.injEq] at h
          subst h
          obtain ⟨tx, _, he⟩ := hinv.2 rfl
          exact Or.inr ⟨tx, he⟩
        | false =>
          simp only at h
          have h0 := hinv.1 rfl
          simp only at h0
          have := loop_challengedTxs b BftConsensus fuel (size - sz2) s2 s' h
          rw [h0] at this
          exact this
    · simp only [Option.some.injEq] at h
      subst h
      exact Or.inl rfl

/-- **C20.** On the BFT path, when the inner loop of `chooseTransactions` has gone through the
transactions `pre` of a batch without returning and the next transaction `tx` validates, is
applied successfully and classifies as challenged against the root accounts, then the loop ends
there whatever follows `tx` in the batch: `tx` is appended to `challengedTxs`, the working
state is the one its application left, the last calls recorded are its `Validate` and its
`ApplyTransaction`, and `txs`, `receipts`, `depositVers`, `exitVers`, the pool and `txIndex` are
as they were before `tx`; `chooseTransactions` returns this very selection at once, without
another call to the pool; and a selection that starts with no challenged transaction ends with
at most one. -/
theorem chooseTransactions_challenged {P S : Type} (b : TxBackend P S) (BftConsensus : Nat) :
    (∀ (pre post : List Transaction) (tx : Transaction) (txsSize sz1 : Int)
        (s s1 : Selection P S) (receipt : Receipt) (statedb : S),
      chooseTransactions.batch b BftConsensus pre txsSize s = (s1, sz1, false) →
      s1.task.header.Consensus = BftConsensus →
      b.Validate tx s1.statedb s1.task.header.Height = none →
      b.ApplyTransaction tx s1.txIndex s1.task.coinbase s1.statedb s1.task.header
        = (Except.ok receipt, statedb) →
      b.IsChallengedTx tx b.Rootaccounts = true →
      chooseTransactions.batch b BftConsensus (pre ++ tx :: post) txsSize s
        = ({ s1 with
              statedb := statedb
              task := { s1.task with challengedTxs := s1.task.challengedTxs ++ [tx] }
              calls := s1.calls ++
                [PoolCall.Validate tx, PoolCall.ApplyTransaction tx s1.txIndex] },
            sz1, true)) ∧
    (∀ (fuel : Nat) (size : Int) (pre post : List Transaction) (tx : Transaction)
        (txsSize sz1 : Int) (pool : P) (s s1 : Selection P S) (receipt : Receipt)
        (statedb : S),
      0 < size →
      b.GetProcessableTransactions s.pool size = ((pre ++ tx :: post, txsSize), pool) →
      chooseTransactions.batch b BftConsensus pre txsSize
          { s with pool := pool,
                   calls := s.calls ++ [PoolCall.GetProcessableTransactions size] }
        = (s1, sz1, false) →
      s1.task.header.Consensus = BftConsensus →
      b.Validate tx s1.statedb s1.task.header.Height = none →
      b.ApplyTransaction tx s1.txIndex s1.task.coinbase s1.statedb s1.task.header
        = (Except.ok receipt, statedb) →
      b.IsChallengedTx tx b.Rootaccounts = true →
      chooseTransactions.loop b BftConsensus (fuel + 1) size s
        = some { s1 with
              statedb := statedb
              task := { s1.task with challengedTxs := s1.task.challengedTxs ++ [tx] }
              calls := s1.calls ++
                [PoolCall.Validate tx, PoolCall.ApplyTransaction tx s1.txIndex] }) ∧
    (∀ (fuel : Nat) (task : Task) (statedb : S) (pool : P) (size : Int) (s' : Selection P S),
      task.challengedTxs = [] →
      chooseTransactions b BftConsensus fuel task statedb pool size = some s' →
      s'.task.challengedTxs.length ≤ 1) := by
  have hbatch : ∀ (pre post : List Transaction) (tx : Transaction) (txsSize sz1 : Int)
      (s s1 : Selection P S) (receipt : Receipt) (statedb : S),
      chooseTransactions.batch b BftConsensus pre txsSize s = (s1, sz1, false) →
      s1.task.header.Consensus = BftConsensus →
      b.Validate tx s1.statedb s1.task.header.Height = none →
      b.ApplyTransaction tx s1.txIndex s1.task.coinbase s1.statedb s1.task.header
        = (Except.ok receipt, statedb) →
      b.IsChallengedTx tx b.Rootaccounts = true →
      chooseTransactions.batch b BftConsensus (pre ++ tx :: post) txsSize s
        = ({ s1 with
              statedb := statedb
              task := { s1.task with challengedTxs := s1.task.challengedTxs ++ [tx] }
              calls := s1.calls ++
                [PoolCall.Validate tx, PoolCall.ApplyTransaction tx s1.txIndex] },
            sz1, true) := by
    intro pre post tx txsSize sz1 s s1 receipt statedb hpre hc hv ha hch
    rw [batch_append b BftConsensus (tx :: post) pre txsSize sz1 s s1 hpre]
    unfold chooseTransactions.batch
    rw [step_challenged b BftConsensus tx sz1 s1 receipt statedb hc hv ha hch]
  refine ⟨hbatch, ?_, ?_⟩
  · intro fuel size pre post tx txsSize sz1 pool s s1 receipt statedb hsize hg hpre hc hv ha hch
    unfold chooseTransactions.loop
    rw [if_pos hsize, hg]
    simp only
    rw [if_neg (by simp), hbatch pre post tx txsSize sz1 _ s1 receipt statedb hpre hc hv ha hch]
  · intro fuel task statedb pool size s' hempty h
    unfold chooseTransactions at h
    rcases loop_challengedTxs b BftConsensus fuel size _ s' h with h1 | ⟨tx, h1⟩
    · rw [h1]
      simp only
      rw [hempty]
      exact Nat.zero_le 1
    · rw [h1]
      simp only
      rw [hempty]
      exact Nat.le_refl 1

theorem chooseTransactions_challenged_witness :
    chooseTransactions.batch sampleTxBackend 2
        ([sampleTx 1 2 5 []] ++ sampleTx 9 9 5 [] :: [sampleTx 2 3 5 []]) 3
        { task := sampleBftTask, statedb := 0, pool := [[sampleTx 3 4 5 []]], txIndex := 1,
          calls := [PoolCall.GetProcessableTransactions 100] }
      = ({ task :=
             { sampleBftTask with
               txs := [rewardTx, sampleTx 1 2 5 []]
               receipts := [{ TxHash := sampleHash 1, Result := [] }]
               challengedTxs := [] ++ [sampleTx 9 9 5 []] },
           statedb := 2, pool := [[sampleTx 3 4 5 []]], txIndex := 2,
           calls := [PoolCall.GetProcessableTransactions 100, PoolCall.Validate (sampleTx 1 2 5 []),
             PoolCall.ApplyTransaction (sampleTx 1 2 5 []) 1] ++
             [PoolCall.Validate (sampleTx 9 9 5 []),
              PoolCall.ApplyTransaction (sampleTx 9 9 5 []) 2] },
          3, true) ∧
    chooseTransactions.loop sampleTxBackend 2 (0 + 1) 100
        { task := sampleBftTask, statedb := 0, pool := samplePool, txIndex := 1, calls := [] }
      = some
          { task :=
              { sampleBftTask with
                txs := [rewardTx, sampleTx 1 2 5 []]
                receipts := [{ TxHash := sampleHash 1, Result := [] }]
                challengedTxs := [] ++ [sampleTx 9 9 5 []] },
            statedb := 2, pool := [[sampleTx 3 4 5 []]], txIndex := 2,
            calls := [PoolCall.GetProcessableTransactions 100,
              PoolCall.Validate (sampleTx 1 2 5 []),
              PoolCall.ApplyTransaction (sampleTx 1 2 5 []) 1] ++
              [PoolCall.Validate (sampleTx 9 9 5 []),
               PoolCall.ApplyTransaction (sampleTx 9 9 5 []) 2] } :=
  ⟨(chooseTransactions_challenged sampleTxBackend 2).1 [sampleTx 1 2 5 []] [sampleTx 2 3 5 []]
      (sampleTx 9 9 5 []) 3 3
      { task := sampleBftTask, statedb := 0, pool := [[sampleTx 3 4 5 []]], txIndex := 1,
        calls := [PoolCall.GetProcessableTransactions 100] }
      { task :=
          { sampleBftTask with
            txs := [rewardTx, sampleTx 1 2 5 []]
            receipts := [{ TxHash := sampleHash 1, Result := [] }] },
        statedb := 1, pool := [[sampleTx 3 4 5 []]], txIndex := 2,
        calls := [PoolCall.GetProcessableTransactions 100, PoolCall.Validate (sampleTx 1 2 5 []),
          PoolCall.ApplyTransaction (sampleTx 1 2 5 []) 1] }
      { TxHash := sampleHash 9, Result := [] } 2 rfl rfl rfl rfl rfl,
   (chooseTransactions_challenged sampleTxBackend 2).2.1 0 100 [sampleTx 1 2 5 []]
      [sampleTx 2 3 5 []] (sampleTx 9 9 5 []) 3 3 [[sampleTx 3 4 5 []]]
      { task := sampleBftTask, statedb := 0, pool := samplePool, txIndex := 1, calls := [] }
      { task :=
          { sampleBftTask with
            txs := [rewardTx, sampleTx 1 2 5 []]
            receipts := [{ TxHash := sampleHash 1, Result := [] }] },
        statedb := 1, pool := [[sampleTx 3 4 5 []]], txIndex := 2,
        calls := [PoolCall.GetProcessableTransactions 100, PoolCall.Validate (sampleTx 1 2 5 []),
          PoolCall.ApplyTransaction (sampleTx 1 2 5 []) 1] }
      { TxHash := sampleHash 9, Result := [] } 2 (by decide) rfl rfl rfl rfl rfl rfl⟩

/-! ## The guard of `ExtractSecondWitnessInfo` -/

theorem ExtractSecondWitnessInfo_short_witness (BftExtraVanity : Nat) (h : BlockHeader)
    (hsw : h.SecondWitness.length < BftExtraVanity) :
    ExtractSecondWitnessInfo BftExtraVanity h
      = if h.ExtraData.length < BftExtraVanity then Except.error Error.ErrInvalidBftHeaderExtra
        else Except.error Error.sliceBounds := by
  unfold ExtractSecondWitnessInfo
  by_cases he : h.ExtraData.length < BftExtraVanity
  · rw [if_pos he, if_pos he]
  · rw [if_neg he, if_neg he, if_pos hsw]

/-- **C24, failing input.** With a vanity of 32, a header whose `ExtraData` holds 32 bytes and
whose `SecondWitness` holds five: the guard tests the length of `ExtraData` and passes, and the
slice `h.SecondWitness[BftExtraVanity:]` reaches past the end of the field, a run-time panic
(`Error.sliceBounds`), where the claim says the InvalidHeaderExtra error. -/
theorem ExtractSecondWitnessInfo_guard_on_extra_data :
    shortWitnessHeader.SecondWitness.length = 5 ∧
    shortWitnessHeader.ExtraData.length = 32 ∧
    ExtractSecondWitnessInfo 32 shortWitnessHeader = Except.error Error.sliceBounds ∧
    ExtractSecondWitnessInfo 32 shortWitnessHeader
      ≠ Except.error Error.ErrInvalidBftHeaderExtra := by
  refine ⟨by decide, by decide, by decide, by decide⟩

/-! ## A failure of `PrepareSecondWitness` in block assembly -/

theorem bft_of_prepare_error (c : Collaborators) (BftExtraVanity RelayInterval : Nat)
    (GetBlockByHeight : Nat → Except Error Block)
    (rangeOrder : List (Address × Nat) → List (Address × Nat)) (fuel : Nat)
    (statedb : Statedb) (parent : Block) (task task2 : Task) (store store2 : IndexStore)
    (swExtra : SecondWitnessInfo) (h1 h2 h3 : Hash) (e : Error)
    (hex : ExtractSecondWitnessInfo BftExtraVanity parent.Header = Except.ok swExtra)
    (hst : getStemHashes c statedb { task with accountCount := swExtra.AccountCount } store
      = (Except.ok (h1, h2), task2, store2))
    (hre : getRecentTxHashStem c RelayInterval GetBlockByHeight rangeOrder fuel task2
      = some (Except.ok h3))
    (hpr : PrepareSecondWitness BftExtraVanity task2.challengedTxs task2.depositVers
        task2.exitVers task2.accountCount h1 h2 h3
        (c.MustSign (c.MustHash
          (encodeBlockInfo task2.header.Creator task2.header.Height h1 h2)).val)
      = Except.error e) :
    applyTransactionsAndDebts.bft c BftExtraVanity RelayInterval GetBlockByHeight rangeOrder fuel
        statedb parent task store
      = some (Except.ok (), { task2 with header := { task2.header with SecondWitness := [] } },
          store2) := by
  unfold applyTransactionsAndDebts.bft
  simp only [hex, hst, hre, hpr]

/-- **C22, failing input.** A task at height 7 whose `challengedTxs` holds a transfer of the
amount -5, assembled on a parent that records no account: `PrepareSecondWitness` fails, because
a negative `big.Int` has no RLP, yet the BFT branch of `applyTransactionsAndDebts` only logs the
failure and returns `nil`, with the `nil` bytes written to the second witness of the header. -/
theorem applyTransactionsAndDebts_nil_witness :
    PrepareSecondWitness 32 negativeChallengeTask.challengedTxs [] [] 2
        (sampleCollaborators.GetBinaryMerkleRoot [sampleHash 7])
        (sampleCollaborators.GetBinaryMerkleRoot
          [specStateLeaf sampleCollaborators sampleStatedb (sampleAddress 1),
           specStateLeaf sampleCollaborators sampleStatedb (sampleAddress 2)])
        EmptyHash { Sig := [] }
      = Except.error Error.rlpNegativeBigInt ∧
    (match applyTransactionsAndDebts.bft sampleCollaborators 32 100 noBlocks id 0 sampleStatedb
        (parentBlock 0) negativeChallengeTask emptyStore with
      | some (result, task, _) => some (result, task.header.SecondWitness)
      | none => none) = some (Except.ok (), []) := by
  refine ⟨by decide, by decide⟩

/-! ## What `chooseTransactions` records -/

theorem step_of_invalid {P S : Type} (b : TxBackend P S) (BftConsensus : Nat)
    (tx : Transaction) (txsSize : Int) (s : Selection P S) (e : Error)
    (hv : b.Validate tx s.statedb s.task.header.Height = some e) :
    chooseTransactions.step b BftConsensus tx txsSize s
      = ({ s with
            pool := b.RemoveTransaction s.pool tx.Hash
            calls := s.calls ++ [PoolCall.Validate tx, PoolCall.RemoveTransaction tx.Hash] },
          txsSize - b.Size tx, false) := by
  unfold chooseTransactions.step
  simp only [hv, chooseTransactions.reject, List.append_assoc, List.singleton_append]

theorem step_of_apply_error {P S : Type} (b : TxBackend P S) (BftConsensus : Nat)
    (tx : Transaction) (txsSize : Int) (s : Selection P S) (e : Error) (statedb : S)
    (hv : b.Validate tx s.statedb s.task.header.Height = none)
    (ha : b.ApplyTransaction tx s.txIndex s.task.coinbase s.statedb s.task.header
      = (Except.error e, statedb)) :
    chooseTransactions.step b BftConsensus tx txsSize s
      = ({ s with
            statedb := statedb
            pool := b.RemoveTransaction s.pool tx.Hash
            calls := s.calls ++ [PoolCall.Validate tx, PoolCall.ApplyTransaction tx s.txIndex,
              PoolCall.RemoveTransaction tx.Hash] },
          txsSize - b.Size tx, false) := by
  unfold chooseTransactions.step
  simp only [hv, ha, chooseTransactions.reject, List.append_assoc, List.singleton_append,
    List.cons_append, List.nil_append]

theorem step_of_kept {P S : Type} (b : TxBackend P S) (BftConsensus : Nat)
    (tx : Transaction) (txsSize : Int) (s : Selection P S) (receipt : Receipt) (statedb : S)
    (hv : b.Validate tx s.statedb s.task.header.Height = none)
    (ha : b.ApplyTransaction tx s.txIndex s.task.coinbase s.statedb s.task.header
      = (Except.ok receipt, statedb))
    (hch : ¬ (s.task.header.Consensus = BftConsensus ∧
      b.IsChallengedTx tx b.Rootaccounts = true)) :
    (chooseTransactions.step b BftConsensus tx txsSize s).1.task.txs = s.task.txs ++ [tx] ∧
    (chooseTransactions.step b BftConsensus tx txsSize s).1.task.receipts
      = s.task.receipts ++ [receipt] ∧
    (chooseTransactions.step b BftConsensus tx txsSize s).1.task.header = s.task.header ∧
    (chooseTransactions.step b BftConsensus tx txsSize s).1.task.coinbase = s.task.coinbase ∧
    (chooseTransactions.step b BftConsensus tx txsSize s).1.task.challengedTxs
      = s.task.challengedTxs ∧
    (chooseTransactions.step b BftConsensus tx txsSize s).1.statedb = statedb ∧
    (chooseTransactions.step b BftConsensus tx txsSize s).1.pool = s.pool ∧
    (chooseTransactions.step b BftConsensus tx txsSize s).1.txIndex = s.txIndex + 1 ∧
    (chooseTransactions.step b BftConsensus tx txsSize s).1.calls
      = s.calls ++ [PoolCall.Validate tx, PoolCall.ApplyTransaction tx s.txIndex] ∧
    (chooseTransactions.step b BftConsensus tx txsSize s).2 = (txsSize, false) := by
  unfold chooseTransactions.step
  simp only [hv, ha]
  by_cases hc : s.task.header.Consensus = BftConsensus
  · have hnot : b.IsChallengedTx tx b.Rootaccounts = false := by
      cases hx : b.IsChallengedTx tx b.Rootaccounts with
      | false => rfl
      | true => exact absurd ⟨hc, hx⟩ hch
    simp only [hc, hnot, if_true, Bool.false_eq_true, if_false, chooseTransactions.keep]
    by_cases h1 : b.IsVerifierTx tx b.Rootaccounts = true <;>
      by_cases h2 : b.IsExitTx tx b.Rootaccounts = true <;>
      simp [h1, h2, hc]
  · simp [hc, chooseTransactions.keep]

theorem step_cases {P S : Type} (b : TxBackend P S) (BftConsensus : Nat)
    (tx : Transaction) (txsSize : Int) (s : Selection P S) :
    ((chooseTransactions.step b BftConsensus tx txsSize s).1.task.txs = s.task.txs ∧
      (chooseTransactions.step b BftConsensus tx txsSize s).1.task.receipts = s.task.receipts ∧
      (chooseTransactions.step b BftConsensus tx txsSize s).1.task.header = s.task.header ∧
      (chooseTransactions.step b BftConsensus tx txsSize s).1.task.coinbase = s.task.coinbase ∧
      (chooseTransactions.step b BftConsensus tx txsSize s).1.txIndex = s.txIndex ∧
      (∀ x ∈ s.calls, x ∈ (chooseTransactions.step b BftConsensus tx txsSize s).1.calls)) ∨
    (∃ receipt statedb,
      b.ApplyTransaction tx s.txIndex s.task.coinbase s.statedb s.task.header
        = (Except.ok receipt, statedb) ∧
      (chooseTransactions.step b BftConsensus tx txsSize s).1.task.txs = s.task.txs ++ [tx] ∧
      (chooseTransactions.step b BftConsensus tx txsSize s).1.task.receipts
        = s.task.receipts ++ [receipt] ∧
      (chooseTransactions.step b BftConsensus tx txsSize s).1.task.header = s.task.header ∧
      (chooseTransactions.step b BftConsensus tx txsSize s).1.task.coinbase = s.task.coinbase ∧
      (chooseTransactions.step b BftConsensus tx txsSize s).1.txIndex = s.txIndex + 1 ∧
      (∀ x ∈ s.calls, x ∈ (chooseTransactions.step b BftConsensus tx txsSize s).1.calls) ∧
      PoolCall.ApplyTransaction tx s.txIndex
        ∈ (chooseTransactions.step b BftConsensus tx txsSize s).1.calls) := by
  cases hv : b.Validate tx s.statedb s.task.header.Height with
  | some e =>
    left
    rw [step_of_invalid b BftConsensus tx txsSize s e hv]
    refine ⟨rfl, rfl, rfl, rfl, rfl, fun x hx => ?_⟩
    exact List.mem_append_left _ hx
  | none =>
    rcases ha : b.ApplyTransaction tx s.txIndex s.task.coinbase s.statedb s.task.header
      with ⟨res, statedb⟩
    cases res with
    | error e =>
      left
      rw [step_of_apply_error b BftConsensus tx txsSize s e statedb hv ha]
      refine ⟨rfl, rfl, rfl, rfl, rfl, fun x hx => ?_⟩
      exact List.mem_append_left _ hx
    | ok receipt =>
      by_cases hch : s.task.header.Consensus = BftConsensus ∧
          b.IsChallengedTx tx b.Rootaccounts = true
      · left
        rw [step_challenged b BftConsensus tx txsSize s receipt statedb hch.1 hv ha hch.2]
        refine ⟨rfl, rfl, rfl, rfl, rfl, fun x hx => ?_⟩
        exact List.mem_append_left _ hx
      · right
        obtain ⟨h1, h2, h3, h4, _, _, _, h8, h9, _⟩ :=
          step_of_kept b BftConsensus tx txsSize s receipt statedb hv ha hch
        refine ⟨receipt, statedb, rfl, h1, h2, h3, h4, h8, ?_, ?_⟩
        · intro x hx
          rw [h9]
          exact List.mem_append_left _ hx
        · rw [h9]
          simp

theorem batch_kept {P S : Type} (b : TxBackend P S) (BftConsensus : Nat) :
    ∀ (txs : List Transaction) (txsSize : Int) (s : Selection P S),
      ∃ kept : List Transaction, kept.Sublist txs ∧
        (chooseTransactions.batch b BftConsensus txs txsSize s).1.task.txs
          = s.task.txs ++ kept ∧
        (chooseTransactions.batch b BftConsensus txs txsSize s).1.task.receipts.length
          = s.task.receipts.length + kept.length
  | [], txsSize, s => ⟨[], List.Sublist.slnil, by simp [chooseTransactions.batch],
      by simp [chooseTransactions.batch]⟩
  | t :: txs, txsSize, s => by
    unfold chooseTransactions.batch
    rcases hs : chooseTransactions.step b BftConsensus t txsSize s with ⟨s2, sz2, flag⟩
    have hc := step_cases b BftConsensus t txsSize s
    rw [hs] at hc
    simp only at hc
    cases flag with
    | true =>
      simp only
      rcases hc with ⟨h1, h2, _⟩ | ⟨receipt, _, _, h1, h2, _⟩
      · exact ⟨[], List.nil_sublist _, by simp [h1], by simp [h2]⟩
      · exact ⟨[t], by simp, h1, by simp [h2]⟩
    | false =>
      simp only
      obtain ⟨kept, hk, ht, hr⟩ := batch_kept b BftConsensus txs sz2 s2
      rcases hc with ⟨h1, h2, _⟩ | ⟨receipt, _, _, h1, h2, _⟩
      · exact ⟨kept, List.Sublist.cons _ hk, by rw [ht, h1], by rw [hr, h2]⟩
      · have hl : s2.task.receipts.length = s.task.receipts.length + 1 := by
          rw [h2]; simp
        refine ⟨t :: kept, List.Sublist.cons₂ _ hk, by rw [ht, h1]; simp, ?_⟩
        rw [hr, hl, List.length_cons]
        omega

/-- **C21 (amended).** For one round of the inner loop of `chooseTransactions` on a
transaction `tx`: when `tx` validates, is applied successfully and is not a challenge on the
BFT path, it is appended to `txs` and the receipt of that application to `receipts`, whether it
is a verifier deposit, a verifier exit or neither; when `tx` is a challenge on the BFT path it
is appended to `challengedTxs` and neither to `txs` nor to `receipts`; when validation or
application fails, `tx` is removed from the pool and the task is left as it was. Over a batch
the recorded transactions are appended in the order of the batch, each with one receipt. -/
theorem chooseTransactions_records {P S : Type} (b : TxBackend P S) (BftConsensus : Nat)
    (tx : Transaction) (txsSize : Int) (s : Selection P S) :
    (∀ receipt statedb,
      b.Validate tx s.statedb s.task.header.Height = none →
      b.ApplyTransaction tx s.txIndex s.task.coinbase s.statedb s.task.header
        = (Except.ok receipt, statedb) →
      ¬ (s.task.header.Consensus = BftConsensus ∧
        b.IsChallengedTx tx b.Rootaccounts = true) →
      (chooseTransactions.step b BftConsensus tx txsSize s).1.task.txs = s.task.txs ++ [tx] ∧
      (chooseTransactions.step b BftConsensus tx txsSize s).1.task.receipts
        = s.task.receipts ++ [receipt] ∧
      (chooseTransactions.step b BftConsensus tx txsSize s).1.statedb = statedb ∧
      (chooseTransactions.step b BftConsensus tx txsSize s).2.2 = false) ∧
    (∀ receipt statedb,
      b.Validate tx s.statedb s.task.header.Height = none →
      b.ApplyTransaction tx s.txIndex s.task.coinbase s.statedb s.task.header
        = (Except.ok receipt, statedb) →
      s.task.header.Consensus = BftConsensus →
      b.IsChallengedTx tx b.Rootaccounts = true →
      (chooseTransactions.step b BftConsensus tx txsSize s).1.task
        = { s.task with challengedTxs := s.task.challengedTxs ++ [tx] } ∧
      (chooseTransactions.step b BftConsensus tx txsSize s).1.statedb = statedb ∧
      (chooseTransactions.step b BftConsensus tx txsSize s).2.2 = true) ∧
    (∀ e, b.Validate tx s.statedb s.task.header.Height = some e →
      (chooseTransactions.step b BftConsensus tx txsSize s).1.task = s.task ∧
      (chooseTransactions.step b BftConsensus tx txsSize s).1.pool
        = b.RemoveTransaction s.pool tx.Hash ∧
      (chooseTransactions.step b BftConsensus tx txsSize s).2 = (txsSize - b.Size tx, false)) ∧
    (∀ e statedb,
      b.Validate tx s.statedb s.task.header.Height = none →
      b.ApplyTransaction tx s.txIndex s.task.coinbase s.statedb s.task.header
        = (Except.error e, statedb) →
      (chooseTransactions.step b BftConsensus tx txsSize s).1.task = s.task ∧
      (chooseTransactions.step b BftConsensus tx txsSize s).1.pool
        = b.RemoveTransaction s.pool tx.Hash ∧
      (chooseTransactions.step b BftConsensus tx txsSize s).2 = (txsSize - b.Size tx, false)) ∧
    (∀ txs : List Transaction,
      ∃ kept : List Transaction, kept.Sublist txs ∧
        (chooseTransactions.batch b BftConsensus txs txsSize s).1.task.txs
          = s.task.txs ++ kept ∧
        (chooseTransactions.batch b BftConsensus txs txsSize s).1.task.receipts.length
          = s.task.receipts.length + kept.length) := by
  refine ⟨?_, ?_, ?_, ?_, fun txs => batch_kept b BftConsensus txs txsSize s⟩
  · intro receipt statedb hv ha hch
    obtain ⟨h1, h2, _, _, _, h6, _, _, _, h10⟩ :=
      step_of_kept b BftConsensus tx txsSize s receipt statedb hv ha hch
    exact ⟨h1, h2, h6, by rw [h10]⟩
  · intro receipt statedb hv ha hc hch
    rw [step_challenged b BftConsensus tx txsSize s receipt statedb hc hv ha hch]
    exact ⟨rfl, rfl, rfl⟩
  · intro e hv
    rw [step_of_invalid b BftConsensus tx txsSize s e hv]
    exact ⟨rfl, rfl, rfl⟩
  · intro e statedb hv ha
    rw [step_of_apply_error b BftConsensus tx txsSize s e statedb hv ha]
    exact ⟨rfl, rfl, rfl⟩

theorem chooseTransactions_records_witness :
    (chooseTransactions.step sampleTxBackend 2 (sampleTx 9 2 5 []) 3
        { task := sampleBftTask, statedb := 0, pool := [], txIndex := 1, calls := [] }).1.task.txs
      = sampleBftTask.txs ++ [sampleTx 9 2 5 []] ∧
    (chooseTransactions.step sampleTxBackend 2 (sampleTx 9 2 5 []) 3
        { task := sampleBftTask, statedb := 0, pool := [], txIndex := 1,
          calls := [] }).1.task.receipts
      = sampleBftTask.receipts ++ [{ TxHash := sampleHash 9, Result := [] }] ∧
    (chooseTransactions.step sampleTxBackend 2 (sampleTx 9 2 5 []) 3
        { task := sampleBftTask, statedb := 0, pool := [], txIndex := 1,
          calls := [] }).1.task.depositVers = [sampleAddress 2] ∧
    (chooseTransactions.step sampleTxBackend 2 (sampleTx 9 2 5 []) 3
        { task := sampleBftTask, statedb := 0, pool := [], txIndex := 1, calls := [] }).1.statedb
      = 1 ∧
    (chooseTransactions.step sampleTxBackend 2 (sampleTx 9 2 5 []) 3
        { task := sampleBftTask, statedb := 0, pool := [], txIndex := 1, calls := [] }).2.2
      = false :=
  match (chooseTransactions_records sampleTxBackend 2 (sampleTx 9 2 5 []) 3
      { task := sampleBftTask, statedb := 0, pool := [], txIndex := 1, calls := [] }).1
      { TxHash := sampleHash 9, Result := [] } 1 rfl rfl (by decide) with
  | ⟨h1, h2, h3, h4⟩ => ⟨h1, h2, rfl, h3, h4⟩

/-- **C21, as stated, fails.** In the sample selection of a BFT task the transfer from
address 9 to address 9 validates and is handed to `ApplyTransaction` with index 2, which
succeeds (the working state counts two applications), and it is a challenge: it is kept in
`challengedTxs` while `txs` holds only the reward transaction and the first transfer and
`receipts` only the receipt of that transfer. -/
theorem chooseTransactions_challenge_not_recorded :
    (match chooseTransactions sampleTxBackend 2 1 sampleBftTask 0 samplePool 100 with
      | some s => some (s.task.txs, s.task.receipts, s.task.challengedTxs, s.statedb, s.calls)
      | none => none)
      = some ([rewardTx, sampleTx 1 2 5 []], [{ TxHash := sampleHash 1, Result := [] }],
          [sampleTx 9 9 5 []], 2,
          [PoolCall.GetProcessableTransactions 100, PoolCall.Validate (sampleTx 1 2 5 []),
           PoolCall.ApplyTransaction (sampleTx 1 2 5 []) 1,
           PoolCall.Validate (sampleTx 9 9 5 []),
           PoolCall.ApplyTransaction (sampleTx 9 9 5 []) 2]) ∧
    sampleTxBackend.ApplyTransaction (sampleTx 9 9 5 []) 2 sampleBftTask.coinbase 1
        sampleBftTask.header
      = (Except.ok { TxHash := sampleHash 9, Result := [] }, 2) ∧
    sampleTx 9 9 5 [] ∉ [rewardTx, sampleTx 1 2 5 []] := by
  refine ⟨rfl, rfl, by decide⟩

/-! ## The pairing of transactions and receipts -/

theorem step_prefix {P S : Type} (b : TxBackend P S) (BftConsensus : Nat)
    (tx : Transaction) (txsSize : Int) (s : Selection P S) :
    s.task.txs <+: (chooseTransactions.step b BftConsensus tx txsSize s).1.task.txs ∧
    s.task.receipts <+: (chooseTransactions.step b BftConsensus tx txsSize s).1.task.receipts := by
  rcases step_cases b BftConsensus tx txsSize s with ⟨h1, h2, _⟩ | ⟨_, _, _, h1, h2, _⟩
  · rw [h1, h2]
    exact ⟨List.prefix_rfl, List.prefix_rfl⟩
  · rw [h1, h2]
    exact ⟨List.prefix_append _ _, List.prefix_append _ _⟩

theorem batch_prefix {P S : Type} (b : TxBackend P S) (BftConsensus : Nat) :
    ∀ (txs : List Transaction) (txsSize : Int) (s : Selection P S),
      s.task.txs <+: (chooseTransactions.batch b BftConsensus txs txsSize s).1.task.txs ∧
      s.task.receipts
        <+: (chooseTransactions.batch b BftConsensus txs txsSize s).1.task.receipts
  | [], txsSize, s => ⟨List.prefix_rfl, List.prefix_rfl⟩
  | t :: txs, txsSize, s => by
    unfold chooseTransactions.batch
    have hp := step_prefix b BftConsensus t txsSize s
    rcases hs : chooseTransactions.step b BftConsensus t txsSize s with ⟨s2, sz2, flag⟩
    rw [hs] at hp
    cases flag with
    | true => exact hp
    | false =>
      have hb := batch_prefix b BftConsensus txs sz2 s2
      exact ⟨hp.1.trans hb.1, hp.2.trans hb.2⟩

theorem loop_prefix {P S : Type} (b : TxBackend P S) (BftConsensus : Nat) :
    ∀ (fuel : Nat) (size : Int) (s s' : Selection P S),
      chooseTransactions.loop b BftConsensus fuel size s = some s' →
      s.task.txs <+: s'.task.txs ∧ s.task.receipts <+: s'.task.receipts
  | 0, size, s, s', h => by
    unfold chooseTransactions.loop at h
    split at h
    · exact absurd h (by simp)
    · simp only [Option.some.injEq] at h
      subst h
      exact ⟨List.prefix_rfl, List.prefix_rfl⟩
  | fuel + 1, size, s, s', h => by
    unfold chooseTransactions.loop at h
    split at h
    · rcases hg : b.GetProcessableTransactions s.pool size with ⟨⟨txs, txsSize⟩, pool⟩
      rw [hg] at h
      simp only at h
      split at h
      · simp only [Option.some.injEq] at h
        subst h
        exact ⟨List.prefix_rfl, List.prefix_rfl⟩
      · have hb := batch_prefix b BftConsensus txs txsSize
          { s with pool := pool,
                   calls := s.calls ++ [PoolCall.GetProcessableTransactions size] }
        rcases hr : chooseTransactions.batch b BftConsensus txs txsSize
            { s with pool := pool,
                     calls := s.calls ++ [PoolCall.GetProcessableTransactions size] }
          with ⟨s2, sz2, flag⟩
        rw [hr] at h hb
        cases flag with
        | true =>
          simp only [Option.some.injEq] at h
          subst h
          exact hb
        | false =>
          simp only at h
          have hl := loop_prefix b BftConsensus fuel (size - sz2) s2 s' h
          exact ⟨hb.1.trans hl.1, hb.2.trans hl.2⟩
    · simp only [Option.some.injEq] at h
      subst h
      exact ⟨List.prefix_rfl, List.prefix_rfl⟩

theorem recorded_of_same {P S : Type} (b : TxBackend P S) (header : BlockHeader)
    (coinbase : Address) (s s' : Selection P S) (hr : Recorded b header coinbase s)
    (h1 : s'.task.txs = s.task.txs) (h2 : s'.task.receipts = s.task.receipts)
    (h3 : s'.task.header = s.task.header) (h4 : s'.task.coinbase = s.task.coinbase)
    (h5 : s'.txIndex = s.txIndex) (h6 : ∀ x ∈ s.calls, x ∈ s'.calls) :
    Recorded b header coinbase s' := by
  obtain ⟨r1, r2, r3, r4, r5⟩ := hr
  refine ⟨h3.trans r1, h4.trans r2, by rw [h1, h2]; exact r3, by rw [h5, h1]; exact r4, ?_⟩
  intro i tx receipt hi ht hc
  rw [h1] at ht
  rw [h2] at hc
  obtain ⟨hm, hex⟩ := r5 i tx receipt hi ht hc
  exact ⟨h6 _ hm, hex⟩

theorem recorded_step {P S : Type} (b : TxBackend P S) (BftConsensus : Nat)
    (header : BlockHeader) (coinbase : Address) (tx : Transaction) (txsSize : Int)
    (s : Selection P S) (hr : Recorded b header coinbase s) :
    Recorded b header coinbase (chooseTransactions.step b BftConsensus tx txsSize s).1 := by
  rcases step_cases b BftConsensus tx txsSize s with
    ⟨h1, h2, h3, h4, h5, h6⟩ | ⟨receipt, statedb, ha, h1, h2, h3, h4, h5, h6, h7⟩
  · exact recorded_of_same b header coinbase s _ hr h1 h2 h3 h4 h5 h6
  · obtain ⟨r1, r2, r3, r4, r5⟩ := hr
    refine ⟨h3.trans r1, h4.trans r2, ?_, ?_, ?_⟩
    · rw [h1, h2, List.length_append, List.length_append, r3]
      rfl
    · rw [h5, h1, List.length_append, r4]
      rfl
    · intro i t rc hi ht hc
      rw [h1] at ht
      rw [h2] at hc
      by_cases hlt : i < s.task.txs.length
      · rw [List.getElem?_append_left hlt] at ht
        rw [List.getElem?_append_left (by rw [← r3]; exact hlt)] at hc
        obtain ⟨hm, hex⟩ := r5 i t rc hi ht hc
        exact ⟨h6 _ hm, hex⟩
      · have hge : s.task.txs.length ≤ i := Nat.le_of_not_lt hlt
        rw [List.getElem?_append_right hge] at ht
        rw [List.getElem?_append_right (by rw [← r3]; exact hge)] at hc
        have hi0 : i - s.task.txs.length = 0 := by
          by_contra hne
          have : [tx][i - s.task.txs.length]? = none := by
            apply List.getElem?_eq_none
            simp only [List.length_singleton]
            omega
          rw [this] at ht
          exact absurd ht (by simp)
        have hieq : i = s.txIndex := by omega
        rw [hi0] at ht
        rw [← r3, hi0] at hc
        simp only [List.getElem?_cons_zero, Option.some.injEq] at ht hc
        subst ht hc hieq
        refine ⟨h7, s.statedb, statedb, ?_⟩
        rw [← r1, ← r2]
        exact ha

theorem recorded_batch {P S : Type} (b : TxBackend P S) (BftConsensus : Nat)
    (header : BlockHeader) (coinbase : Address) :
    ∀ (txs : List Transaction) (txsSize : Int) (s : Selection P S),
      Recorded b header coinbase s →
      Recorded b header coinbase (chooseTransactions.batch b BftConsensus txs txsSize s).1
  | [], txsSize, s, hr => hr
  | t :: txs, txsSize, s, hr => by
    unfold chooseTransactions.batch
    have hs1 := recorded_step b BftConsensus header coinbase t txsSize s hr
    rcases hs : chooseTransactions.step b BftConsensus t txsSize s with ⟨s2, sz2, flag⟩
    rw [hs] at hs1
    cases flag with
    | true => exact hs1
    | false => exact recorded_batch b BftConsensus header coinbase txs sz2 s2 hs1

theorem recorded_loop {P S : Type} (b : TxBackend P S) (BftConsensus : Nat)
    (header : BlockHeader) (coinbase : Address) :
    ∀ (fuel : Nat) (size : Int) (s s' : Selection P S),
      chooseTransactions.loop b BftConsensus fuel size s = some s' →
      Recorded b header coinbase s → Recorded b header coinbase s'
  | 0, size, s, s', h, hr => by
    unfold chooseTransactions.loop at h
    split at h
    · exact absurd h (by simp)
    · simp only [Option.some.injEq] at h
      subst h
      exact hr
  | fuel + 1, size, s, s', h, hr => by
    unfold chooseTransactions.loop at h
    split at h
    · rcases hg : b.GetProcessableTransactions s.pool size with ⟨⟨txs, txsSize⟩, pool⟩
      rw [hg] at h
      simp only at h
      have hr0 : Recorded b header coinbase
          { s with pool := pool,
                   calls := s.calls ++ [PoolCall.GetProcessableTransactions size] } :=
        recorded_of_same b header coinbase s _ hr rfl rfl rfl rfl rfl
          (fun x hx => List.mem_append_left _ hx)
      split at h
      · simp only [Option.some.injEq] at h
        subst h
        exact hr0
      · have hb := recorded_batch b BftConsensus header coinbase txs txsSize _ hr0
        rcases hrun : chooseTransactions.batch b BftConsensus txs txsSize
            { s with pool := pool,
                     calls := s.calls ++ [PoolCall.GetProcessableTransactions size] }
          with ⟨s2, sz2, flag⟩
        rw [hrun] at h hb
        cases flag with
        | true =>
          simp only [Option.some.injEq] at h
          subst h
          exact hb
        | false =>
          simp only at h
          exact recorded_loop b BftConsensus header coinbase fuel (size - sz2) s2 s' h hb
    · simp only [Option.some.injEq] at h
      subst h
      exact hr

theorem loop_returns {P S : Type} (b : TxBackend P S) (BftConsensus : Nat) (fuel : Nat)
    (size : Int) (s : Selection P S) :
    (size ≤ 0 → chooseTransactions.loop b BftConsensus fuel size s = some s) ∧
    (∀ txsSize pool, 0 < size →
      b.GetProcessableTransactions s.pool size = (([], txsSize), pool) →
      chooseTransactions.loop b BftConsensus (fuel + 1) size s
        = some { s with pool := pool,
                        calls := s.calls ++ [PoolCall.GetProcessableTransactions size] }) := by
  constructor
  · intro h
    cases fuel with
    | zero => unfold chooseTransactions.loop; rw [if_neg (by omega)]
    | succ n => unfold chooseTransactions.loop; rw [if_neg (by omega)]
  · intro txsSize pool h hg
    unfold chooseTransactions.loop
    rw [if_pos h, hg]
    simp

/-- **C25.** The pairing of transactions and receipts is kept by every batch of the inner loop
of `chooseTransactions`, whatever the pool hands out and whatever validation and application
answer. Hence after `handleMinerRewardTx` followed by `chooseTransactions` on a fresh task:
`txs[0]` is the reward transaction and `receipts[0]` its receipt, `txs` and `receipts` have the
same length, and for every position `i ≥ 1` the transaction `txs[i]` was handed to
`ApplyTransaction` with the index `i` and `receipts[i]` is a receipt that `ApplyTransaction`
returns for `txs[i]` at index `i` with the coinbase and the header of the task. -/
theorem select_recorded {P S : Type} (r : RewardBackend S) (b : TxBackend P S)
    (BftConsensus : Nat) (header : BlockHeader) (coinbase : Address) :
    (∀ (txs : List Transaction) (txsSize : Int) (s : Selection P S),
      Recorded b header coinbase s →
      Recorded b header coinbase (chooseTransactions.batch b BftConsensus txs txsSize s).1) ∧
    (∀ (fuel : Nat) (statedb : S) (pool : P) (size : Int) (s' : Selection P S),
      applyTransactionsAndDebts.select r b BftConsensus fuel (NewTask header coinbase) statedb
          pool size = some (Except.ok s') →
      ∃ rewardTx rewardTxReceipt statedb1,
        r.NewRewardTx coinbase
            (if header.Consensus = BftConsensus then 0 else r.GetReward header.Height)
            (header.CreateTimestamp % 2 ^ 64) = Except.ok rewardTx ∧
        r.ApplyRewardTx rewardTx statedb = (Except.ok rewardTxReceipt, statedb1) ∧
        s'.task.txs[0]? = some rewardTx ∧
        s'.task.receipts[0]? = some rewardTxReceipt ∧
        s'.task.txs.length = s'.task.receipts.length ∧
        ∀ i tx receipt, 1 ≤ i → s'.task.txs[i]? = some tx →
          s'.task.receipts[i]? = some receipt →
          PoolCall.ApplyTransaction tx i ∈ s'.calls ∧
          ∃ st st', b.ApplyTransaction tx i coinbase st header
            = (Except.ok receipt, st')) := by
  refine ⟨recorded_batch b BftConsensus header coinbase, ?_⟩
  intro fuel statedb pool size s' h
  unfold applyTransactionsAndDebts.select handleMinerRewardTx at h
  simp only [NewTask] at h
  cases hn : r.NewRewardTx coinbase
      (if header.Consensus = BftConsensus then 0 else r.GetReward header.Height)
      (header.CreateTimestamp % 2 ^ 64) with
  | error e => rw [hn] at h; simp at h
  | ok rewardTx =>
    rw [hn] at h
    simp only at h
    rcases ha : r.ApplyRewardTx rewardTx statedb with ⟨res, statedb1⟩
    rw [ha] at h
    cases res with
    | error e => simp at h
    | ok rewardTxReceipt =>
      simp only [List.nil_append] at h
      cases hc : chooseTransactions b BftConsensus fuel
          { header := header, txs := [rewardTx], accountCount := 0, challengedTxs := [],
            depositVers := [], exitVers := [], receipts := [rewardTxReceipt],
            coinbase := coinbase } statedb1 pool size with
      | none => rw [hc] at h; simp at h
      | some s2 =>
        rw [hc] at h
        simp only [Option.some.injEq, Except.ok.injEq] at h
        subst h
        unfold chooseTransactions at hc
        have hinit : Recorded b header coinbase
            { task := { header := header, txs := [rewardTx], accountCount := 0,
                        challengedTxs := [], depositVers := [], exitVers := [],
                        receipts := [rewardTxReceipt], coinbase := coinbase },
              statedb := statedb1, pool := pool, txIndex := 1, calls := [] } := by
          refine ⟨rfl, rfl, rfl, rfl, ?_⟩
          intro i tx receipt hi ht
          have : ([rewardTx] : List Transaction)[i]? = none := by
            apply List.getElem?_eq_none
            simp only [List.length_singleton]
            omega
          simp only at ht
          rw [this] at ht
          exact absurd ht (by simp)
        obtain ⟨_, _, r3, _, r5⟩ := recorded_loop b BftConsensus header coinbase fuel size _ s2
          hc hinit
        obtain ⟨⟨k1, hk1⟩, ⟨k2, hk2⟩⟩ := loop_prefix b BftConsensus fuel size _ s2 hc
        simp only at hk1 hk2
        refine ⟨rewardTx, rewardTxReceipt, statedb1, rfl, ha, ?_, ?_, r3, r5⟩
        · rw [← hk1]; simp
        · rw [← hk2]; simp

theorem select_recorded_witness :
    sampleSelection.task.txs = [rewardTx, sampleTx 1 2 5 []] ∧
    sampleSelection.task.receipts
      = [{ TxHash := sampleHash 0, Result := [1] }, { TxHash := sampleHash 1, Result := [] }] ∧
    PoolCall.ApplyTransaction (sampleTx 1 2 5 []) 1 ∈ sampleSelection.calls ∧
    sampleSelection.task.txs.length = sampleSelection.task.receipts.length :=
  match (select_recorded sampleRewardBackend sampleTxBackend 2 sampleBftHeader
      (sampleAddress 8)).2 1 0 samplePool 100 sampleSelection rfl with
  | ⟨_, _, _, _, _, _, _, hlen, hrec⟩ =>
    ⟨rfl, rfl, (hrec 1 (sampleTx 1 2 5 []) { TxHash := sampleHash 1, Result := [] }
      (Nat.le_refl 1) rfl rfl).1, hlen⟩

/-! ## The index store after an assembly that fails -/

theorem stemTxLoop_store (c : Collaborators) :
    ∀ (txs : List Transaction) (k : Nat) (level : List Hash) (count : Nat) (store : IndexStore),
      (stemTxLoop c (k + 1) txs level count store).2
        = indexAccounts (accountsOf (decodablePrefix c txs)) count store
  | [], k, level, count, store => by
    simp [stemTxLoop, decodablePrefix, accountsOf, indexAccounts]
  | tx :: txs, k, level, count, store => by
    have ih := fun l cnt st => stemTxLoop_store c txs (k + 1) l cnt st
    unfold stemTxLoop
    rw [if_neg (Nat.add_one_ne_zero k)]
    cases hp : c.ExtractTxPayload tx.Data.Payload with
    | error e =>
      have hh : hashForStem c tx = none := by simp [hashForStem, hp]
      simp [decodablePrefix, List.takeWhile, hh, accountsOf, indexAccounts]
    | ok p =>
      have hh : hashForStem c tx = some p.HashForStem := by simp [hashForStem, hp]
      have hd : decodablePrefix c (tx :: txs) = tx :: decodablePrefix c txs := by
        simp [decodablePrefix, List.takeWhile, hh]
      simp only [hd, accountsOf, indexAccounts, ih]

theorem stemTxLoop_store_zero (c : Collaborators) (txs : List Transaction) (count : Nat)
    (store : IndexStore) :
    (stemTxLoop c 0 txs [] count store).2
      = indexAccounts (accountsOf (decodablePrefix c (txs.drop 1))) count store := by
  cases txs with
  | nil => simp [stemTxLoop, decodablePrefix, accountsOf, indexAccounts]
  | cons tx txs =>
    rw [stemTxLoop_zero, stemTxLoop_store]
    simp

theorem bft_store (c : Collaborators) (BftExtraVanity RelayInterval : Nat)
    (GetBlockByHeight : Nat → Except Error Block)
    (rangeOrder : List (Address × Nat) → List (Address × Nat)) (fuel : Nat)
    (statedb : Statedb) (parent : Block) (task : Task) (store : IndexStore)
    (res : Except Error Unit) (task' : Task) (store' : IndexStore)
    (h : applyTransactionsAndDebts.bft c BftExtraVanity RelayInterval GetBlockByHeight rangeOrder
      fuel statedb parent task store = some (res, task', store')) :
    store' = match ExtractSecondWitnessInfo BftExtraVanity parent.Header with
      | Except.error _ => store
      | Except.ok swExtra =>
        (getStemHashes c statedb { task with accountCount := swExtra.AccountCount } store).2.2 := by
  unfold applyTransactionsAndDebts.bft at h
  cases hex : ExtractSecondWitnessInfo BftExtraVanity parent.Header with
  | error e =>
    rw [hex] at h
    simp only [Option.some.injEq, Prod.mk.injEq] at h
    exact h.2.2.symm
  | ok swExtra =>
    rw [hex] at h
    simp only at h
    rcases hst : getStemHashes c statedb { task with accountCount := swExtra.AccountCount } store
      with ⟨r1, task2, store2⟩
    rw [hst] at h
    simp only [hst]
    cases r1 with
    | error e =>
      simp only [Option.some.injEq, Prod.mk.injEq] at h
      exact h.2.2.symm
    | ok hs =>
      obtain ⟨h1, h2⟩ := hs
      simp only at h
      cases hre : getRecentTxHashStem c RelayInterval GetBlockByHeight rangeOrder fuel task2 with
      | none => rw [hre] at h; simp at h
      | some r2 =>
        rw [hre] at h
        cases r2 with
        | error e =>
          simp only [Option.some.injEq, Prod.mk.injEq] at h
          exact h.2.2.symm
        | ok h3 =>
          simp only [Option.some.injEq, Prod.mk.injEq] at h
          exact h.2.2.symm

/-! ## The index store after an assembly whose store calls can fail -/

theorem indexAccount_withFaults_done (outcome : Nat → Outcome)
    (h : ∀ n, outcome n = Outcome.done) (a : Address) (count calls : Nat) (store : IndexStore) :
    ∃ calls', indexAccount.withFaults outcome a count calls store
      = (Except.ok (), (indexAccount a count store).1, calls', (indexAccount a count store).2) := by
  unfold indexAccount.withFaults indexAccount
  simp only [h]
  split
  · exact ⟨_, rfl⟩
  · exact ⟨_, rfl⟩

theorem stemTxLoop_withFaults_done (c : Collaborators) (outcome : Nat → Outcome)
    (h : ∀ n, outcome n = Outcome.done) :
    ∀ (txs : List Transaction) (k : Nat) (level : List Hash) (count calls : Nat)
      (store : IndexStore),
      ∃ calls', stemTxLoop.withFaults c outcome k txs level count calls store
        = ((stemTxLoop c k txs level count store).1, (stemTxLoop c k txs level count store).2.1,
            calls', (stemTxLoop c k txs level count store).2.2)
  | [], k, level, count, calls, store => ⟨calls, by simp only [stemTxLoop.withFaults, stemTxLoop]⟩
  | tx :: txs, k, level, count, calls, store => by
    unfold stemTxLoop.withFaults stemTxLoop
    by_cases hk : k = 0
    · simp only [hk, if_true]
      exact stemTxLoop_withFaults_done c outcome h txs _ _ _ _ _
    · simp only [hk, if_false]
      cases hx : c.ExtractTxPayload tx.Data.Payload with
      | error e => exact ⟨calls, rfl⟩
      | ok p =>
        simp only
        obtain ⟨c1, h1⟩ := indexAccount_withFaults_done outcome h tx.Data.From count calls store
        rw [h1]
        simp only
        obtain ⟨c2, h2⟩ := indexAccount_withFaults_done outcome h tx.Data.To
          (indexAccount tx.Data.From count store).1 c1 (indexAccount tx.Data.From count store).2
        rw [h2]
        simp only
        exact stemTxLoop_withFaults_done c outcome h txs _ _ _ _ _

theorem stemStateLoop_withFaults_done (c : Collaborators) (outcome : Nat → Outcome)
    (h : ∀ n, outcome n = Outcome.done) (statedb : Statedb) (db : Database) :
    ∀ (n i calls : Nat) (level : List Hash),
      stemStateLoop.withFaults c outcome statedb db n i calls level
        = stemStateLoop c statedb db n i level
  | 0, _, _, _ => rfl
  | n + 1, i, calls, level => by
    unfold stemStateLoop.withFaults stemStateLoop
    simp only [h]
    cases db.Get (encodeUint i) with
    | error e => rfl
    | ok bs =>
      simp only
      exact stemStateLoop_withFaults_done c outcome h statedb db n _ _ _

theorem getStemHashes_withFaults_done (c : Collaborators) (outcome : Nat → Outcome)
    (h : ∀ n, outcome n = Outcome.done) (statedb : Statedb) (task : Task) (store : IndexStore) :
    getStemHashes.withFaults c outcome statedb task store = getStemHashes c statedb task store := by
  unfold getStemHashes.withFaults getStemHashes
  obtain ⟨calls', h1⟩ := stemTxLoop_withFaults_done c outcome h task.txs 0 [] task.accountCount 0
    store
  rw [h1]
  rcases stemTxLoop c 0 task.txs [] task.accountCount store with ⟨r, n, s⟩
  cases r with
  | error e => rfl
  | ok level =>
    simp only
    rw [stemStateLoop_withFaults_done c outcome h]

theorem bft_withFaults_done (c : Collaborators) (BftExtraVanity RelayInterval : Nat)
    (GetBlockByHeight : Nat → Except Error Block)
    (rangeOrder : List (Address × Nat) → List (Address × Nat)) (fuel : Nat)
    (outcome : Nat → Outcome) (h : ∀ n, outcome n = Outcome.done)
    (statedb : Statedb) (parent : Block) (task : Task) (store : IndexStore) :
    applyTransactionsAndDebts.bft.withFaults c BftExtraVanity RelayInterval GetBlockByHeight
        rangeOrder fuel outcome statedb parent task store
      = applyTransactionsAndDebts.bft c BftExtraVanity RelayInterval GetBlockByHeight
        rangeOrder fuel statedb parent task store := by
  unfold applyTransactionsAndDebts.bft.withFaults applyTransactionsAndDebts.bft
  simp only [getStemHashes_withFaults_done c outcome h]

theorem indexAccount_withFaults_cases (outcome : Nat → Outcome) (a : Address)
    (count calls : Nat) (store : IndexStore) :
    (∃ calls', indexAccount.withFaults outcome a count calls store
      = (Except.ok (), (indexAccount a count store).1, calls',
          (indexAccount a count store).2)) ∨
    (∃ e count' calls' store',
      indexAccount.withFaults outcome a count calls store
        = (Except.error e, count', calls', store') ∧
      (store' = store ∨ store' = (indexAccount a count store).2 ∨
        (store.accountIndexDB.Has a.val = false ∧ store' = forwardOnly a count store))) := by
  have hi : ((count + 1) % 2 ^ 64 + 2 ^ 64 - 1) % 2 ^ 64 = count % 2 ^ 64 := by omega
  unfold indexAccount.withFaults indexAccount forwardOnly
  cases h0 : outcome calls with
  | failed e w => exact Or.inr ⟨e, _, _, _, rfl, Or.inl rfl⟩
  | done =>
    simp only
    cases hh : store.accountIndexDB.Has a.val with
    | true => exact Or.inl ⟨calls + 1, by simp only [if_true]⟩
    | false =>
      simp only [Bool.false_eq_true, if_false]
      cases h1 : outcome (calls + 1) with
      | failed e w =>
        refine Or.inr ⟨e, _, _, _, rfl, ?_⟩
        cases w with
        | false => exact Or.inl (by simp only [Bool.false_eq_true, if_false])
        | true => exact Or.inr (Or.inr ⟨trivial, by simp only [if_true, hi]⟩)
      | done =>
        simp only
        cases h2 : outcome (calls + 2) with
        | failed e w =>
          refine Or.inr ⟨e, _, _, _, rfl, ?_⟩
          cases w with
          | false =>
            exact Or.inr (Or.inr ⟨trivial, by simp only [Bool.false_eq_true, if_false, hi]⟩)
          | true => exact Or.inr (Or.inl (by simp only [if_true]))
        | done => exact Or.inl ⟨_, rfl⟩

theorem partlyAllocated_refl (accounts : List Address) (count : Nat) (store : IndexStore) :
    PartlyAllocated accounts count store store :=
  ⟨[], accounts, rfl, Or.inl rfl⟩

theorem partlyAllocated_all (accounts : List Address) (count : Nat) (store : IndexStore) :
    PartlyAllocated accounts count store (indexAccounts accounts count store).2 :=
  ⟨accounts, [], (List.append_nil accounts).symm, Or.inl rfl⟩

theorem partlyAllocated_cons (a : Address) (accounts : List Address) (count : Nat)
    (store store' : IndexStore)
    (h : PartlyAllocated accounts (indexAccount a count store).1 (indexAccount a count store).2
      store') :
    PartlyAllocated (a :: accounts) count store store' := by
  obtain ⟨done, rest, hsplit, hst⟩ := h
  exact ⟨a :: done, rest, by rw [hsplit]; rfl, hst⟩

theorem partlyAllocated_of_error (a : Address) (accounts : List Address) (count : Nat)
    (store store' : IndexStore)
    (h : store' = store ∨ store' = (indexAccount a count store).2 ∨
      (store.accountIndexDB.Has a.val = false ∧ store' = forwardOnly a count store)) :
    PartlyAllocated (a :: accounts) count store store' := by
  rcases h with h | h | ⟨hh, h⟩
  · rw [h]; exact partlyAllocated_refl _ _ _
  · rw [h]; exact ⟨[a], accounts, rfl, Or.inl rfl⟩
  · rw [h]; exact ⟨[], a :: accounts, rfl, Or.inr ⟨a, accounts, rfl, hh, rfl⟩⟩

theorem stemTxLoop_withFaults_store (c : Collaborators) (outcome : Nat → Outcome) :
    ∀ (txs : List Transaction) (k : Nat) (level : List Hash) (count calls : Nat)
      (store : IndexStore),
      (∃ level' calls', stemTxLoop.withFaults c outcome (k + 1) txs level count calls store
        = (Except.ok level', (indexAccounts (accountsOf txs) count store).1, calls',
            (indexAccounts (accountsOf txs) count store).2)) ∨
      (∃ e count' calls' store',
        stemTxLoop.withFaults c outcome (k + 1) txs level count calls store
          = (Except.error e, count', calls', store') ∧
        PartlyAllocated (accountsOf txs) count store store')
  | [], k, level, count, calls, store => Or.inl ⟨level, calls, rfl⟩
  | tx :: txs, k, level, count, calls, store => by
    unfold stemTxLoop.withFaults
    simp only [Nat.add_one_ne_zero, if_false]
    cases hx : c.ExtractTxPayload tx.Data.Payload with
    | error e => exact Or.inr ⟨e, _, _, _, rfl, partlyAllocated_refl _ _ _⟩
    | ok p =>
      simp only
      rcases indexAccount_withFaults_cases outcome tx.Data.From count calls store with
        ⟨c1, h1⟩ | ⟨e, n1, c1, s1, h1, hs1⟩
      · rw [h1]
        simp only
        rcases indexAccount_withFaults_cases outcome tx.Data.To
            (indexAccount tx.Data.From count store).1 c1
            (indexAccount tx.Data.From count store).2 with
          ⟨c2, h2⟩ | ⟨e, n2, c2, s2, h2, hs2⟩
        · rw [h2]
          simp only
          rcases stemTxLoop_withFaults_store c outcome txs (k + 1)
              (level ++ [p.HashForStem])
              (indexAccount tx.Data.To (indexAccount tx.Data.From count store).1
                (indexAccount tx.Data.From count store).2).1 c2
              (indexAccount tx.Data.To (indexAccount tx.Data.From count store).1
                (indexAccount tx.Data.From count store).2).2 with
            ⟨l3, c3, h3⟩ | ⟨e, n3, c3, s3, h3, hs3⟩
          · exact Or.inl ⟨l3, c3, h3⟩
          · exact Or.inr ⟨e, n3, c3, s3, h3,
              partlyAllocated_cons _ _ _ _ _ (partlyAllocated_cons _ _ _ _ _ hs3)⟩
        · rw [h2]
          exact Or.inr ⟨e, n2, c2, s2, rfl,
            partlyAllocated_cons _ _ _ _ _ (partlyAllocated_of_error _ _ _ _ _ hs2)⟩
      · rw [h1]
        exact Or.inr ⟨e, n1, c1, s1, rfl, partlyAllocated_of_error _ _ _ _ _ hs1⟩

theorem stemTxLoop_withFaults_store_zero (c : Collaborators) (outcome : Nat → Outcome)
    (txs : List Transaction) (count calls : Nat) (store : IndexStore) :
    (∃ level' calls', stemTxLoop.withFaults c outcome 0 txs [] count calls store
      = (Except.ok level', (indexAccounts (accountsOf (txs.drop 1)) count store).1, calls',
          (indexAccounts (accountsOf (txs.drop 1)) count store).2)) ∨
    (∃ e count' calls' store',
      stemTxLoop.withFaults c outcome 0 txs [] count calls store
        = (Except.error e, count', calls', store') ∧
      PartlyAllocated (accountsOf (txs.drop 1)) count store store') := by
  cases txs with
  | nil => exact Or.inl ⟨[], calls, rfl⟩
  | cons tx txs =>
    have h0 : stemTxLoop.withFaults c outcome 0 (tx :: txs) [] count calls store
        = stemTxLoop.withFaults c outcome (0 + 1) txs [] count calls store := by
      conv_lhs => unfold stemTxLoop.withFaults
      simp only [if_true]
    rw [h0]
    exact stemTxLoop_withFaults_store c outcome txs 0 [] count calls store

theorem getStemHashes_withFaults_store (c : Collaborators) (outcome : Nat → Outcome)
    (statedb : Statedb) (task : Task) (store : IndexStore) :
    PartlyAllocated (accountsOf (task.txs.drop 1)) task.accountCount store
        (getStemHashes.withFaults c outcome statedb task store).2.2 ∧
    (∀ hs, (getStemHashes.withFaults c outcome statedb task store).1 = Except.ok hs →
      (getStemHashes.withFaults c outcome statedb task store).2.2
        = (indexAccounts (accountsOf (task.txs.drop 1)) task.accountCount store).2) := by
  unfold getStemHashes.withFaults
  rcases stemTxLoop_withFaults_store_zero c outcome task.txs task.accountCount 0 store with
    ⟨l, c1, h1⟩ | ⟨e, n1, c1, s1, h1, hs1⟩
  · rw [h1]
    simp only
    constructor
    · split <;> exact partlyAllocated_all _ _ _
    · intro hs _
      split <;> rfl
  · rw [h1]
    simp only
    exact ⟨hs1, fun hs h => by cases h⟩

theorem bft_withFaults_store (c : Collaborators) (BftExtraVanity RelayInterval : Nat)
    (GetBlockByHeight : Nat → Except Error Block)
    (rangeOrder : List (Address × Nat) → List (Address × Nat)) (fuel : Nat)
    (outcome : Nat → Outcome) (statedb : Statedb) (parent : Block) (task : Task)
    (store : IndexStore) (res : Except Error Unit) (task' : Task) (store' : IndexStore)
    (swExtra : SecondWitnessInfo)
    (h : applyTransactionsAndDebts.bft.withFaults c BftExtraVanity RelayInterval
      GetBlockByHeight rangeOrder fuel outcome statedb parent task store
        = some (res, task', store'))
    (hex : ExtractSecondWitnessInfo BftExtraVanity parent.Header = Except.ok swExtra) :
    store' = (getStemHashes.withFaults c outcome statedb
        { task with accountCount := swExtra.AccountCount } store).2.2 ∧
    (res = Except.ok () →
      ∃ hs, (getStemHashes.withFaults c outcome statedb
        { task with accountCount := swExtra.AccountCount } store).1 = Except.ok hs) := by
  unfold applyTransactionsAndDebts.bft.withFaults at h
  rw [hex] at h
  simp only at h
  rcases hst : getStemHashes.withFaults c outcome statedb
      { task with accountCount := swExtra.AccountCount } store with ⟨r1, task2, store2⟩
  rw [hst] at h
  cases r1 with
  | error e =>
    simp only [Option.some.injEq, Prod.mk.injEq] at h
    refine ⟨h.2.2.symm, fun hr => ?_⟩
    rw [hr] at h
    cases h.1
  | ok hs =>
    obtain ⟨h1, h2⟩ := hs
    simp only at h
    cases hre : getRecentTxHashStem c RelayInterval GetBlockByHeight rangeOrder fuel task2 with
    | none => rw [hre] at h; simp at h
    | some r2 =>
      rw [hre] at h
      cases r2 with
      | error e =>
        simp only [Option.some.injEq, Prod.mk.injEq] at h
        exact ⟨h.2.2.symm, fun _ => ⟨_, rfl⟩⟩
      | ok h3 =>
        simp only [Option.some.injEq, Prod.mk.injEq] at h
        exact ⟨h.2.2.symm, fun _ => ⟨_, rfl⟩⟩

theorem bft_withFaults_extract_error (c : Collaborators) (BftExtraVanity RelayInterval : Nat)
    (GetBlockByHeight : Nat → Except Error Block)
    (rangeOrder : List (Address × Nat) → List (Address × Nat)) (fuel : Nat)
    (outcome : Nat → Outcome) (statedb : Statedb) (parent : Block) (task : Task)
    (store : IndexStore) (res : Except Error Unit) (task' : Task) (store' : IndexStore)
    (e : Error)
    (h : applyTransactionsAndDebts.bft.withFaults c BftExtraVanity RelayInterval
      GetBlockByHeight rangeOrder fuel outcome statedb parent task store
        = some (res, task', store'))
    (hex : ExtractSecondWitnessInfo BftExtraVanity parent.Header = Except.error e) :
    store' = store := by
  unfold applyTransactionsAndDebts.bft.withFaults at h
  rw [hex] at h
  simp only [Option.some.injEq, Prod.mk.injEq] at h
  exact h.2.2.symm

/-- **C23 (amended).** The index allocations of block assembly are written to the two maps of
the Account Index Store as they are made and are not staged. Whenever the BFT branch of
`applyTransactionsAndDebts` returns, with an error of `getStemHashes` or of a later step or
with success, and whichever calls on the index stores fail: the store it leaves is the store
before assembly with the allocations for the first addresses of the `From`/`To` sequence of
the non-reward transactions, starting at the account count of the parent, or those and the
address-to-index entry of the next address without its inverse (`PartlyAllocated`); on
success every address of the sequence is allocated; when no store call fails the allocated
addresses are those of the transactions in front of the first one whose stem payload does not
decode. The store is untouched when the parent's second witness does not decode. Each
allocation leaves the store as it is for an address that is indexed, and for a new address
writes the address-to-index entry and the index-to-address entry for the same index. -/
theorem assembly_store_keeps_allocations (c : Collaborators)
    (BftExtraVanity RelayInterval : Nat) (GetBlockByHeight : Nat → Except Error Block)
    (rangeOrder : List (Address × Nat) → List (Address × Nat)) (fuel : Nat)
    (outcome : Nat → Outcome) (statedb : Statedb) (parent : Block) (task : Task)
    (store : IndexStore) (res : Except Error Unit) (task' : Task) (store' : IndexStore)
    (h : applyTransactionsAndDebts.bft.withFaults c BftExtraVanity RelayInterval
      GetBlockByHeight rangeOrder fuel outcome statedb parent task store
        = some (res, task', store')) :
    (∀ e, ExtractSecondWitnessInfo BftExtraVanity parent.Header = Except.error e →
      store' = store) ∧
    (∀ swExtra, ExtractSecondWitnessInfo BftExtraVanity parent.Header = Except.ok swExtra →
      PartlyAllocated (accountsOf (task.txs.drop 1)) swExtra.AccountCount store store' ∧
      (res = Except.ok () →
        store' = (indexAccounts (accountsOf (task.txs.drop 1)) swExtra.AccountCount store).2) ∧
      ((∀ n, outcome n = Outcome.done) →
        store' = (indexAccounts (accountsOf (decodablePrefix c (task.txs.drop 1)))
          swExtra.AccountCount store).2)) ∧
    (∀ (a : Address) (count : Nat) (st : IndexStore),
      (st.accountIndexDB.Has a.val = true → (indexAccount a count st).2 = st) ∧
      (st.accountIndexDB.Has a.val = false →
        (indexAccount a count st).2
          = { accountIndexDB := st.accountIndexDB.Put a.val (encodeUint (count % 2 ^ 64)),
              indexAccountDB := st.indexAccountDB.Put (encodeUint (count % 2 ^ 64)) a.val })) := by
  refine ⟨fun e hex => ?_, fun swExtra hex => ⟨?_, ?_, ?_⟩, fun a count st => ⟨?_, ?_⟩⟩
  · exact bft_withFaults_extract_error c BftExtraVanity RelayInterval GetBlockByHeight
      rangeOrder fuel outcome statedb parent task store res task' store' e h hex
  · have hs := bft_withFaults_store c BftExtraVanity RelayInterval GetBlockByHeight
      rangeOrder fuel outcome statedb parent task store res task' store' swExtra h hex
    rw [hs.1]
    exact (getStemHashes_withFaults_store c outcome statedb
      { task with accountCount := swExtra.AccountCount } store).1
  · intro hr
    have hs := bft_withFaults_store c BftExtraVanity RelayInterval GetBlockByHeight
      rangeOrder fuel outcome statedb parent task store res task' store' swExtra h hex
    obtain ⟨hs1, hok⟩ := hs.2 hr
    rw [hs.1]
    exact (getStemHashes_withFaults_store c outcome statedb
      { task with accountCount := swExtra.AccountCount } store).2 hs1 hok
  · intro hdone
    rw [bft_withFaults_done c BftExtraVanity RelayInterval GetBlockByHeight rangeOrder fuel
      outcome hdone] at h
    have hs := bft_store c BftExtraVanity RelayInterval GetBlockByHeight rangeOrder fuel statedb
      parent task store res task' store' h
    rw [hex] at hs
    simp only at hs
    rw [hs, getStemHashes_state]
    simp only
    rw [stemTxLoop_store_zero]
  · intro h
    rw [indexAccount_of_has a count st h]
  · intro h
    have hi : ((count + 1) % 2 ^ 64 + 2 ^ 64 - 1) % 2 ^ 64 = count % 2 ^ 64 := by omega
    unfold indexAccount
    simp only [h, Bool.false_eq_true, if_false, hi]

theorem assembly_store_keeps_allocations_witness :
    putFailAssembly
      = some (Except.error Error.dbFailure, putFailTask,
          forwardOnly (sampleAddress 1) 0 emptyStore) ∧
    PartlyAllocated (accountsOf (txsAB.drop 1)) (parentWitnessInfo 0).AccountCount emptyStore
      (forwardOnly (sampleAddress 1) 0 emptyStore) :=
  ⟨rfl,
    ((assembly_store_keeps_allocations sampleCollaborators 32 100 noBlocks id 0 failThirdCall
      sampleStatedb (parentBlock 0) (sampleTask txsAB 0) emptyStore
      (Except.error Error.dbFailure) putFailTask (forwardOnly (sampleAddress 1) 0 emptyStore)
      rfl).2.1 (parentWitnessInfo 0) rfl).1⟩

/-- **C23, as stated, fails.** (1) The assembly of a block whose first transfer, from address 1
to address 2, decodes and whose second transfer does not: `getStemHashes` returns the decoding
error and the store, empty before, holds both addresses. (2) The assembly of one transfer at a
relay height over a chain store without blocks: `getStemHashes` succeeds,
`getRecentTxHashStem` fails on the missing block, and the store holds both addresses all the
same. (3) The assembly of one transfer from address 1 when the `Put` on the index-to-address
store fails: `getStemHashes` returns the error of the store, and the store holds the
address-to-index entry of address 1 while the index-to-address store holds nothing under
index 0. -/
theorem assembly_error_keeps_allocations :
    (match sampleAssembly txsABbad 0 emptyStore with
      | some (res, _, store) => some (res, store)
      | none => none) = some (Except.error Error.payloadDecode, sampleAssemblyStore) ∧
    (match relayFailAssembly with
      | some (res, _, store) => some (res, store)
      | none => none) = some (Except.error Error.blockNotFound, sampleAssemblyStore) ∧
    emptyStore.accountIndexDB.Has (sampleAddress 1).val = false ∧
    sampleAssemblyStore.accountIndexDB.Get (sampleAddress 1).val = Except.ok (encodeUint 0) ∧
    sampleAssemblyStore.indexAccountDB.Get (encodeUint 1) = Except.ok (sampleAddress 2).val ∧
    (match putFailAssembly with
      | some (res, _, store) =>
        some (res, store.accountIndexDB.Get (sampleAddress 1).val,
          store.indexAccountDB.Has (encodeUint 0))
      | none => none)
      = some (Except.error Error.dbFailure, Except.ok (encodeUint 0), false) := by
  refine ⟨rfl, rfl, by decide, by decide, by decide, by rfl⟩

end Seele
